import Mathlib

/-!
# Dragonfly2 peer daemon: the local task storage manager

A shallow embedding of `client/daemon/storage/storage_manager.go`, followed by the parts of
`client/config/peerhost.go` (`PeerHostOption.Validate`, `TCPListenPortRange.unmarshal`,
`CertPool`) and of the packages `atomiccount` and `plugins` that the claims are about.

* Go strings are `String`; `int64`/`int32` fields are `Int`; instants and durations
  are `Nat` (nanoseconds).
* `sync.Map` is an association list kept in insertion order; `Range` walks it front to back.
* The operating system is an explicit `FileSystem` value threaded through every call that
  touches the disk; every function that reads the clock takes the instant `now`.
* The methods of `localTaskStore` live in a file that is not part of the sources at hand.
  The manager only calls them, so they are the fields of two parameters named after the
  interfaces of the package, `TaskStorageDriver` and `Reclaimer`, and every theorem about
  the manager holds for every such behaviour unless its statement fixes one. Concrete runs,
  and the claim on a task marked for reclaim, use the methods as the spec describes them
  (`specReclaimer`, `specReadPiece`, `specGetPieces`).
* The steps `TryGC` and `forceGC` take on task stores and on their map entries are recorded
  in a `List Call`, returned next to the new state.
-/

namespace Dragonfly

/-! ## Errors -/

/-- The `syscall.Errno` values the model can produce. -/
inductive Errno where
  | ENOENT | EEXIST | ENOTDIR | EISDIR | ENOTEMPTY | EXDEV | EPERM | ELOOP | EINVAL
  deriving DecidableEq, Repr

/-- Text of an errno, as `syscall.Errno.Error` prints it on Linux. -/
def Errno.text : Errno → String
  | .ENOENT => "no such file or directory"
  | .EEXIST => "file exists"
  | .ENOTDIR => "not a directory"
  | .EISDIR => "is a directory"
  | .ENOTEMPTY => "directory not empty"
  | .EXDEV => "invalid cross-device link"
  | .EPERM => "operation not permitted"
  | .ELOOP => "too many levels of symbolic links"
  | .EINVAL => "invalid argument"

/-- A Go `error` value: the two sentinels of the storage package
(`ErrTaskNotFound`, `ErrPieceNotFound`), an `*os.PathError`/`*os.LinkError`,
or an error built from a message (`fmt.Errorf`, `errors.New`). -/
inductive GoError where
  | ErrTaskNotFound
  | ErrPieceNotFound
  | PathError (op : String) (path : String) (errno : Errno)
  | Errorf (text : String)
  deriving DecidableEq, Repr

/-- The method `Error()` of an error value. -/
def GoError.Error : GoError → String
  | .ErrTaskNotFound => "task not found"
  | .ErrPieceNotFound => "piece not found"
  | .PathError op path errno => op ++ " " ++ path ++ ": " ++ errno.text
  | .Errorf text => text

/-- The predicate `os.IsNotExist`. -/
def IsNotExist : GoError → Bool
  | .PathError _ _ .ENOENT => true
  | _ => false

/-- The predicate `os.IsExist`: `EEXIST` and `ENOTEMPTY` count as "exists". -/
def IsExist : GoError → Bool
  | .PathError _ _ .EEXIST => true
  | .PathError _ _ .ENOTEMPTY => true
  | _ => false

/-! ## Package `path` -/

/-- Cut a byte string at every `'/'` (`strings.Split(s, "/")`). -/
def splitSlash : List Char → List (List Char)
  | [] => [[]]
  | c :: cs =>
    match splitSlash cs with
    | [] => [[c]]
    | w :: ws => if c = '/' then [] :: w :: ws else (c :: w) :: ws

/-- The element loop of `path.Clean`, on path elements. `acc` is the output so far, last
element first. Empty and `.` elements are dropped; `..` removes the preceding element when
there is one that is not itself `..`, is dropped at the root of a rooted path, and is kept
otherwise. -/
def cleanElems (rooted : Bool) : List (List Char) → List (List Char) → List (List Char)
  | acc, [] => acc.reverse
  | acc, e :: es =>
    if e = [] ∨ e = ['.'] then cleanElems rooted acc es
    else if e = ['.', '.'] then
      match acc with
      | [] => if rooted then cleanElems rooted [] es else cleanElems rooted [e] es
      | top :: rest =>
        if top = ['.', '.'] then cleanElems rooted (e :: top :: rest) es
        else cleanElems rooted rest es
    else cleanElems rooted (e :: acc) es

/-- Join path elements with single slashes. -/
def joinSlash : List (List Char) → List Char
  | [] => []
  | [e] => e
  | e :: es => e ++ '/' :: joinSlash es

/-- The function `path.Clean`, on bytes. -/
def cleanChars (p : List Char) : List Char :=
  match p with
  | [] => ['.']
  | c :: _ =>
    let rooted : Bool := c = '/'
    let out := cleanElems rooted [] (splitSlash p)
    if rooted then '/' :: joinSlash out
    else if out = [] then ['.'] else joinSlash out

/-- The function `path.Clean`. -/
def pathClean (p : String) : String := String.mk (cleanChars p.data)

/-- The function `path.Join`: empty elements are ignored, the rest is joined with slashes
and cleaned; the result is empty when every element is empty. -/
def pathJoin (elem : List String) : String :=
  match (elem.map String.data).filter (fun e => e ≠ []) with
  | [] => ""
  | es => String.mk (cleanChars (joinSlash es))

/-- The function `path.Split`: the path up to and including its last slash, and the rest. -/
def pathSplit (p : String) : String × String :=
  let r := p.data.reverse
  (String.mk (r.dropWhile (fun c => c ≠ '/')).reverse,
   String.mk (r.takeWhile (fun c => c ≠ '/')).reverse)

/-- The function `path.Dir`: the cleaned directory part of `path.Split`. -/
def pathDir (p : String) : String := pathClean (pathSplit p).1

/-- The function `path.Base` for a clean path: its last element. -/
def pathBase (p : String) : String := (pathSplit p).2

/-- The function `path.IsAbs`. -/
def pathIsAbs (p : String) : Bool :=
  match p.data with
  | c :: _ => c = '/'
  | [] => false

/-! ## The operating system

A file system is a table from clean absolute paths to nodes. Regular files carry an inode
number, so that hard links share their content; directories carry the id of the device
they live on and a new entry lives on the device of its parent directory. Symbolic links
are followed at the last element of a path by the calls that follow them in `os`
(`Stat`, `Open`, `OpenFile`, `ReadDir`), at most `maxSymlinks` times. -/

/-- One entry of the file system. -/
inductive Node where
  | dir (dev : Nat)
  | file (ino : Nat)
  | symlink (target : String)
  deriving DecidableEq, Repr

/-- Is the node a directory (`FileInfo.IsDir`). -/
def Node.IsDir : Node → Bool
  | .dir _ => true
  | _ => false

/-- Is the node a symbolic link (`Mode()&os.ModeSymlink == os.ModeSymlink`). -/
def Node.IsSymlink : Node → Bool
  | .symlink _ => true
  | _ => false

/-- The state of the disk. -/
structure FileSystem where
  /-- device of the root directory -/
  rootDev : Nat
  /-- working directory of the process, against which relative paths resolve -/
  cwd : String
  /-- every entry other than the root, by clean absolute path -/
  nodes : List (String × Node)
  /-- content of the regular files, by inode number -/
  inodes : List (Nat × String)
  /-- the next unused inode number -/
  nextIno : Nat
  deriving DecidableEq, Repr

/-- An open file (`*os.File`): the name it was opened under and the node it refers to. -/
structure OsFile where
  name : String
  node : Node
  deriving DecidableEq, Repr

/-- The order of Go strings (`a <= b`), byte by byte. -/
def leString : List Char → List Char → Bool
  | [], _ => true
  | _ :: _, [] => false
  | a :: as, b :: bs =>
    if a.toNat < b.toNat then true
    else if b.toNat < a.toNat then false
    else leString as bs

/-- Insert a name into a sorted list of names. -/
def insertName (a : String) : List String → List String
  | [] => [a]
  | b :: bs => if leString a.data b.data then a :: b :: bs else b :: insertName a bs

/-- Sort names, as `ioutil.ReadDir` sorts the entries of a directory by filename. -/
def sortNames : List String → List String
  | [] => []
  | a :: as => insertName a (sortNames as)

/-- Bound on the number of symbolic links followed in one lookup. -/
def maxSymlinks : Nat := 40

namespace FileSystem

/-- The clean absolute form of a path; the empty path names nothing. -/
def abs (fs : FileSystem) (p : String) : Option String :=
  if p = "" then none
  else if pathIsAbs p then some (pathClean p)
  else some (pathJoin [fs.cwd, p])

/-- The node stored at a clean absolute path, without following a link. -/
def lookup (fs : FileSystem) (p : String) : Option Node :=
  if p = "/" then some (.dir fs.rootDev) else fs.nodes.lookup p

/-- The errno of a failed lookup of `p`: `ENOTDIR` when the parent is there and is not a
directory, `ENOENT` otherwise. -/
def missing (fs : FileSystem) (p : String) : Errno :=
  match fs.lookup (pathDir p) with
  | some (.dir _) => .ENOENT
  | some _ => .ENOTDIR
  | none => .ENOENT

/-- Follow symbolic links at the last element of `p`: the path finally named, and the node
there when there is one. A relative link target is taken from the directory of the link. -/
def follow (fs : FileSystem) : Nat → String → Except Errno (String × Option Node)
  | 0, _ => .error .ELOOP
  | n + 1, p =>
    match fs.lookup p with
    | some (.symlink t) =>
      if t = "" then .error .ENOENT
      else follow fs n (if pathIsAbs t then pathClean t else pathJoin [pathDir p, t])
    | r => .ok (p, r)

/-- The device a node at path `p` lives on. -/
def devOf (fs : FileSystem) (p : String) : Node → Nat
  | .dir dev => dev
  | _ =>
    match fs.lookup (pathDir p) with
    | some (.dir dev) => dev
    | _ => fs.rootDev

/-- Put a node at a clean absolute path, replacing what was there. -/
def put (fs : FileSystem) (p : String) (nd : Node) : FileSystem :=
  { fs with nodes := (fs.nodes.filter (fun e => e.1 ≠ p)) ++ [(p, nd)] }

/-- The names of the entries of the directory at clean absolute path `d`, sorted. -/
def entries (fs : FileSystem) (d : String) : List String :=
  sortNames ((fs.nodes.filter (fun e => e.1 ≠ "/" ∧ pathDir e.1 = d)).map
    (fun e => pathBase e.1))

/-- The call `os.Lstat`: the node at the path itself. -/
def Lstat (fs : FileSystem) (name : String) : Except GoError Node :=
  match fs.abs name with
  | none => .error (.PathError "lstat" name .ENOENT)
  | some p =>
    match fs.lookup p with
    | some nd => .ok nd
    | none => .error (.PathError "lstat" name (fs.missing p))

/-- The call `os.Stat`: the node the path leads to, and the device it lives on. A name
that ends in a slash must lead to a directory. -/
def Stat (fs : FileSystem) (name : String) : Except GoError (Node × Nat) :=
  match fs.abs name with
  | none => .error (.PathError "stat" name .ENOENT)
  | some p =>
    match fs.follow maxSymlinks p with
    | .error e => .error (.PathError "stat" name e)
    | .ok (q, none) => .error (.PathError "stat" name (fs.missing q))
    | .ok (q, some nd) =>
      if name.data.getLast? = some '/' ∧ ¬ nd.IsDir then .error (.PathError "stat" name .ENOTDIR)
      else .ok (nd, fs.devOf q nd)

/-- The call `os.Mkdir`. -/
def Mkdir (fs : FileSystem) (name : String) : Option GoError × FileSystem :=
  match fs.abs name with
  | none => (some (.PathError "mkdir" name .ENOENT), fs)
  | some p =>
    match fs.lookup p with
    | some _ => (some (.PathError "mkdir" name .EEXIST), fs)
    | none =>
      match fs.lookup (pathDir p) with
      | some (.dir dev) => (none, fs.put p (.dir dev))
      | some _ => (some (.PathError "mkdir" name .ENOTDIR), fs)
      | none => (some (.PathError "mkdir" name .ENOENT), fs)

/-- The recursion of `os.MkdirAll` on a clean absolute path, over the number of its
elements: done when the path leads to a directory, an error when it leads to something
else; otherwise the parent is made first and then the directory itself, and a failure of
that last `Mkdir` is forgiven when the path is a directory after all. -/
def mkdirAllAux (fs : FileSystem) : Nat → String → Option GoError × FileSystem
  | 0, p => fs.Mkdir p
  | n + 1, p =>
    match fs.Stat p with
    | .ok (nd, _) =>
      if nd.IsDir then (none, fs) else (some (.PathError "mkdir" p .ENOTDIR), fs)
    | .error _ =>
      match (if pathDir p = "/" then (none, fs) else mkdirAllAux fs n (pathDir p)) with
      | (some e, fs1) => (some e, fs1)
      | (none, fs1) =>
        match fs1.Mkdir p with
        | (none, fs2) => (none, fs2)
        | (some e, fs2) =>
          match fs2.Lstat p with
          | .ok (.dir _) => (none, fs2)
          | _ => (some e, fs2)

/-- The call `os.MkdirAll`. -/
def MkdirAll (fs : FileSystem) (name : String) : Option GoError × FileSystem :=
  match fs.abs name with
  | none => (some (.PathError "mkdir" name .ENOENT), fs)
  | some p => mkdirAllAux fs (splitSlash p.data).length p

/-- The call `os.OpenFile(name, os.O_CREATE|os.O_RDWR, perm)`: opens the regular file the
path leads to and creates it, empty, when nothing is there. -/
def OpenFile (fs : FileSystem) (name : String) : Except GoError OsFile × FileSystem :=
  match fs.abs name with
  | none => (.error (.PathError "open" name .ENOENT), fs)
  | some p =>
    match fs.follow maxSymlinks p with
    | .error e => (.error (.PathError "open" name e), fs)
    | .ok (_, some (.dir _)) => (.error (.PathError "open" name .EISDIR), fs)
    | .ok (_, some nd) => (.ok ⟨name, nd⟩, fs)
    | .ok (q, none) =>
      match fs.lookup (pathDir q) with
      | some (.dir _) =>
        (.ok ⟨name, .file fs.nextIno⟩,
         { fs.put q (.file fs.nextIno) with
           inodes := fs.inodes ++ [(fs.nextIno, "")], nextIno := fs.nextIno + 1 })
      | some _ => (.error (.PathError "open" name .ENOTDIR), fs)
      | none => (.error (.PathError "open" name .ENOENT), fs)

/-- The call `os.Open`: opens what the path leads to for reading; a directory opens too. -/
def Open (fs : FileSystem) (name : String) : Except GoError OsFile :=
  match fs.abs name with
  | none => .error (.PathError "open" name .ENOENT)
  | some p =>
    match fs.follow maxSymlinks p with
    | .error e => .error (.PathError "open" name e)
    | .ok (q, none) => .error (.PathError "open" name (fs.missing q))
    | .ok (_, some nd) => .ok ⟨name, nd⟩

/-- The call `ioutil.ReadAll` on an open file: the whole content of a regular file; a
directory cannot be read. -/
def ReadAll (fs : FileSystem) (f : OsFile) : Except GoError String :=
  match f.node with
  | .file ino => .ok ((fs.inodes.lookup ino).getD "")
  | _ => .error (.PathError "read" f.name .EISDIR)

/-- The call `ioutil.ReadDir`: the names of the entries of a directory, sorted. -/
def ReadDir (fs : FileSystem) (name : String) : Except GoError (List String) :=
  match fs.abs name with
  | none => .error (.PathError "open" name .ENOENT)
  | some p =>
    match fs.follow maxSymlinks p with
    | .error e => .error (.PathError "open" name e)
    | .ok (q, none) => .error (.PathError "open" name (fs.missing q))
    | .ok (q, some (.dir _)) => .ok (fs.entries q)
    | .ok (_, some _) => .error (.PathError "readdirent" name .ENOTDIR)

/-- The call `os.Remove`: removes the entry at the path itself; a directory must be empty. -/
def Remove (fs : FileSystem) (name : String) : Option GoError × FileSystem :=
  match fs.abs name with
  | none => (some (.PathError "remove" name .ENOENT), fs)
  | some p =>
    match fs.nodes.lookup p with
    | none => (some (.PathError "remove" name (fs.missing p)), fs)
    | some (.dir _) =>
      if fs.entries p = [] then (none, { fs with nodes := fs.nodes.filter (fun e => e.1 ≠ p) })
      else (some (.PathError "remove" name .ENOTEMPTY), fs)
    | some _ => (none, { fs with nodes := fs.nodes.filter (fun e => e.1 ≠ p) })

/-- The call `os.Readlink`. -/
def Readlink (fs : FileSystem) (name : String) : Except GoError String :=
  match fs.abs name with
  | none => .error (.PathError "readlink" name .ENOENT)
  | some p =>
    match fs.lookup p with
    | some (.symlink t) => .ok t
    | some _ => .error (.PathError "readlink" name .EINVAL)
    | none => .error (.PathError "readlink" name (fs.missing p))

/-- Create the entry `nd` at `newname` for `os.Link`/`os.Symlink`: the name must be free
and its parent a directory. -/
def create (fs : FileSystem) (op : String) (newname : String) (nd : Node) :
    Option GoError × FileSystem :=
  match fs.abs newname with
  | none => (some (.PathError op newname .ENOENT), fs)
  | some q =>
    match fs.lookup q with
    | some _ => (some (.PathError op newname .EEXIST), fs)
    | none =>
      match fs.lookup (pathDir q) with
      | some (.dir _) => (none, fs.put q nd)
      | some _ => (some (.PathError op newname .ENOTDIR), fs)
      | none => (some (.PathError op newname .ENOENT), fs)

/-- The call `os.Link`: a second name for the entry at `oldname` (not followed), which
must not be a directory and must live on the device of the new name's directory. -/
def Link (fs : FileSystem) (oldname newname : String) : Option GoError × FileSystem :=
  match fs.abs oldname, fs.abs newname with
  | some p, some q =>
    match fs.lookup p with
    | none => (some (.PathError "link" oldname (fs.missing p)), fs)
    | some (.dir _) => (some (.PathError "link" oldname .EPERM), fs)
    | some nd =>
      match fs.lookup q, fs.lookup (pathDir q) with
      | none, some (.dir dev) =>
        if fs.devOf p nd = dev then fs.create "link" newname nd
        else (some (.PathError "link" oldname .EXDEV), fs)
      | _, _ => fs.create "link" newname nd
  | _, _ => (some (.PathError "link" oldname .ENOENT), fs)

/-- The call `os.Symlink`: a symbolic link at `newname` with the text `oldname`. -/
def Symlink (fs : FileSystem) (oldname newname : String) : Option GoError × FileSystem :=
  if oldname = "" then (some (.PathError "symlink" oldname .ENOENT), fs)
  else fs.create "symlink" newname (.symlink oldname)

end FileSystem

deriving instance DecidableEq for Except

/-! ## Types of the storage package -/

/-- Modelled from the spec: the name of the data entry inside a task directory
(constant `taskData`, declared outside the sources at hand; the layout is
`<dataRoot>/<taskID>/<peerID>/data`). -/
def taskData : String := "data"

/-- Modelled from the spec: the name of the metadata file inside a task directory
(constant `taskMetaData`, declared outside the sources at hand; the layout is
`<dataRoot>/<taskID>/<peerID>/task.meta`). -/
def taskMetaData : String := "task.meta"

/-- Modelled from the spec: the tag of the Simple placement strategy
(`config.SimpleLocalTaskStoreStrategy`, declared outside the sources at hand). -/
def SimpleLocalTaskStoreStrategy : String := "Simple"

/-- Modelled from the spec: the tag of the Advance placement strategy
(`config.AdvanceLocalTaskStoreStrategy`, declared outside the sources at hand). -/
def AdvanceLocalTaskStoreStrategy : String := "Advance"

/-- The struct `config.StorageOption`: its data path and task expiry. -/
structure StorageOption where
  DataPath : String
  TaskExpireTime : Nat
  deriving DecidableEq, Repr

/-- The key of the task map: `PeerTaskMetaData{PeerID, TaskID}`. -/
structure PeerTaskMetaData where
  PeerID : String
  TaskID : String
  deriving DecidableEq, Repr

/-- Modelled from the spec: one piece of a task (`PieceMetaData`, the spec's `PieceRef`):
number, digest, offset, length and style. -/
structure PieceMetaData where
  Num : Int
  Md5 : String
  Offset : Nat
  Length : Nat
  Style : Nat
  deriving DecidableEq, Repr

/-- Modelled from the spec: the struct `persistentMetadata` (declared outside the sources
at hand), with the fields `CreateTask` fills and the optional piece digest of the spec's
data model. Its zero value is the default. -/
structure persistentMetadata where
  StoreStrategy : String := ""
  TaskID : String := ""
  TaskMeta : List (String × String) := []
  ContentLength : Int := 0
  TotalPieces : Int := 0
  PeerID : String := ""
  Pieces : List (Int × PieceMetaData) := []
  PieceMd5Sign : String := ""
  DataFilePath : String := ""
  deriving DecidableEq, Repr

/-- The identity of a GC callback; what it does lies outside the manager. -/
abbrev GCCallback := Nat

/-- Modelled from the spec: the struct `localTaskStore` (declared outside the sources at
hand), with the fields the manager fills in `CreateTask` and `ReloadPersistentTask` and the
two flags of the spec's data model (`reclaimMarked`, `invalid`). The zero instant is `0`.
Logger and lock carry no data. -/
structure localTaskStore extends persistentMetadata where
  dataDir : String := ""
  metadataFile : Option OsFile := none
  metadataFilePath : String := ""
  expireTime : Nat := 0
  lastAccess : Nat := 0
  reclaimMarked : Bool := false
  invalid : Bool := false
  gcCallback : GCCallback := 0
  deriving DecidableEq, Repr

/-- Modelled from the spec: the request of `RegisterTask` (declared outside the sources at
hand), with the fields `RegisterTask` and `CreateTask` read. -/
structure RegisterTaskRequest where
  PeerID : String
  TaskID : String
  Destination : String
  ContentLength : Int
  TotalPieces : Int
  deriving DecidableEq, Repr

/-- Modelled from the spec: the request of `WritePiece` (declared outside the sources at
hand): the key, the piece and the bytes of its reader. -/
structure WritePieceRequest where
  PeerID : String
  TaskID : String
  Piece : PieceMetaData
  Reader : String
  deriving DecidableEq, Repr

/-- Modelled from the spec: the request of `ReadPiece` (declared outside the sources at
hand): the key and the piece. -/
structure ReadPieceRequest where
  PeerID : String
  TaskID : String
  Piece : PieceMetaData
  deriving DecidableEq, Repr

/-- Modelled from the spec: the request of `Store` (declared outside the sources at hand):
the key, the destination and whether only the data is stored. -/
structure StoreRequest where
  PeerID : String
  TaskID : String
  Destination : String
  StoreOnly : Bool
  deriving DecidableEq, Repr

/-- Modelled from the spec: the request of `UpdateTask` (declared outside the sources at
hand): the key and the values to set. -/
structure UpdateTaskRequest where
  PeerID : String
  TaskID : String
  ContentLength : Int
  TotalPieces : Int
  PieceMd5Sign : String
  deriving DecidableEq, Repr

/-- Modelled from the spec: the request of `GetPieces` (`base.PieceTaskRequest`, declared
outside the sources at hand); the manager reads `TaskId` and `DstPid`. -/
structure PieceTaskRequest where
  TaskId : String
  SrcPid : String
  DstPid : String
  StartNum : Nat
  Limit : Nat
  deriving DecidableEq, Repr

/-- Modelled from the spec: the answer of `GetPieces` (`base.PiecePacket`, declared
outside the sources at hand). -/
structure PiecePacket where
  TaskId : String
  DstPid : String
  PieceInfos : List PieceMetaData
  TotalPiece : Int
  ContentLength : Int
  PieceMd5Sign : String
  deriving DecidableEq, Repr

/-- An `io.Reader` handed out by `ReadPiece`: the bytes it yields. -/
abbrev Reader := String

/-- An `io.Closer` handed out by `ReadPiece`: the file it closes. -/
abbrev Closer := OsFile

/-- The interface `TaskStorageDriver`, as a task store implements it: each method gets the
instant of the call, the store, the request and the disk, and gives its results, the store
as the call leaves it, and the disk. -/
structure TaskStorageDriver where
  WritePiece : Nat → localTaskStore → WritePieceRequest → FileSystem →
    (Int × Option GoError) × localTaskStore × FileSystem
  ReadPiece : Nat → localTaskStore → ReadPieceRequest → FileSystem →
    (Option Reader × Option Closer × Option GoError) × localTaskStore × FileSystem
  GetPieces : Nat → localTaskStore → PieceTaskRequest → FileSystem →
    (Option PiecePacket × Option GoError) × localTaskStore × FileSystem
  UpdateTask : Nat → localTaskStore → UpdateTaskRequest → FileSystem →
    Option GoError × localTaskStore × FileSystem
  Store : Nat → localTaskStore → StoreRequest → FileSystem →
    Option GoError × localTaskStore × FileSystem

/-- The interface `Reclaimer`, as a task store implements it. -/
structure Reclaimer where
  /-- whether the storage can be reclaimed, at the given instant -/
  CanReclaim : Nat → localTaskStore → Bool
  /-- marks the storage which will be reclaimed -/
  MarkReclaim : localTaskStore → localTaskStore
  /-- reclaims the storage -/
  Reclaim : localTaskStore → FileSystem → Option GoError × FileSystem

/-- What the manager takes from the standard library beyond `os` and `path`: the decoder
behind `json.Unmarshal` into a `persistentMetadata`, and `strconv.Quote` behind the verb
`%q`. -/
structure Stdlib where
  jsonDecode : String → Except GoError persistentMetadata
  Quote : String → String

/-- The call `json.Unmarshal(bytes, &t.persistentMetadata)` on a zero value: empty input
is an error ("unexpected end of JSON input"), anything else is up to the decoder. -/
def jsonUnmarshal (lib : Stdlib) (bytes : String) : Except GoError persistentMetadata :=
  if bytes = "" then .error (.Errorf "unexpected end of JSON input") else lib.jsonDecode bytes

/-- One step the manager takes on a task store or on the map entry of its key, recorded
in the order of execution. -/
inductive Call where
  | CanReclaim (key : PeerTaskMetaData) (result : Bool)
  | MarkReclaim (key : PeerTaskMetaData)
  | Delete (key : PeerTaskMetaData)
  | Reclaim (key : PeerTaskMetaData) (err : Option GoError)
  deriving DecidableEq, Repr

/-! ## The task map (`sync.Map`) -/

/-- The task map: keys with their stores, in insertion order. -/
abbrev SyncMap := List (PeerTaskMetaData × localTaskStore)

namespace SyncMap

/-- The method `Load`. -/
def Load : SyncMap → PeerTaskMetaData → Option localTaskStore
  | [], _ => none
  | (k, v) :: m, key => if k = key then some v else Load m key

/-- The method `Store`: replaces the value of a present key, adds an absent one. -/
def Store : SyncMap → PeerTaskMetaData → localTaskStore → SyncMap
  | [], key, value => [(key, value)]
  | (k, v) :: m, key, value =>
    if k = key then (key, value) :: m else (k, v) :: Store m key value

/-- The method `Delete`. -/
def Delete (m : SyncMap) (key : PeerTaskMetaData) : SyncMap :=
  m.filter (fun e => e.1 ≠ key)

/-- The keys of the map, in the order `Range` visits them. -/
def keys (m : SyncMap) : List PeerTaskMetaData := m.map Prod.fst

end SyncMap

/-! ## The storage manager -/

/-- The struct `storageManager`. `KeepAlive` holds the instants of the `Keep` calls, the
latest last; `dataPathStat` holds the device id of the data path. -/
structure storageManager where
  KeepAlive : List Nat
  storeStrategy : String
  storeOption : StorageOption
  tasks : SyncMap
  markedReclaimTasks : List PeerTaskMetaData
  dataPathStat : Nat
  gcCallback : GCCallback
  deriving DecidableEq, Repr

namespace storageManager

/-- Modelled from the spec: the method `Keep` of the embedded `clientutil.KeepAlive`
(declared outside the sources at hand) records a touch at `now`. -/
def Keep (s : storageManager) (now : Nat) : storageManager :=
  { s with KeepAlive := s.KeepAlive ++ [now] }

/-- The method `LoadTask`. -/
def LoadTask (s : storageManager) (now : Nat) (meta : PeerTaskMetaData) :
    Option localTaskStore × storageManager :=
  (s.tasks.Load meta, s.Keep now)

/-- The `switch t.StoreStrategy` of `CreateTask`, which places the data file of the store
`t` and installs the entry `data` in its directory; `dataPathStat` is the device of the
data path. A tag that is neither Simple nor Advance matches no case. -/
def createData (dataPathStat : Nat) (req : RegisterTaskRequest) (t : localTaskStore)
    (data : String) (fs2 : FileSystem) : Except GoError localTaskStore × FileSystem :=
  if t.StoreStrategy = SimpleLocalTaskStoreStrategy then
    let t := { t with DataFilePath := data }
    match fs2.OpenFile t.DataFilePath with
    | (.error err, fs3) => (.error err, fs3)
    | (.ok _, fs3) => (.ok t, fs3)
  else if t.StoreStrategy = AdvanceLocalTaskStoreStrategy then
    match pathSplit req.Destination with
    | (dir, file) =>
      match fs2.Stat dir with
      | .error err => (.error err, fs2)
      | .ok (_, dev) =>
        let cache := "." ++ file ++ ".dfget.cache." ++ req.PeerID
        let t := { t with DataFilePath := pathJoin [dir, cache] }
        match fs2.OpenFile t.DataFilePath with
        | (.error err, fs3) => (.error err, fs3)
        | (.ok _, fs3) =>
          -- same dev, can hard link
          if dev = dataPathStat then
            match fs3.Link t.DataFilePath data with
            | (none, fs4) => (.ok t, fs4)
            | (some _, fs4) =>
              -- fallback to symbol link
              match fs4.Symlink t.DataFilePath data with
              | (some err, fs5) => (.error err, fs5)
              | (none, fs5) => (.ok t, fs5)
          else
            -- make symbol link for reload error gc
            match fs3.Symlink t.DataFilePath data with
            | (some err, fs4) => (.error err, fs4)
            | (none, fs4) => (.ok t, fs4)
  else (.ok t, fs2)

/-- The method `CreateTask`. -/
def CreateTask (s : storageManager) (now : Nat) (req : RegisterTaskRequest)
    (fs : FileSystem) : Option GoError × storageManager × FileSystem :=
  let s := s.Keep now
  let dataDir := pathJoin [s.storeOption.DataPath, req.TaskID, req.PeerID]
  let t : localTaskStore :=
    { StoreStrategy := s.storeStrategy,
      TaskID := req.TaskID,
      TaskMeta := [],
      ContentLength := req.ContentLength,
      TotalPieces := req.TotalPieces,
      PeerID := req.PeerID,
      Pieces := [],
      gcCallback := s.gcCallback,
      dataDir := dataDir,
      metadataFilePath := pathJoin [dataDir, taskMetaData],
      expireTime := s.storeOption.TaskExpireTime }
  match fs.MkdirAll t.dataDir with
  | (err, fs1) =>
    if err.any (fun e => !IsExist e) then (err, s, fs1)
    else
      match fs1.OpenFile t.metadataFilePath with
      | (.error err, fs2) => (some err, s, fs2)
      | (.ok metadata, fs2) =>
        let t := { t with metadataFile := some metadata }
        -- fallback to simple strategy for proxy
        let t := if req.Destination = "" then
          { t with StoreStrategy := SimpleLocalTaskStoreStrategy } else t
        let data := pathJoin [dataDir, taskData]
        match createData s.dataPathStat req t data fs2 with
        | (.error err, fs3) => (some err, s, fs3)
        | (.ok t, fs3) =>
          (none, { s with tasks := s.tasks.Store ⟨req.PeerID, req.TaskID⟩ t }, fs3)

/-- The method `RegisterTask`: a probe, a second probe (under the lock), then `CreateTask`. -/
def RegisterTask (s : storageManager) (now : Nat) (req : RegisterTaskRequest)
    (fs : FileSystem) : Option GoError × storageManager × FileSystem :=
  match s.LoadTask now ⟨req.PeerID, req.TaskID⟩ with
  | (some _, s1) => (none, s1, fs)
  | (none, s1) =>
    -- double check if task store exists
    match s1.LoadTask now ⟨req.PeerID, req.TaskID⟩ with
    | (some _, s2) => (none, s2, fs)
    | (none, s2) =>
      -- still not exist, create a new task store
      s2.CreateTask now req fs

/-- The method `WritePiece` of the manager. -/
def WritePiece (drv : TaskStorageDriver) (s : storageManager) (now : Nat)
    (req : WritePieceRequest) (fs : FileSystem) :
    (Int × Option GoError) × storageManager × FileSystem :=
  match s.LoadTask now ⟨req.PeerID, req.TaskID⟩ with
  | (none, s1) => ((0, some .ErrTaskNotFound), s1, fs)
  | (some t, s1) =>
    match drv.WritePiece now t req fs with
    | (r, t1, fs1) => (r, { s1 with tasks := s1.tasks.Store ⟨req.PeerID, req.TaskID⟩ t1 }, fs1)

/-- The method `ReadPiece` of the manager. -/
def ReadPiece (drv : TaskStorageDriver) (s : storageManager) (now : Nat)
    (req : ReadPieceRequest) (fs : FileSystem) :
    (Option Reader × Option Closer × Option GoError) × storageManager × FileSystem :=
  match s.LoadTask now ⟨req.PeerID, req.TaskID⟩ with
  | (none, s1) => ((none, none, some .ErrTaskNotFound), s1, fs)
  | (some t, s1) =>
    match drv.ReadPiece now t req fs with
    | (r, t1, fs1) => (r, { s1 with tasks := s1.tasks.Store ⟨req.PeerID, req.TaskID⟩ t1 }, fs1)

/-- The method `Store` of the manager. -/
def Store (drv : TaskStorageDriver) (s : storageManager) (now : Nat)
    (req : StoreRequest) (fs : FileSystem) : Option GoError × storageManager × FileSystem :=
  match s.LoadTask now ⟨req.PeerID, req.TaskID⟩ with
  | (none, s1) => (some .ErrTaskNotFound, s1, fs)
  | (some t, s1) =>
    match drv.Store now t req fs with
    | (r, t1, fs1) => (r, { s1 with tasks := s1.tasks.Store ⟨req.PeerID, req.TaskID⟩ t1 }, fs1)

/-- The method `GetPieces` of the manager; the key is `(TaskId, DstPid)`. -/
def GetPieces (drv : TaskStorageDriver) (s : storageManager) (now : Nat)
    (req : PieceTaskRequest) (fs : FileSystem) :
    (Option PiecePacket × Option GoError) × storageManager × FileSystem :=
  match s.LoadTask now ⟨req.DstPid, req.TaskId⟩ with
  | (none, s1) => ((none, some .ErrTaskNotFound), s1, fs)
  | (some t, s1) =>
    match drv.GetPieces now t req fs with
    | (r, t1, fs1) => (r, { s1 with tasks := s1.tasks.Store ⟨req.DstPid, req.TaskId⟩ t1 }, fs1)

/-- The method `UpdateTask` of the manager. -/
def UpdateTask (drv : TaskStorageDriver) (s : storageManager) (now : Nat)
    (req : UpdateTaskRequest) (fs : FileSystem) :
    Option GoError × storageManager × FileSystem :=
  match s.LoadTask now ⟨req.PeerID, req.TaskID⟩ with
  | (none, s1) => (some .ErrTaskNotFound, s1, fs)
  | (some t, s1) =>
    match drv.UpdateTask now t req fs with
    | (r, t1, fs1) => (r, { s1 with tasks := s1.tasks.Store ⟨req.PeerID, req.TaskID⟩ t1 }, fs1)

end storageManager

/-- What the scan of `ReloadPersistentTask` has gathered so far: the task map, the load
errors (`loadErrs`) and the directories that failed to load (`loadErrDirs`). -/
structure ReloadScan where
  tasks : SyncMap
  loadErrs : List GoError
  loadErrDirs : List String
  deriving DecidableEq, Repr

namespace storageManager

/-- The body of the inner loop of `ReloadPersistentTask`, for the entry `peerID` of the
task directory `taskID`: open, read and parse the metadata file; on the first failure note
the error and the directory and go on, otherwise store the task under `(peerID, taskID)`. -/
def reloadPeerDir (lib : Stdlib) (s : storageManager) (now : Nat) (gcCallback : GCCallback)
    (fs : FileSystem) (taskID : String) (acc : ReloadScan) (peerID : String) : ReloadScan :=
  let dataDir := pathJoin [s.storeOption.DataPath, taskID, peerID]
  let t : localTaskStore :=
    { dataDir := dataDir,
      metadataFilePath := pathJoin [dataDir, taskMetaData],
      expireTime := s.storeOption.TaskExpireTime,
      lastAccess := now,
      gcCallback := gcCallback }
  match fs.Open t.metadataFilePath with
  | .error err =>
    { acc with loadErrs := acc.loadErrs ++ [err], loadErrDirs := acc.loadErrDirs ++ [dataDir] }
  | .ok f =>
    let t := { t with metadataFile := some f }
    match fs.ReadAll f with
    | .error err0 =>
      { acc with loadErrs := acc.loadErrs ++ [err0], loadErrDirs := acc.loadErrDirs ++ [dataDir] }
    | .ok bytes =>
      match jsonUnmarshal lib bytes with
      | .error err0 =>
        { acc with loadErrs := acc.loadErrs ++ [err0],
                   loadErrDirs := acc.loadErrDirs ++ [dataDir] }
      | .ok md =>
        let t := { t with topersistentMetadata := md }
        { acc with tasks := acc.tasks.Store ⟨peerID, taskID⟩ t }

/-- The body of the outer loop of `ReloadPersistentTask`, for the entry `taskID` of the
data path: an entry whose directory cannot be read is passed over. -/
def reloadTaskDir (lib : Stdlib) (s : storageManager) (now : Nat) (gcCallback : GCCallback)
    (fs : FileSystem) (acc : ReloadScan) (taskID : String) : ReloadScan :=
  match fs.ReadDir (pathJoin [s.storeOption.DataPath, taskID]) with
  | .error _ => acc
  | .ok peerDirs => peerDirs.foldl (reloadPeerDir lib s now gcCallback fs taskID) acc

/-- The body of the loop that removes a directory that failed to load: its metadata file,
its data entry (and, for a symbolic link, what it points to), then the directory. Every
failure is logged and passed over. -/
def removeLoadErrDir (fs : FileSystem) (dir : String) : FileSystem :=
  -- remove metadata
  let fs1 := (fs.Remove (pathJoin [dir, taskMetaData])).2
  -- remove data
  let data := pathJoin [dir, taskData]
  let fs2 :=
    match fs1.Lstat data with
    | .error _ => fs1
    | .ok stat =>
      -- remove sym link file
      let fs1a :=
        if stat.IsSymlink then
          match fs1.Readlink data with
          | .ok dest => (fs1.Remove dest).2
          | .error _ => fs1
        else fs1
      (fs1a.Remove data).2
  (fs2.Remove dir).2

/-- The method `ReloadPersistentTask`. -/
def ReloadPersistentTask (lib : Stdlib) (s : storageManager) (now : Nat)
    (gcCallback : GCCallback) (fs : FileSystem) :
    Option GoError × storageManager × FileSystem :=
  match fs.ReadDir s.storeOption.DataPath with
  | .error err => if IsNotExist err then (none, s, fs) else (some err, s, fs)
  | .ok dirs =>
    let scan := dirs.foldl (reloadTaskDir lib s now gcCallback fs) ⟨s.tasks, [], []⟩
    -- remove load error peer tasks
    let fs1 := scan.loadErrDirs.foldl removeLoadErrDir fs
    let s1 := { s with tasks := scan.tasks }
    if scan.loadErrs.length > 0 then
      let sb := String.join (scan.loadErrs.map GoError.Error)
      (some (.Errorf ("load tasks from disk error: " ++ lib.Quote sb)), s1, fs1)
    else (none, s1, fs1)

/-- The mark phase of `TryGC` (the `Range` over the task map), on the map: every store
whose `CanReclaim` holds is marked in place. -/
def markTasks (rc : Reclaimer) (now : Nat) (tasks : SyncMap) : SyncMap :=
  tasks.map (fun e => if rc.CanReclaim now e.2 then (e.1, rc.MarkReclaim e.2) else e)

/-- The mark phase of `TryGC`: the list `markedTasks` it builds. -/
def markedTasks (rc : Reclaimer) (now : Nat) (tasks : SyncMap) : List PeerTaskMetaData :=
  (tasks.filter (fun e => rc.CanReclaim now e.2)).map Prod.fst

/-- The mark phase of `TryGC`: the calls it makes on the stores, in order. -/
def markCalls (rc : Reclaimer) (now : Nat) : SyncMap → List Call
  | [] => []
  | (key, task) :: rest =>
    if rc.CanReclaim now task then
      .CanReclaim key true :: .MarkReclaim key :: markCalls rc now rest
    else .CanReclaim key false :: markCalls rc now rest

/-- The body of the sweep loop of `TryGC`, for one key of `markedReclaimTasks`: a key that
is not in the map is passed over; otherwise the key is deleted from the map and `Reclaim`
is called on its store, whose error is logged and dropped. -/
def sweepKey (rc : Reclaimer) (st : SyncMap × FileSystem × List Call)
    (key : PeerTaskMetaData) : SyncMap × FileSystem × List Call :=
  match st.1.Load key with
  | none => st
  | some task =>
    match rc.Reclaim task st.2.1 with
    | (err, fs1) => (st.1.Delete key, fs1, st.2.2 ++ [.Delete key, .Reclaim key err])

/-- The method `TryGC`: mark, then sweep the list left by the previous round, then leave
the new list. The last component lists the calls made, in order. -/
def TryGC (rc : Reclaimer) (s : storageManager) (now : Nat) (fs : FileSystem) :
    (Bool × Option GoError) × storageManager × FileSystem × List Call :=
  let markedTasks := markedTasks rc now s.tasks
  let st := s.markedReclaimTasks.foldl (sweepKey rc)
    (markTasks rc now s.tasks, fs, markCalls rc now s.tasks)
  ((true, none), { s with tasks := st.1, markedReclaimTasks := markedTasks }, st.2.1, st.2.2)

/-- The body of the `Range` of `forceGC`, for one entry of the map: delete the key, mark
the store, reclaim it; an error is logged and dropped. -/
def forceEntry (rc : Reclaimer) (st : SyncMap × FileSystem × List Call)
    (e : PeerTaskMetaData × localTaskStore) : SyncMap × FileSystem × List Call :=
  match rc.Reclaim (rc.MarkReclaim e.2) st.2.1 with
  | (err, fs1) =>
    (st.1.Delete e.1, fs1, st.2.2 ++ [.Delete e.1, .MarkReclaim e.1, .Reclaim e.1 err])

/-- The method `forceGC`. -/
def forceGC (rc : Reclaimer) (s : storageManager) (fs : FileSystem) :
    (Bool × Option GoError) × storageManager × FileSystem × List Call :=
  let st := s.tasks.foldl (forceEntry rc) (s.tasks, fs, [])
  ((true, none), { s with tasks := st.1 }, st.2.1, st.2.2)

/-- The method `CleanUp`. -/
def CleanUp (rc : Reclaimer) (s : storageManager) (fs : FileSystem) :
    storageManager × FileSystem × List Call :=
  (forceGC rc s fs).2

end storageManager

/-! ## A task store after the spec

The methods `CanReclaim`, `MarkReclaim` and `Reclaim` of `localTaskStore`, used to run the
manager on concrete states. -/

/-- Modelled from the spec: `localTaskStore.CanReclaim` (declared outside the sources at
hand), true when `invalid` is set or when the store was last accessed at least `expireTime`
ago; with `expireTime = 0` it never expires by time. -/
def specCanReclaim (now : Nat) (t : localTaskStore) : Bool :=
  t.invalid || (t.expireTime ≠ 0 && t.lastAccess + t.expireTime ≤ now)

/-- Modelled from the spec: `localTaskStore.MarkReclaim` (declared outside the sources at
hand) sets the reclaim flag; idempotent. -/
def specMarkReclaim (t : localTaskStore) : localTaskStore :=
  { t with reclaimMarked := true }

/-- Modelled from the spec: `localTaskStore.Reclaim` (declared outside the sources at
hand) removes the metadata file, the data entry and the directory; an error does not stop
the sequence and the first one is returned. -/
def specReclaim (t : localTaskStore) (fs : FileSystem) : Option GoError × FileSystem :=
  match fs.Remove t.metadataFilePath with
  | (e1, fs1) =>
    match fs1.Remove (pathJoin [t.dataDir, taskData]) with
    | (e2, fs2) =>
      match fs2.Remove t.dataDir with
      | (e3, fs3) => ((e1.orElse fun _ => e2).orElse fun _ => e3, fs3)

/-- Modelled from the spec: the reclaim methods of a task store. -/
def specReclaimer : Reclaimer :=
  { CanReclaim := specCanReclaim, MarkReclaim := specMarkReclaim, Reclaim := specReclaim }

/-- Successive `RegisterTask` calls, each with its instant and request: the results in
order, and the state after the last one. -/
def RegisterTasks (s : storageManager) (fs : FileSystem) :
    List (Nat × RegisterTaskRequest) → List (Option GoError) × storageManager × FileSystem
  | [] => ([], s, fs)
  | (now, req) :: rest =>
    match s.RegisterTask now req fs with
    | (err, s1, fs1) =>
      match RegisterTasks s1 fs1 rest with
      | (errs, s2, fs2) => (err :: errs, s2, fs2)

/-! ## Reading the data root -/

/-- Loading the metadata of the task directory `dataDir`: its metadata file is opened, read
and parsed; the open file and the parsed document, or the first error. -/
def loadMetadata (lib : Stdlib) (fs : FileSystem) (dataDir : String) :
    Except GoError (OsFile × persistentMetadata) :=
  match fs.Open (pathJoin [dataDir, taskMetaData]) with
  | .error err => .error err
  | .ok f =>
    match fs.ReadAll f with
    | .error err => .error err
    | .ok bytes =>
      match jsonUnmarshal lib bytes with
      | .error err => .error err
      | .ok md => .ok (f, md)

/-- The peer directories under the data path, in the order of the scan: the pairs
`(taskID, peerID)` of an entry of the data path whose directory can be read and an entry
of that directory. -/
def peerDirs (fs : FileSystem) (dataPath : String) (dirs : List String) :
    List (String × String) :=
  dirs.flatMap (fun taskID =>
    match fs.ReadDir (pathJoin [dataPath, taskID]) with
    | .error _ => []
    | .ok peers => peers.map (fun peerID => (taskID, peerID)))

/-- The load errors of a list of peer directories, in order. -/
def loadErrors (lib : Stdlib) (fs : FileSystem) (dataPath : String)
    (pairs : List (String × String)) : List GoError :=
  pairs.filterMap (fun p =>
    match loadMetadata lib fs (pathJoin [dataPath, p.1, p.2]) with
    | .error err => some err
    | .ok _ => none)

/-- The store `ReloadPersistentTask` makes of the peer directory `(taskID, peerID)` whose
metadata file `f` parsed to `md`. -/
def reloadedStore (s : storageManager) (now : Nat) (cb : GCCallback) (taskID peerID : String)
    (f : OsFile) (md : persistentMetadata) : localTaskStore :=
  { topersistentMetadata := md,
    dataDir := pathJoin [s.storeOption.DataPath, taskID, peerID],
    metadataFile := some f,
    metadataFilePath :=
      pathJoin [pathJoin [s.storeOption.DataPath, taskID, peerID], taskMetaData],
    expireTime := s.storeOption.TaskExpireTime,
    lastAccess := now,
    gcCallback := cb }

/-! ## Reading a record of calls -/

/-- The keys of the stores on which `CanReclaim` returned true, in order. -/
def reclaimableKeys (calls : List Call) : List PeerTaskMetaData :=
  calls.filterMap (fun c => match c with
    | .CanReclaim key true => some key
    | _ => none)

/-- The keys of the stores on which `MarkReclaim` was called, in order. -/
def markedKeys (calls : List Call) : List PeerTaskMetaData :=
  calls.filterMap (fun c => match c with
    | .MarkReclaim key => some key
    | _ => none)

/-- The keys deleted from the map, in order. -/
def deletedKeys (calls : List Call) : List PeerTaskMetaData :=
  calls.filterMap (fun c => match c with
    | .Delete key => some key
    | _ => none)

/-- The keys of the stores on which `Reclaim` was called, in order. -/
def reclaimedKeys (calls : List Call) : List PeerTaskMetaData :=
  calls.filterMap (fun c => match c with
    | .Reclaim key _ => some key
    | _ => none)

/-! ## Concrete states -/

/-- A disk with the data root `/data` on device 1 and a directory `/mnt` on device 2. -/
def exampleDisk : FileSystem :=
  { rootDev := 1, cwd := "/", nodes := [("/data", .dir 1), ("/mnt", .dir 2)],
    inodes := [], nextIno := 1 }

/-- A fresh manager on `/data` whose tasks expire after 100. -/
def exampleManager : storageManager :=
  { KeepAlive := [], storeStrategy := AdvanceLocalTaskStoreStrategy,
    storeOption := { DataPath := "/data", TaskExpireTime := 100 },
    tasks := [], markedReclaimTasks := [], dataPathStat := 1, gcCallback := 0 }

/-- The key `(t1, p1)`. -/
def exampleKey : PeerTaskMetaData := { PeerID := "p1", TaskID := "t1" }

/-- The state after `RegisterTask(t1, p1)` at instant 5 on the fresh manager. -/
def exampleRegistered : Option GoError × storageManager × FileSystem :=
  exampleManager.RegisterTask 5
    { PeerID := "p1", TaskID := "t1", Destination := "", ContentLength := 5, TotalPieces := 1 }
    exampleDisk

/-- The state after a first `TryGC` at instant 200, when the task has expired. -/
def exampleMarked : (Bool × Option GoError) × storageManager × FileSystem × List Call :=
  exampleRegistered.2.1.TryGC specReclaimer 200 exampleRegistered.2.2

/-- The disk of `exampleMarked` with a foreign file inside the task directory, which keeps
the directory from being removed. -/
def exampleBusyDisk : FileSystem :=
  exampleMarked.2.2.1.put "/data/t1/p1/extra" (.file 9)

/-- Is the error an `*os.PathError` (or `*os.LinkError`). -/
def GoError.isPathError : GoError → Bool
  | .PathError _ _ _ => true
  | _ => false

/-- A stand-in for the standard library on the examples: the decoder accepts the empty
object only, the quoting adds the two quotes. -/
def exampleStdlib : Stdlib :=
  { jsonDecode := fun bytes =>
      if bytes = "\x7b\x7d" then .ok {} else .error (.Errorf "unexpected end of JSON input"),
    Quote := fun text => "\"" ++ text ++ "\"" }

/-- A disk with two task directories under `/data`: the metadata file of `t1/p1` holds an
empty object, the one of `t2/p2` is cut short. -/
def exampleReloadDisk : FileSystem :=
  { rootDev := 1, cwd := "/",
    nodes := [("/data", .dir 1), ("/data/t1", .dir 1), ("/data/t1/p1", .dir 1),
      ("/data/t1/p1/task.meta", .file 1), ("/data/t2", .dir 1), ("/data/t2/p2", .dir 1),
      ("/data/t2/p2/task.meta", .file 2)],
    inodes := [(1, "\x7b\x7d"), (2, "\x7b")], nextIno := 3 }

/-- The state after a second `TryGC` at instant 300, which sweeps `(t1, p1)`. -/
def exampleSwept : (Bool × Option GoError) × storageManager × FileSystem × List Call :=
  exampleMarked.2.1.TryGC specReclaimer 300 exampleMarked.2.2.1

/-- The state after `RegisterTask(t1, p1)` is called again, at instant 310, on the swept
manager: a new store under the old key. -/
def exampleAgain : Option GoError × storageManager × FileSystem :=
  exampleSwept.2.1.RegisterTask 310
    { PeerID := "p1", TaskID := "t1", Destination := "", ContentLength := 5, TotalPieces := 1 }
    exampleSwept.2.2.1

/-! ## Construction of the manager -/

/-- An option of `NewStorageManager` (`func(*storageManager) error`). -/
abbrev ManagerOption := storageManager → Option GoError × storageManager

/-- The option `WithStorageOption`. -/
def WithStorageOption (opt : StorageOption) : ManagerOption :=
  fun manager => (none, { manager with storeOption := opt })

/-- The loop of `NewStorageManager` over `moreOpts`: the first error ends it. -/
def applyOptions : List ManagerOption → storageManager → Except GoError storageManager
  | [], s => .ok s
  | o :: rest, s =>
    match o s with
    | (some err, _) => .error err
    | (none, s1) => applyOptions rest s1

/-- The call `filepath.Abs`: an absolute path is cleaned, another one is joined to the
working directory. -/
def filepathAbs (fs : FileSystem) (p : String) : String :=
  if pathIsAbs p then pathClean p else pathJoin [fs.cwd, p]

/-- The first steps of `NewStorageManager` on the data path: `os.Stat`, then, when the
path does not exist, `os.MkdirAll` and `os.Stat` again; the device id of the data path. -/
def statDataPath (fs : FileSystem) (dataPath : String) : Except GoError Nat × FileSystem :=
  match fs.Stat dataPath with
  | .ok (_, dev) => (.ok dev, fs)
  | .error err =>
    if IsNotExist err then
      match fs.MkdirAll dataPath with
      | (some err1, fs1) => (.error err1, fs1)
      | (none, fs1) =>
        match fs1.Stat dataPath with
        | .ok (_, dev) => (.ok dev, fs1)
        | .error err2 => (.error err2, fs1)
    else (.error err, fs)

/-- The first step of `NewStorageManager`: a data path that is not absolute is replaced in
the option by its absolute form. -/
def absDataPath (fs : FileSystem) (opt : StorageOption) : StorageOption :=
  if !pathIsAbs opt.DataPath then { opt with DataPath := filepathAbs fs opt.DataPath }
  else opt

/-- The `switch storeStrategy` of `NewStorageManager`: the Simple and the Advance tag are
kept, the empty tag becomes Simple, any other tag is an error. -/
def checkStrategy (storeStrategy : String) : Except GoError String :=
  if storeStrategy = SimpleLocalTaskStoreStrategy
      ∨ storeStrategy = AdvanceLocalTaskStoreStrategy then .ok storeStrategy
  else if storeStrategy = "" then .ok SimpleLocalTaskStoreStrategy
  else .error (.Errorf ("not support store strategy: " ++ storeStrategy))

/-- The manager `NewStorageManager` builds before it applies the options. -/
def newManager (storeStrategy : String) (opt : StorageOption) (dev : Nat)
    (gcCallback : GCCallback) : storageManager :=
  { KeepAlive := [],
    storeStrategy := storeStrategy,
    storeOption := opt,
    tasks := [],
    markedReclaimTasks := [],
    dataPathStat := dev,
    gcCallback := gcCallback }

/-- The function `NewStorageManager`: the manager and the error it returns, the disk, and
the warnings it logs. -/
def NewStorageManager (lib : Stdlib) (storeStrategy : String) (opt : StorageOption)
    (gcCallback : GCCallback) (moreOpts : List ManagerOption) (now : Nat) (fs : FileSystem) :
    (Option storageManager × Option GoError) × FileSystem × List String :=
  match statDataPath fs (absDataPath fs opt).DataPath with
  | (.error err, fs1) => ((none, some err), fs1, [])
  | (.ok dev, fs1) =>
    match checkStrategy storeStrategy with
    | .error err => ((none, some err), fs1, [])
    | .ok storeStrategy =>
      match applyOptions moreOpts
          (newManager storeStrategy (absDataPath fs opt) dev gcCallback) with
      | .error err => ((none, some err), fs1, [])
      | .ok s =>
        match s.ReloadPersistentTask lib now gcCallback fs1 with
        | (some err, s1, fs2) => ((some s1, none), fs2, ["reload tasks error: " ++ err.Error])
        | (none, s1, fs2) => ((some s1, none), fs2, [])

/-! ## Reading from a task store, after the spec

The methods `ReadPiece` and `GetPieces` of `localTaskStore`, with the rule of the spec for
a store being reclaimed: a task marked for reclaim is not served to new readers, and an
operation on such a store ends in the error kind `Shutdown`. -/

/-- Modelled from the spec: the error kind `Shutdown` (no error value of that kind is
declared in the sources at hand), the answer to an operation on a store being reclaimed.
The spec fixes the kind and not the message. -/
def ErrShutdown : GoError := .Errorf "task store is being reclaimed"

/-- Modelled from the spec: `localTaskStore.ReadPiece` (declared outside the sources at
hand). A store marked for reclaim is not served to a new reader: the answer is the error
`ErrShutdown`, with no reader and no closer. Otherwise the method looks up the piece by its
number and returns a reader limited to the extent of the piece in the data file, with the
closer of that file; an absent piece is `ErrPieceNotFound`. Every call counts as an
access. -/
def specReadPiece (now : Nat) (t : localTaskStore) (req : ReadPieceRequest)
    (fs : FileSystem) :
    (Option Reader × Option Closer × Option GoError) × localTaskStore × FileSystem :=
  let t1 := { t with lastAccess := now }
  if t.reclaimMarked then ((none, none, some ErrShutdown), t1, fs)
  else
    match t.Pieces.lookup req.Piece.Num with
    | none => ((none, none, some .ErrPieceNotFound), t1, fs)
    | some piece =>
      match fs.Open t.DataFilePath with
      | .error err => ((none, none, some err), t1, fs)
      | .ok f =>
        match fs.ReadAll f with
        | .error err => ((none, none, some err), t1, fs)
        | .ok bytes =>
          ((some (String.mk ((bytes.data.drop piece.Offset).take piece.Length)), some f,
            none), t1, fs)

/-- Modelled from the spec: the contiguous pieces from the number `start` on, at most
`limit` of them, in the order of their numbers; the first missing number ends the run. -/
def contiguousPieces (pieces : List (Int × PieceMetaData)) (start : Nat) :
    Nat → List PieceMetaData
  | 0 => []
  | limit + 1 =>
    match pieces.lookup (start : Int) with
    | none => []
    | some piece => piece :: contiguousPieces pieces (start + 1) limit

/-- Modelled from the spec: `localTaskStore.GetPieces` (declared outside the sources at
hand). A store marked for reclaim is not served: the answer is the error `ErrShutdown`,
with no packet. Otherwise the packet holds the contiguous pieces from `StartNum` on, at
most `Limit` of them, with the piece count, the content length and the digest of the task;
an empty list of pieces is a valid answer. Every call counts as an access. -/
def specGetPieces (now : Nat) (t : localTaskStore) (req : PieceTaskRequest)
    (fs : FileSystem) :
    (Option PiecePacket × Option GoError) × localTaskStore × FileSystem :=
  let t1 := { t with lastAccess := now }
  if t.reclaimMarked then ((none, some ErrShutdown), t1, fs)
  else
    ((some { TaskId := req.TaskId, DstPid := req.DstPid,
             PieceInfos := contiguousPieces t.Pieces req.StartNum req.Limit,
             TotalPiece := t.TotalPieces, ContentLength := t.ContentLength,
             PieceMd5Sign := t.PieceMd5Sign }, none), t1, fs)

/-! ## Calls that follow a round of GC -/

/-- A call on the manager that reads from a task or runs a round of GC, with the instant
of the call. -/
inductive LaterCall where
  | ReadPiece (now : Nat) (req : ReadPieceRequest)
  | GetPieces (now : Nat) (req : PieceTaskRequest)
  | TryGC (now : Nat)
  deriving DecidableEq, Repr

/-- The manager and the disk after a list of such calls, made in order. -/
def storageManager.afterCalls (rc : Reclaimer) (drv : TaskStorageDriver) :
    storageManager → FileSystem → List LaterCall → storageManager × FileSystem
  | s, fs, [] => (s, fs)
  | s, fs, .ReadPiece now req :: rest =>
    afterCalls rc drv (s.ReadPiece drv now req fs).2.1 (s.ReadPiece drv now req fs).2.2 rest
  | s, fs, .GetPieces now req :: rest =>
    afterCalls rc drv (s.GetPieces drv now req fs).2.1 (s.GetPieces drv now req fs).2.2 rest
  | s, fs, .TryGC now :: rest =>
    afterCalls rc drv (s.TryGC rc now fs).2.1 (s.TryGC rc now fs).2.2.1 rest

/-! ## Relations between two states of the disk -/

/-- The disk `fs1` holds every entry of `fs` unchanged, and possibly more. -/
def FileSystem.Extends (fs fs1 : FileSystem) : Prop :=
  fs1.cwd = fs.cwd ∧ fs1.rootDev = fs.rootDev ∧
    ∀ p nd, fs.lookup p = some nd → fs1.lookup p = some nd

/-- The disk `fs1` is `fs` without the entries at some of the paths `paths`: nothing is
added, nothing is changed, and an entry at another path stays. -/
def FileSystem.Unlinks (fs fs1 : FileSystem) (paths : List String) : Prop :=
  fs1.cwd = fs.cwd ∧ fs1.rootDev = fs.rootDev ∧ fs1.inodes = fs.inodes ∧
    ∃ keep : String → Bool, fs1.nodes = fs.nodes.filter (fun e => keep e.1) ∧
      ∀ p, p ∉ paths → keep p = true

/-- The files a step adds to the inode table are all empty: the table of `fs1` is the
table of `fs` followed by new entries without content. -/
def FileSystem.AddsEmptyFiles (fs fs1 : FileSystem) : Prop :=
  ∃ added : List (Nat × String), fs1.inodes = fs.inodes ++ added ∧ ∀ e, e ∈ added → e.2 = ""

/-! ## What `CreateTask` registers -/

/-- The path of the primary data file under the Advance strategy: the directory of the
destination joined with the hidden name `.<file>.dfget.cache.<peerID>`. -/
def advanceDataFilePath (req : RegisterTaskRequest) : String :=
  pathJoin [(pathSplit req.Destination).1,
    "." ++ (pathSplit req.Destination).2 ++ ".dfget.cache." ++ req.PeerID]

/-- The store `CreateTask` registers for the request `req` once the metadata file
`metadata` is open, written out field by field. -/
def createdStore (s : storageManager) (req : RegisterTaskRequest) (metadata : OsFile) :
    localTaskStore :=
  { StoreStrategy :=
      if req.Destination = "" then SimpleLocalTaskStoreStrategy else s.storeStrategy,
    TaskID := req.TaskID,
    TaskMeta := [],
    ContentLength := req.ContentLength,
    TotalPieces := req.TotalPieces,
    PeerID := req.PeerID,
    Pieces := [],
    DataFilePath :=
      if (if req.Destination = "" then SimpleLocalTaskStoreStrategy else s.storeStrategy)
          = SimpleLocalTaskStoreStrategy then
        pathJoin [pathJoin [s.storeOption.DataPath, req.TaskID, req.PeerID], taskData]
      else if (if req.Destination = "" then SimpleLocalTaskStoreStrategy else s.storeStrategy)
          = AdvanceLocalTaskStoreStrategy then advanceDataFilePath req
      else "",
    gcCallback := s.gcCallback,
    dataDir := pathJoin [s.storeOption.DataPath, req.TaskID, req.PeerID],
    metadataFile := some metadata,
    metadataFilePath :=
      pathJoin [pathJoin [s.storeOption.DataPath, req.TaskID, req.PeerID], taskMetaData],
    expireTime := s.storeOption.TaskExpireTime }

/-! ## Concrete registrations -/

/-- The request for `(t1, p1)` without a destination. -/
def exampleRequest : RegisterTaskRequest :=
  { PeerID := "p1", TaskID := "t1", Destination := "", ContentLength := 5, TotalPieces := 1 }

/-- A request for `(t1, p1)` with the destination `/mnt/out.bin`, on device 2. -/
def exampleFarRequest : RegisterTaskRequest :=
  { PeerID := "p1", TaskID := "t1", Destination := "/mnt/out.bin", ContentLength := 5,
    TotalPieces := 1 }

/-- A request for `(t1, p1)` with the destination `/data/out.bin`, on the device of the data
root. -/
def exampleNearRequest : RegisterTaskRequest :=
  { PeerID := "p1", TaskID := "t1", Destination := "/data/out.bin", ContentLength := 5,
    TotalPieces := 1 }

/-- A manager like `exampleManager` configured with the Simple strategy. -/
def exampleSimpleManager : storageManager :=
  { exampleManager with storeStrategy := SimpleLocalTaskStoreStrategy }

/-- A disk where the task directory `/data/t1` is a mount point on device 2, the data root
and the directory `/cache` being on device 1. -/
def exampleMountDisk : FileSystem :=
  { rootDev := 1, cwd := "/",
    nodes := [("/data", .dir 1), ("/data/t1", .dir 2), ("/cache", .dir 1)],
    inodes := [], nextIno := 1 }

/-- A request for `(t1, p1)` with the destination `/cache/out.bin`. -/
def exampleMountRequest : RegisterTaskRequest :=
  { PeerID := "p1", TaskID := "t1", Destination := "/cache/out.bin", ContentLength := 5,
    TotalPieces := 1 }

/-- The state after `RegisterTask` with the destination `/mnt/out.bin` on the fresh manager
(Advance strategy, destination on another device than the data root). -/
def exampleFar : Option GoError × storageManager × FileSystem :=
  exampleManager.RegisterTask 5 exampleFarRequest exampleDisk

/-- The state after `RegisterTask` with the destination `/data/out.bin` on the fresh
manager (Advance strategy, destination on the device of the data root). -/
def exampleNear : Option GoError × storageManager × FileSystem :=
  exampleManager.RegisterTask 5 exampleNearRequest exampleDisk

/-- The state after `RegisterTask` without destination on the manager configured with the
Simple strategy. -/
def exampleSimple : Option GoError × storageManager × FileSystem :=
  exampleSimpleManager.RegisterTask 5 exampleRequest exampleDisk

/-- The state after `RegisterTask` with the destination `/cache/out.bin` on the disk whose
task directory is a mount point. -/
def exampleMounted : Option GoError × storageManager × FileSystem :=
  exampleManager.RegisterTask 5 exampleMountRequest exampleMountDisk

/-- The result of `NewStorageManager` with the empty tag on the disk with one good and one
bad task directory. -/
def exampleReloaded : (Option storageManager × Option GoError) × FileSystem × List String :=
  NewStorageManager exampleStdlib "" ⟨"/data", 100⟩ 0 [] 7 exampleReloadDisk

/-- The result of `NewStorageManager` on the disk `RegisterTask(t1, p1)` left behind: a new
manager on the same data root, with no `CleanUp` in between. -/
def exampleRestarted : (Option storageManager × Option GoError) × FileSystem × List String :=
  NewStorageManager exampleStdlib "" ⟨"/data", 100⟩ 0 [] 7 exampleRegistered.2.2

/-! ## A store that holds a piece -/

/-- The piece 0 of the scenario "Simple, single piece": five bytes at offset 0. -/
def examplePiece : PieceMetaData :=
  { Num := 0, Md5 := "", Offset := 0, Length := 5, Style := 0 }

/-- The store of `(t1, p1)` once the piece 0 has been written: last accessed at instant 5,
expiring after 100. -/
def examplePieceStore : localTaskStore :=
  { StoreStrategy := SimpleLocalTaskStoreStrategy, TaskID := "t1", PeerID := "p1",
    ContentLength := 5, TotalPieces := 1, Pieces := [(0, examplePiece)],
    DataFilePath := "/data/t1/p1/data", dataDir := "/data/t1/p1",
    metadataFile := some ⟨"/data/t1/p1/task.meta", .file 1⟩,
    metadataFilePath := "/data/t1/p1/task.meta", expireTime := 100, lastAccess := 5 }

/-- The disk of that store: its data file holds `hello`. -/
def examplePieceDisk : FileSystem :=
  { rootDev := 1, cwd := "/",
    nodes := [("/data", .dir 1), ("/data/t1", .dir 1), ("/data/t1/p1", .dir 1),
      ("/data/t1/p1/task.meta", .file 1), ("/data/t1/p1/data", .file 2)],
    inodes := [(1, ""), (2, "hello")], nextIno := 3 }

/-- The manager that holds that store. -/
def examplePieceManager : storageManager :=
  { exampleManager with tasks := [(exampleKey, examplePieceStore)] }

/-- The state after a `TryGC` at instant 200, when the store has expired: the call marks
it. -/
def examplePieceMarked : (Bool × Option GoError) × storageManager × FileSystem × List Call :=
  examplePieceManager.TryGC specReclaimer 200 examplePieceDisk

/-- The request to read the piece 0 of `(t1, p1)`. -/
def examplePieceRequest : ReadPieceRequest :=
  { PeerID := "p1", TaskID := "t1", Piece := examplePiece }

/-- The request to list the pieces of `(t1, p1)` from the piece 0 on. -/
def examplePiecesRequest : PieceTaskRequest :=
  { TaskId := "t1", SrcPid := "p2", DstPid := "p1", StartNum := 0, Limit := 4 }

/-! ## The removal of the directories that failed to load -/

/-- The directories `ReloadPersistentTask` notes in `loadErrDirs`, for a list of peer
directories, in order. -/
def loadErrorDirs (lib : Stdlib) (fs : FileSystem) (dataPath : String)
    (pairs : List (String × String)) : List String :=
  pairs.filterMap (fun p =>
    match loadMetadata lib fs (pathJoin [dataPath, p.1, p.2]) with
    | .error _ => some (pathJoin [dataPath, p.1, p.2])
    | .ok _ => none)

/-- The middle step of `removeLoadErrDir` (under the comment "remove data"), on the disk
the removal of the metadata file has left. -/
def removeLoadErrData (fs1 : FileSystem) (data : String) : FileSystem :=
  match fs1.Lstat data with
  | .error _ => fs1
  | .ok stat =>
    let fs1a :=
      if stat.IsSymlink then
        match fs1.Readlink data with
        | .ok dest => (fs1.Remove dest).2
        | .error _ => fs1
      else fs1
    (fs1a.Remove data).2

/-- The absolute paths `removeLoadErrDir` passes to `os.Remove` for the directory `dir`:
the metadata file, the text of the data entry when that is a symbolic link, the data entry
and the directory. -/
def removalPaths (fs : FileSystem) (dir : String) : List String :=
  (fs.abs (pathJoin [dir, taskMetaData])).toList ++
  ((match fs.Lstat (pathJoin [dir, taskData]) with
    | .ok (.symlink dest) => (fs.abs dest).toList
    | _ => []) ++
   (fs.abs (pathJoin [dir, taskData])).toList) ++
  (fs.abs dir).toList

/-- A disk with two task directories under `/data`: `t1/p1` loads and holds a data file;
`t2/p2` has a metadata file cut short, a stray file, and a data entry that is a symbolic
link to the data file of `t1/p1`. -/
def exampleStrayDisk : FileSystem :=
  { rootDev := 1, cwd := "/",
    nodes := [("/data", .dir 1), ("/data/t1", .dir 1), ("/data/t1/p1", .dir 1),
      ("/data/t1/p1/task.meta", .file 1), ("/data/t1/p1/data", .file 3),
      ("/data/t2", .dir 1), ("/data/t2/p2", .dir 1), ("/data/t2/p2/task.meta", .file 2),
      ("/data/t2/p2/data", .symlink "/data/t1/p1/data"), ("/data/t2/p2/stray", .file 4)],
    inodes := [(1, "\x7b\x7d"), (2, "\x7b"), (3, "hello"), (4, "")], nextIno := 5 }

/-- The state after `ReloadPersistentTask` on that disk. -/
def exampleStrayReload : Option GoError × storageManager × FileSystem :=
  exampleManager.ReloadPersistentTask exampleStdlib 7 0 exampleStrayDisk

/-! ## Package `config`: the options of the peer host (`client/config/peerhost.go`) -/

/-- Reduce an integer to the range of `int64` (two's complement wrap-around). -/
def wrapInt64 (x : Int) : Int := (x + 9223372036854775808) % 18446744073709551616 - 9223372036854775808

/-- Is the integer a value of `int64`. -/
def IsInt64 (x : Int) : Prop := -9223372036854775808 ≤ x ∧ x < 9223372036854775808

instance (x : Int) : Decidable (IsInt64 x) := by unfold IsInt64; infer_instance

/-- The constant `time.Second`, in nanoseconds. -/
def Second : Int := 1000000000

/-- Modelled from the spec: the struct `dfnet.NetAddr` (declared outside the sources at
hand): the kind of address (its field `Type`) and the address. -/
structure NetAddr where
  AddrType : String
  Addr : String
  deriving DecidableEq, Repr

/-- The struct `SchedulerOption`; a `clientutil.Duration` is its `time.Duration`, an `int64`
count of nanoseconds. -/
structure SchedulerOption where
  NetAddrs : List NetAddr
  ScheduleTimeout : Int
  deriving DecidableEq, Repr

/-- The struct `PeerHostOption`. The options `Host`, `Download`, `Proxy`, `Upload`, `Storage`
and `Telemetry`, which `Validate` neither reads nor writes, are values of a type `Opt` left
open; `Proxy` is a pointer. -/
structure PeerHostOption (Opt : Type) where
  AliveTime : Int
  GCInterval : Int
  PidFile : String
  LockFile : String
  DataDir : String
  WorkHome : String
  KeepStorage : Bool
  Verbose : Bool
  Console : Bool
  Scheduler : SchedulerOption
  Host : Opt
  Download : Opt
  Proxy : Option Opt
  Upload : Opt
  Storage : Opt
  Telemetry : Opt
  deriving DecidableEq, Repr

/-- The method `PeerHostOption.Validate`: the error it returns and the option as it leaves
it. The subtraction is the one of `int64`. -/
def PeerHostOption.Validate {Opt : Type} (p : PeerHostOption Opt) :
    Option GoError × PeerHostOption Opt :=
  if p.Scheduler.NetAddrs.length = 0 then (some (.Errorf "empty schedulers"), p)
  -- ScheduleTimeout should not great then AliveTime
  else if p.AliveTime > 0 ∧ p.Scheduler.ScheduleTimeout > p.AliveTime then
    (none, { p with Scheduler :=
      { p.Scheduler with ScheduleTimeout := wrapInt64 (p.AliveTime - Second) } })
  else (none, p)

/-- An option with one scheduler address, an alive time of half a second and a schedule
timeout of one second. -/
def exampleShortLived : PeerHostOption Unit :=
  { AliveTime := 500000000, GCInterval := 0, PidFile := "", LockFile := "", DataDir := "",
    WorkHome := "", KeepStorage := false, Verbose := false, Console := false,
    Scheduler := { NetAddrs := [⟨"tcp", "127.0.0.1:8002"⟩], ScheduleTimeout := 1000000000 },
    Host := (), Download := (), Proxy := none, Upload := (), Storage := (), Telemetry := () }

/-- An option with one scheduler address, an alive time of five minutes and a schedule
timeout of ten minutes. -/
def exampleLongTimeout : PeerHostOption Unit :=
  { exampleShortLived with
    AliveTime := 300000000000,
    Scheduler := { NetAddrs := [⟨"tcp", "127.0.0.1:8002"⟩], ScheduleTimeout := 600000000000 } }

/-! ### The port range of a TCP listener -/

/-- A finite `float64`, written `mant * 2 ^ exp`; the decoders produce no other. -/
structure Float64 where
  mant : Int
  exp : Int
  deriving DecidableEq, Repr

/-- The `float64` that holds the integer `n` (for `n` within 53 bits). -/
def Float64.ofInt (n : Int) : Float64 := ⟨n, 0⟩

/-- The conversion `int(x)` of a `float64`: the fraction is dropped (truncation toward
zero). The result for a value outside `int64` depends on the platform; on amd64 it is the
least `int64`. -/
def Float64.toInt (x : Float64) : Int :=
  let t := if 0 ≤ x.exp then x.mant * 2 ^ x.exp.toNat
           else Int.tdiv x.mant (2 ^ (-x.exp).toNat)
  if -9223372036854775808 ≤ t ∧ t < 9223372036854775808 then t else -9223372036854775808

/-- A value of type `interface{}` as a decoder hands it over: an `int`, a `float64`, a
`map[string]interface{}` (keys in order, the first entry of a key counts), or a value of
another type. -/
inductive Value where
  | int (n : Int)
  | float64 (x : Float64)
  | string (s : String)
  | bool (b : Bool)
  | null
  | slice (l : List Value)
  | map (m : List (String × Value))

/-- The struct `TCPListenPortRange`. -/
structure TCPListenPortRange where
  Start : Int
  End : Int
  deriving DecidableEq, Repr

/-- The method `TCPListenPortRange.unmarshal`: the error it returns and the range as it
leaves it. -/
def TCPListenPortRange.unmarshal (t : TCPListenPortRange) (v : Value) :
    Option GoError × TCPListenPortRange :=
  match v with
  | .int value => (none, { t with Start := value })
  | .float64 value => (none, { t with Start := value.toInt })
  | .map value =>
    match value.lookup "start" with
    | some s =>
      match s with
      | .float64 start =>
        let t := { t with Start := start.toInt }
        match value.lookup "end" with
        | some e =>
          match e with
          | .float64 e1 => (none, { t with End := e1.toInt })
          | .int e1 => (none, { t with End := e1 })
          | _ => (some (.Errorf "invalid end port"), t)
        | none => (none, t)
      | .int start =>
        let t := { t with Start := start }
        match value.lookup "end" with
        | some e =>
          match e with
          | .float64 e1 => (none, { t with End := e1.toInt })
          | .int e1 => (none, { t with End := e1 })
          | _ => (some (.Errorf "invalid end port"), t)
        | none => (none, t)
      | _ => (some (.Errorf "invalid start port"), t)
    | none => (some (.Errorf "empty start port"), t)
  | _ => (some (.Errorf "invalid port"), t)

/-- Is the value a number (`int` or `float64`). -/
def Value.IsNumber : Value → Bool
  | .int _ => true
  | .float64 _ => true
  | _ => false

/-- The `int` a number converts to. -/
def Value.toInt : Value → Int
  | .int n => n
  | .float64 x => x.toInt
  | _ => 0

/-- Is the value a `map[string]interface{}`. -/
def Value.IsMap : Value → Bool
  | .map _ => true
  | _ => false

/-! ### The pool of certificates -/

/-- Is the character white space for `strings.TrimSpace`. -/
def isSpace (c : Char) : Bool :=
  c = ' ' ∨ c = '\t' ∨ c = '\n' ∨ c = '\r' ∨ c.toNat = 11 ∨ c.toNat = 12 ∨
    c.toNat = 133 ∨ c.toNat = 160

/-- The function `strings.TrimSpace`. -/
def trimSpace (s : String) : String :=
  String.mk ((s.data.dropWhile isSpace).reverse.dropWhile isSpace).reverse

/-- The call `ioutil.ReadFile`. -/
def FileSystem.ReadFile (fs : FileSystem) (name : String) : Except GoError String :=
  match fs.Open name with
  | .error err => .error err
  | .ok f => fs.ReadAll f

/-- What the manager of certificates takes from `crypto/x509`: the certificates found in a
PEM text. -/
structure X509 where
  parsePEM : String → List String

/-- The method `x509.CertPool.AppendCertsFromPEM`: the pool with the certificates of the
text, and whether any certificate was found. -/
def X509.AppendCertsFromPEM (x : X509) (pool : List String) (pemCerts : String) :
    List String × Bool :=
  (pool ++ x.parsePEM pemCerts, !(x.parsePEM pemCerts).isEmpty)

/-- The struct `CertPool`: the file names and the embedded `*x509.CertPool` (the field
`Pool`, nil before the pool is made), a pool being the list of its certificates. -/
structure CertPool where
  Files : List String
  Pool : Option (List String)
  deriving DecidableEq, Repr

/-- The method `FileString.UnmarshalJSON` (and `UnmarshalYAML`) on a document that is the
string `s`: the trimmed content of the file of that name. -/
def FileString.unmarshal (fs : FileSystem) (s : String) : Except GoError String :=
  match fs.ReadFile s with
  | .error err => .error err
  | .ok file => .ok (trimSpace file)

/-- Decoding a document that is a list of strings into a `[]FileString`: each element
through `FileString.unmarshal`, the first error ending it. -/
def decodeFileStrings (fs : FileSystem) : List String → Except GoError (List String)
  | [] => .ok []
  | s :: rest =>
    match FileString.unmarshal fs s with
    | .error err => .error err
    | .ok v =>
      match decodeFileStrings fs rest with
      | .error err => .error err
      | .ok vs => .ok (v :: vs)

/-- The loop of `CertPool.unmarshal` over the decoded texts. -/
def appendCerts (x : X509) : List String → List String → Except GoError (List String)
  | pool, [] => .ok pool
  | pool, cert :: rest =>
    match x.AppendCertsFromPEM pool cert with
    | (pool1, true) => appendCerts x pool1 rest
    | (_, false) => .error (.Errorf ("invalid cert: " ++ cert))

/-- The method `CertPool.unmarshal`; `unmarshal` is what the decoder it is given leaves in
`cf`, or the decoder's error. -/
def CertPool.unmarshal (x : X509) (cp : CertPool)
    (unmarshal : Except GoError (List String)) : Option GoError × CertPool :=
  match unmarshal with
  | .error err => (some err, cp)
  | .ok cf =>
    match appendCerts x [] cf with
    | .error err => (some err, cp)
    | .ok pool => (none, { cp with Pool := some pool })

/-- The method `CertPool.UnmarshalJSON` on a document that is a list of file names. -/
def CertPool.UnmarshalJSON (x : X509) (cp : CertPool) (names : List String)
    (fs : FileSystem) : Option GoError × CertPool :=
  cp.unmarshal x (decodeFileStrings fs names)

/-- The method `CertPool.UnmarshalYAML` on a document that is a list of file names. -/
def CertPool.UnmarshalYAML (x : X509) (cp : CertPool) (names : List String)
    (fs : FileSystem) : Option GoError × CertPool :=
  cp.unmarshal x (decodeFileStrings fs names)

/-- The method `CertPool.MarshalYAML`. -/
def CertPool.MarshalYAML (cp : CertPool) : List String × Option GoError :=
  (cp.Files, none)

/-- The method `CertPool.MarshalJSON`; `encode` is `json.Marshal` on a list of strings. -/
def CertPool.MarshalJSON (encode : List String → String) (cp : CertPool) :
    String × Option GoError :=
  (encode cp.Files, none)

/-- A stand-in for `crypto/x509` on the examples: a text is one certificate when it opens
with the PEM header, and none otherwise. -/
def exampleX509 : X509 :=
  { parsePEM := fun text =>
      if "-----BEGIN CERTIFICATE-----".data.isPrefixOf text.data then [text] else [] }

/-- A disk with the certificate file `/etc/ca.pem`. -/
def exampleCertDisk : FileSystem :=
  { rootDev := 1, cwd := "/", nodes := [("/etc", .dir 1), ("/etc/ca.pem", .file 1)],
    inodes := [(1, "-----BEGIN CERTIFICATE-----\nMIIB\n-----END CERTIFICATE-----\n")],
    nextIno := 2 }

/-- A new `CertPool` (the zero value). -/
def exampleCertPool : CertPool := { Files := [], Pool := none }

/-! ## Package `atomiccount` -/

/-- Reduce an integer to the range of `int32` (two's complement wrap-around). -/
def wrapInt32 (x : Int) : Int := (x + 2147483648) % 4294967296 - 2147483648

/-- Is the integer a value of `int32`. -/
def IsInt32 (x : Int) : Prop := -2147483648 ≤ x ∧ x < 2147483648

/-- Modelled from the spec: the struct `AtomicInt` (declared outside the sources at hand,
where only its test is): a counter of type `int32`. A `*AtomicInt` is an `Option`, `none`
being the nil pointer. -/
structure AtomicInt where
  count : Int
  deriving DecidableEq, Repr

/-- Modelled from the spec: `NewAtomicInt` (declared outside the sources at hand) makes a
counter with the given value. -/
def NewAtomicInt (value : Int) : Option AtomicInt := some ⟨value⟩

/-- Modelled from the spec: `AtomicInt.Add` (declared outside the sources at hand) adds the
delta to the counter in `int32` arithmetic and returns the new value; on a nil pointer it
returns 0. -/
def AtomicInt.Add (ac : Option AtomicInt) (delta : Int) : Int × Option AtomicInt :=
  match ac with
  | some a => (wrapInt32 (a.count + delta), some ⟨wrapInt32 (a.count + delta)⟩)
  | none => (0, none)

/-- Modelled from the spec: `AtomicInt.Get` (declared outside the sources at hand) returns
the value of the counter; on a nil pointer it returns 0. -/
def AtomicInt.Get (ac : Option AtomicInt) : Int :=
  match ac with
  | some a => a.count
  | none => 0

/-- Successive `Add` calls on a counter. -/
def AtomicInt.AddAll (ac : Option AtomicInt) (deltas : List Int) : Option AtomicInt :=
  deltas.foldl (fun a d => (AtomicInt.Add a d).2) ac

/-- The test `TestAdd` of `atomiccount_test.go`: its two assertions. -/
def TestAdd : Bool :=
  let acount := NewAtomicInt 3
  let acount := (AtomicInt.Add acount 4).2
  let acount := (AtomicInt.Add acount 5).2
  let result := AtomicInt.Get acount
  let nilAcount : Option AtomicInt := none
  result == 12 && (AtomicInt.Add nilAcount 5).1 == 0

/-! ## Package `plugins` -/

/-- The type `config.PluginType`. -/
abbrev PluginType := String

/-- Modelled from the spec: the loop of `validate` over the registered plugin types. -/
def knownPluginType : List PluginType → PluginType → Bool
  | [], _ => false
  | t :: rest, pt => if pt = t then true else knownPluginType rest pt

/-- Modelled from the spec: the function `validate` of the package `plugins` (declared
outside the sources at hand, where only its test is): a plugin identity is valid when its
name is not empty and its type is one of `config.PluginTypes`, a list declared outside the
sources at hand and taken as a parameter. -/
def validate (PluginTypes : List PluginType) (pt : PluginType) (name : String) : Bool :=
  if name = "" then false else knownPluginType PluginTypes pt

/-- The cases of the test `TestValidate` of `plugins_test.go`. -/
def validateCases (PluginTypes : List PluginType) : List (PluginType × String × Bool) :=
  [("test", "", false), ("test", "test", false)] ++
    PluginTypes.flatMap (fun pt => [(pt, "", false), (pt, "test", true)])

/-- The test `TestValidate` of `plugins_test.go`: every case gives what it expects. -/
def TestValidate (PluginTypes : List PluginType) : Bool :=
  (validateCases PluginTypes).all (fun v => validate PluginTypes v.1 v.2.1 == v.2.2)

/-! ## Concrete inputs for the configuration and for a failed registration -/

/-- A request for `(t1, p1)` whose destination lies in a directory that does not exist. -/
def exampleLostRequest : RegisterTaskRequest :=
  { PeerID := "p1", TaskID := "t1", Destination := "/nodir/out.bin", ContentLength := 5,
    TotalPieces := 1 }

/-- The port mapping of the documented second form: `start: 12345`, `end: 12346`. -/
def examplePortMap : Value := .map [("start", .int 12345), ("end", .int 12346)]

/-- The number 80.5 as a `float64`. -/
def exampleHalfPort : Value := .float64 ⟨161, -1⟩

/-! ## Plain names -/

/-- A name that stands for itself as a path element: not empty, without a slash, and
neither `.` nor `..`. -/
def IsPlainName (name : String) : Prop :=
  name.data ≠ [] ∧ '/' ∉ name.data ∧ name.data ≠ ['.'] ∧ name.data ≠ ['.', '.']

instance (name : String) : Decidable (IsPlainName name) := by
  unfold IsPlainName; infer_instance

/-! ## Lemmas on the task map -/

namespace SyncMap

theorem Load_Store_self (m : SyncMap) (k : PeerTaskMetaData) (v : localTaskStore) :
    (m.Store k v).Load k = some v := by
  induction m with
  | nil => simp [Store, Load]
  | cons e m ih =>
    obtain ⟨k', v'⟩ := e
    by_cases h : k' = k <;> simp [Store, Load, h, ih]

theorem Load_Store_of_ne (m : SyncMap) {k k' : PeerTaskMetaData} (v : localTaskStore)
    (h : k ≠ k') : (m.Store k v).Load k' = m.Load k' := by
  induction m with
  | nil => simp [Store, Load, h]
  | cons e m ih =>
    obtain ⟨k0, v0⟩ := e
    by_cases h0 : k0 = k
    · subst h0; simp [Store, Load, h]
    · by_cases h1 : k0 = k'
      · subst h1; simp [Store, Load, h0]
      · simp [Store, Load, h0, h1, ih]

theorem Load_Delete_self (m : SyncMap) (k : PeerTaskMetaData) : (m.Delete k).Load k = none := by
  induction m with
  | nil => simp [Delete, Load]
  | cons e m ih =>
    obtain ⟨k0, v0⟩ := e
    by_cases h0 : k0 = k
    · simpa [Delete, h0] using ih
    · simpa [Delete, h0, Load] using ih

theorem Load_Delete_of_ne (m : SyncMap) {k k' : PeerTaskMetaData} (h : k ≠ k') :
    (m.Delete k).Load k' = m.Load k' := by
  induction m with
  | nil => simp [Delete, Load]
  | cons e m ih =>
    obtain ⟨k0, v0⟩ := e
    by_cases h0 : k0 = k
    · subst h0
      simpa [Delete, Load, h] using ih
    · by_cases h1 : k0 = k'
      · subst h1; simp [Delete, Load, h0]
      · simpa [Delete, Load, h0, h1] using ih

theorem Load_eq_none_iff (m : SyncMap) (k : PeerTaskMetaData) :
    m.Load k = none ↔ k ∉ m.keys := by
  induction m with
  | nil => simp [Load, keys]
  | cons e m ih =>
    obtain ⟨k0, v0⟩ := e
    by_cases h0 : k0 = k
    · simp [Load, keys, h0]
    · have h1 : ¬ k = k0 := fun h => h0 h.symm
      simpa [Load, keys, h0, h1] using ih

theorem mem_of_Load {m : SyncMap} {k : PeerTaskMetaData} {v : localTaskStore}
    (h : m.Load k = some v) : (k, v) ∈ m := by
  induction m with
  | nil => simp [Load] at h
  | cons e m ih =>
    obtain ⟨k0, v0⟩ := e
    by_cases h0 : k0 = k
    · simp [Load, h0] at h
      simp [h0, h]
    · simp [Load, h0] at h
      exact List.mem_cons_of_mem _ (ih h)

theorem Delete_keys (m : SyncMap) (k : PeerTaskMetaData) :
    (m.Delete k).keys = m.keys.filter (fun x => x ≠ k) := by
  induction m with
  | nil => simp [Delete, keys]
  | cons e m ih =>
    obtain ⟨k0, v0⟩ := e
    simp only [Delete, keys] at ih ⊢
    by_cases h0 : k0 = k
    · simp [List.filter_cons, h0]; simpa using ih
    · simp [List.filter_cons, h0]; simpa using ih

end SyncMap

/-! ## Lemmas on the two phases of `TryGC` -/

namespace storageManager

theorem Load_markTasks (rc : Reclaimer) (now : Nat) (m : SyncMap) (k : PeerTaskMetaData) :
    (markTasks rc now m).Load k =
      (m.Load k).map (fun t => if rc.CanReclaim now t then rc.MarkReclaim t else t) := by
  induction m with
  | nil => simp [markTasks, SyncMap.Load]
  | cons e m ih =>
    obtain ⟨k0, v0⟩ := e
    by_cases hc : rc.CanReclaim now v0 = true
    · have hm : markTasks rc now ((k0, v0) :: m) =
          (k0, rc.MarkReclaim v0) :: markTasks rc now m := by simp [markTasks, hc]
      rw [hm]
      by_cases h0 : k0 = k <;> simp [SyncMap.Load, h0, hc, ih]
    · have hm : markTasks rc now ((k0, v0) :: m) = (k0, v0) :: markTasks rc now m := by
        simp [markTasks, hc]
      rw [hm]
      by_cases h0 : k0 = k <;> simp [SyncMap.Load, h0, hc, ih]

theorem mem_markedTasks (rc : Reclaimer) (now : Nat) (m : SyncMap) (k : PeerTaskMetaData) :
    k ∈ markedTasks rc now m ↔ ∃ t, (k, t) ∈ m ∧ rc.CanReclaim now t = true := by
  simp [markedTasks]

theorem markCalls_reclaimableKeys (rc : Reclaimer) (now : Nat) (m : SyncMap) :
    reclaimableKeys (markCalls rc now m) = markedTasks rc now m := by
  induction m with
  | nil => simp [markCalls, reclaimableKeys, markedTasks]
  | cons e m ih =>
    obtain ⟨k0, v0⟩ := e
    simp only [reclaimableKeys, markedTasks] at ih
    by_cases hc : rc.CanReclaim now v0 = true <;>
      simp [markCalls, reclaimableKeys, markedTasks, hc, List.filter_cons, ih]

theorem markCalls_markedKeys (rc : Reclaimer) (now : Nat) (m : SyncMap) :
    markedKeys (markCalls rc now m) = markedTasks rc now m := by
  induction m with
  | nil => simp [markCalls, markedKeys, markedTasks]
  | cons e m ih =>
    obtain ⟨k0, v0⟩ := e
    simp only [markedKeys, markedTasks] at ih
    by_cases hc : rc.CanReclaim now v0 = true <;>
      simp [markCalls, markedKeys, markedTasks, hc, List.filter_cons, ih]

theorem markCalls_no_delete (rc : Reclaimer) (now : Nat) (m : SyncMap) (c : Call)
    (hc : c ∈ markCalls rc now m) :
    (∀ k, c ≠ .Delete k) ∧ (∀ k err, c ≠ .Reclaim k err) := by
  induction m with
  | nil => simp [markCalls] at hc
  | cons e m ih =>
    obtain ⟨k0, v0⟩ := e
    by_cases h : rc.CanReclaim now v0 = true
    · rw [markCalls, if_pos h] at hc
      rcases List.mem_cons.mp hc with rfl | hc
      · exact ⟨fun _ h => Call.noConfusion h, fun _ _ h => Call.noConfusion h⟩
      · rcases List.mem_cons.mp hc with rfl | hc
        · exact ⟨fun _ h => Call.noConfusion h, fun _ _ h => Call.noConfusion h⟩
        · exact ih hc
    · rw [markCalls, if_neg h] at hc
      rcases List.mem_cons.mp hc with rfl | hc
      · exact ⟨fun _ h => Call.noConfusion h, fun _ _ h => Call.noConfusion h⟩
      · exact ih hc

theorem sweepKey_of_none {rc : Reclaimer} {st : SyncMap × FileSystem × List Call}
    {key : PeerTaskMetaData} (h : st.1.Load key = none) : sweepKey rc st key = st := by
  simp [sweepKey, h]

theorem sweepKey_of_some {rc : Reclaimer} {st : SyncMap × FileSystem × List Call}
    {key : PeerTaskMetaData} {t : localTaskStore} (h : st.1.Load key = some t) :
    sweepKey rc st key =
      (st.1.Delete key, (rc.Reclaim t st.2.1).2,
        st.2.2 ++ [.Delete key, .Reclaim key (rc.Reclaim t st.2.1).1]) := by
  simp [sweepKey, h]

theorem sweepKey_Load_self (rc : Reclaimer) (st : SyncMap × FileSystem × List Call)
    (key : PeerTaskMetaData) : (sweepKey rc st key).1.Load key = none := by
  cases h : st.1.Load key with
  | none => rw [sweepKey_of_none h]; exact h
  | some t => rw [sweepKey_of_some h]; exact SyncMap.Load_Delete_self _ _

theorem sweepKey_Load_of_ne (rc : Reclaimer) (st : SyncMap × FileSystem × List Call)
    {key k : PeerTaskMetaData} (hne : key ≠ k) :
    (sweepKey rc st key).1.Load k = st.1.Load k := by
  cases h : st.1.Load key with
  | none => rw [sweepKey_of_none h]
  | some t => rw [sweepKey_of_some h]; exact SyncMap.Load_Delete_of_ne _ hne

theorem sweepKey_Load_none (rc : Reclaimer) (st : SyncMap × FileSystem × List Call)
    (key : PeerTaskMetaData) {k : PeerTaskMetaData} (h : st.1.Load k = none) :
    (sweepKey rc st key).1.Load k = none := by
  by_cases hk : key = k
  · subst hk; exact sweepKey_Load_self rc st key
  · rw [sweepKey_Load_of_ne rc st hk]; exact h

theorem sweep_Load_none (rc : Reclaimer) (l : List PeerTaskMetaData)
    (st : SyncMap × FileSystem × List Call) {k : PeerTaskMetaData}
    (h : st.1.Load k = none) : (l.foldl (sweepKey rc) st).1.Load k = none := by
  induction l generalizing st with
  | nil => exact h
  | cons key l ih => exact ih _ (sweepKey_Load_none rc st key h)

theorem sweep_Load_of_not_mem (rc : Reclaimer) (l : List PeerTaskMetaData)
    (st : SyncMap × FileSystem × List Call) {k : PeerTaskMetaData} (h : k ∉ l) :
    (l.foldl (sweepKey rc) st).1.Load k = st.1.Load k := by
  induction l generalizing st with
  | nil => rfl
  | cons key l ih =>
    have h1 : key ≠ k := fun e => h (by simp [e])
    have h2 : k ∉ l := fun e => h (List.mem_cons_of_mem _ e)
    simp only [List.foldl_cons]
    rw [ih _ h2, sweepKey_Load_of_ne rc st h1]

theorem sweep_Load_of_mem (rc : Reclaimer) (l : List PeerTaskMetaData)
    (st : SyncMap × FileSystem × List Call) {k : PeerTaskMetaData} (h : k ∈ l) :
    (l.foldl (sweepKey rc) st).1.Load k = none := by
  induction l generalizing st with
  | nil => simp at h
  | cons key l ih =>
    simp only [List.foldl_cons]
    by_cases hk : key = k
    · subst hk; exact sweep_Load_none rc l _ (sweepKey_Load_self rc st key)
    · have : k ∈ l := by
        rcases List.mem_cons.mp h with e | e
        · exact absurd e.symm hk
        · exact e
      exact ih _ this

theorem sweep_calls_append (rc : Reclaimer) (l : List PeerTaskMetaData)
    (st : SyncMap × FileSystem × List Call) :
    ∃ extra, (l.foldl (sweepKey rc) st).2.2 = st.2.2 ++ extra := by
  induction l generalizing st with
  | nil => exact ⟨[], by simp⟩
  | cons key l ih =>
    simp only [List.foldl_cons]
    cases h : st.1.Load key with
    | none => rw [sweepKey_of_none h]; exact ih st
    | some t =>
      obtain ⟨extra, he⟩ := ih (sweepKey rc st key)
      rw [sweepKey_of_some h] at he
      rw [sweepKey_of_some h]
      exact ⟨[.Delete key, .Reclaim key (rc.Reclaim t st.2.1).1] ++ extra, by rw [he]; simp⟩

theorem sweep_calls_of_mem (rc : Reclaimer) (l : List PeerTaskMetaData)
    (st : SyncMap × FileSystem × List Call) {k : PeerTaskMetaData} {t : localTaskStore}
    (hk : k ∈ l) (ht : st.1.Load k = some t) :
    ∃ err, [Call.Delete k, Call.Reclaim k err] <:+: (l.foldl (sweepKey rc) st).2.2 := by
  induction l generalizing st with
  | nil => simp at hk
  | cons key l ih =>
    simp only [List.foldl_cons]
    by_cases hkey : key = k
    · subst hkey
      obtain ⟨extra, he⟩ := sweep_calls_append rc l (sweepKey rc st key)
      rw [he, sweepKey_of_some ht]
      exact ⟨(rc.Reclaim t st.2.1).1, st.2.2, extra, by simp⟩
    · have hl : k ∈ l := by
        rcases List.mem_cons.mp hk with e | e
        · exact absurd e.symm hkey
        · exact e
      exact ih _ hl (by rw [sweepKey_Load_of_ne rc st hkey]; exact ht)

theorem sweep_calls_origin (rc : Reclaimer) (l : List PeerTaskMetaData)
    (st : SyncMap × FileSystem × List Call) (c : Call)
    (hc : c ∈ (l.foldl (sweepKey rc) st).2.2) :
    c ∈ st.2.2 ∨ ∃ k, k ∈ l ∧ st.1.Load k ≠ none ∧
      (c = .Delete k ∨ ∃ err, c = .Reclaim k err) := by
  induction l generalizing st with
  | nil => exact Or.inl hc
  | cons key l ih =>
    simp only [List.foldl_cons] at hc
    rcases ih _ hc with h | ⟨k, hk, hload, hev⟩
    · cases hl : st.1.Load key with
      | none => rw [sweepKey_of_none hl] at h; exact Or.inl h
      | some t =>
        rw [sweepKey_of_some hl] at h
        simp only [List.mem_append, List.mem_cons, List.not_mem_nil, or_false] at h
        rcases h with h | h | h
        · exact Or.inl h
        · exact Or.inr ⟨key, by simp, by simp [hl], Or.inl h⟩
        · exact Or.inr ⟨key, by simp, by simp [hl], Or.inr ⟨_, h⟩⟩
    · refine Or.inr ⟨k, List.mem_cons_of_mem _ hk, ?_, hev⟩
      intro hnone
      exact hload (sweepKey_Load_none rc st key hnone)

end storageManager

namespace storageManager

theorem sweep_reclaimableKeys (rc : Reclaimer) (l : List PeerTaskMetaData)
    (st : SyncMap × FileSystem × List Call) :
    reclaimableKeys (l.foldl (sweepKey rc) st).2.2 = reclaimableKeys st.2.2 := by
  induction l generalizing st with
  | nil => rfl
  | cons key l ih =>
    simp only [List.foldl_cons]
    rw [ih]
    cases h : st.1.Load key with
    | none => rw [sweepKey_of_none h]
    | some t => rw [sweepKey_of_some h]; simp [reclaimableKeys, List.filterMap_append]

theorem sweep_markedKeys (rc : Reclaimer) (l : List PeerTaskMetaData)
    (st : SyncMap × FileSystem × List Call) :
    markedKeys (l.foldl (sweepKey rc) st).2.2 = markedKeys st.2.2 := by
  induction l generalizing st with
  | nil => rfl
  | cons key l ih =>
    simp only [List.foldl_cons]
    rw [ih]
    cases h : st.1.Load key with
    | none => rw [sweepKey_of_none h]
    | some t => rw [sweepKey_of_some h]; simp [markedKeys, List.filterMap_append]

/-! ### Lemmas on `forceGC` -/

theorem force_tasks (rc : Reclaimer) (l : SyncMap) (st : SyncMap × FileSystem × List Call) :
    (l.foldl (forceEntry rc) st).1 = st.1.filter (fun e => e.1 ∉ l.keys) := by
  induction l generalizing st with
  | nil => simp [SyncMap.keys]
  | cons e l ih =>
    simp only [List.foldl_cons]
    rw [ih]
    simp only [forceEntry, SyncMap.Delete, SyncMap.keys, List.filter_filter, List.map_cons,
      List.mem_cons]
    apply List.filter_congr
    intro x _
    by_cases h1 : x.1 = e.1 <;> simp [h1]

theorem force_calls (rc : Reclaimer) (l : SyncMap) (st : SyncMap × FileSystem × List Call) :
    ∃ extra, (l.foldl (forceEntry rc) st).2.2 = st.2.2 ++ extra ∧
      deletedKeys extra = l.keys ∧ markedKeys extra = l.keys ∧ reclaimedKeys extra = l.keys ∧
      ∀ key, key ∈ l.keys →
        ∃ err, [Call.Delete key, Call.MarkReclaim key, Call.Reclaim key err] <:+: extra := by
  induction l generalizing st with
  | nil => exact ⟨[], by simp [SyncMap.keys, deletedKeys, markedKeys, reclaimedKeys]⟩
  | cons e l ih =>
    simp only [List.foldl_cons]
    obtain ⟨extra, he, hd, hm, hr, hin⟩ := ih (forceEntry rc st e)
    refine ⟨[.Delete e.1, .MarkReclaim e.1,
      .Reclaim e.1 (rc.Reclaim (rc.MarkReclaim e.2) st.2.1).1] ++ extra, ?_, ?_, ?_, ?_, ?_⟩
    · rw [he]; simp [forceEntry]
    · simp only [deletedKeys] at hd
      simp [deletedKeys, List.filterMap_append, SyncMap.keys, hd]
    · simp only [markedKeys] at hm
      simp [markedKeys, List.filterMap_append, SyncMap.keys, hm]
    · simp only [reclaimedKeys] at hr
      simp [reclaimedKeys, List.filterMap_append, SyncMap.keys, hr]
    · intro key hkey
      simp only [SyncMap.keys, List.map_cons, List.mem_cons] at hkey
      rcases hkey with rfl | hkey
      · exact ⟨(rc.Reclaim (rc.MarkReclaim e.2) st.2.1).1, [], extra, by simp⟩
      · obtain ⟨err, a, b, hab⟩ := hin key hkey
        exact ⟨err, [.Delete e.1, .MarkReclaim e.1,
          .Reclaim e.1 (rc.Reclaim (rc.MarkReclaim e.2) st.2.1).1] ++ a, b, by
            rw [← hab]; simp⟩

/-! ### Lemmas on `TryGC` as a whole -/

theorem TryGC_pending_absent (rc : Reclaimer) (s : storageManager) (now : Nat)
    (fs : FileSystem) (key : PeerTaskMetaData) (hkey : key ∈ s.markedReclaimTasks) :
    (s.TryGC rc now fs).2.1.tasks.Load key = none := by
  simp only [TryGC]
  exact sweep_Load_of_mem rc _ _ hkey

theorem TryGC_pending_calls (rc : Reclaimer) (s : storageManager) (now : Nat)
    (fs : FileSystem) (key : PeerTaskMetaData) (hkey : key ∈ s.markedReclaimTasks)
    (hpresent : s.tasks.Load key ≠ none) :
    ∃ err, [Call.Delete key, Call.Reclaim key err] <:+: (s.TryGC rc now fs).2.2.2 := by
  cases ht : s.tasks.Load key with
  | none => exact absurd ht hpresent
  | some t =>
    simp only [TryGC]
    refine sweep_calls_of_mem rc _ _ hkey
      (t := if rc.CanReclaim now t then rc.MarkReclaim t else t) ?_
    simp [Load_markTasks, ht]

theorem TryGC_calls_origin (rc : Reclaimer) (s : storageManager) (now : Nat)
    (fs : FileSystem) (key : PeerTaskMetaData) (c : Call)
    (hc : c ∈ (s.TryGC rc now fs).2.2.2)
    (hev : c = .Delete key ∨ ∃ err, c = .Reclaim key err) :
    key ∈ s.markedReclaimTasks ∧ s.tasks.Load key ≠ none := by
  simp only [TryGC] at hc
  rcases sweep_calls_origin rc _ _ c hc with h | ⟨k, hk, hload, hk2⟩
  · have := markCalls_no_delete rc now s.tasks c h
    rcases hev with rfl | ⟨err, rfl⟩
    · exact absurd rfl (this.1 key)
    · exact absurd rfl (this.2 key err)
  · have hkk : k = key := by
      rcases hev with rfl | ⟨err, rfl⟩
      · rcases hk2 with h | ⟨e, h⟩
        · cases h; rfl
        · cases h
      · rcases hk2 with h | ⟨e, h⟩
        · cases h
        · cases h; rfl
    subst hkk
    refine ⟨hk, ?_⟩
    intro hnone
    apply hload
    simp [Load_markTasks, hnone]

theorem sweep_tasks (rc : Reclaimer) (l : List PeerTaskMetaData)
    (st : SyncMap × FileSystem × List Call) :
    (l.foldl (sweepKey rc) st).1 = l.foldl SyncMap.Delete st.1 := by
  induction l generalizing st with
  | nil => rfl
  | cons key l ih =>
    simp only [List.foldl_cons]
    rw [ih]
    cases h : st.1.Load key with
    | none =>
      rw [sweepKey_of_none h]
      have : st.1.Delete key = st.1 := by
        simp only [SyncMap.Delete, List.filter_eq_self]
        intro e he
        have hk := (SyncMap.Load_eq_none_iff _ _).mp h
        have : e.1 ≠ key := fun heq => hk (by
          simp only [SyncMap.keys, List.mem_map]
          exact ⟨e, he, heq⟩)
        simpa using this
      rw [this]
    | some t => rw [sweepKey_of_some h]

end storageManager

/-! ## The claims on garbage collection -/

/-- C4. Sweep of `TryGC`: when the call returns, every key of the pending list left by the
previous call (`markedReclaimTasks`) is absent from the task map, and for each such key
that was in the map the record of calls holds its deletion from the map immediately
followed by the `Reclaim` call on its store. -/
theorem TryGC_sweeps_pending (rc : Reclaimer) (s : storageManager) (now : Nat)
    (fs : FileSystem) (key : PeerTaskMetaData) (hkey : key ∈ s.markedReclaimTasks) :
    (s.TryGC rc now fs).2.1.tasks.Load key = none ∧
    key ∉ (s.TryGC rc now fs).2.1.tasks.keys ∧
    (s.tasks.Load key ≠ none →
      ∃ err, [Call.Delete key, Call.Reclaim key err] <:+: (s.TryGC rc now fs).2.2.2) :=
  ⟨storageManager.TryGC_pending_absent rc s now fs key hkey,
   (SyncMap.Load_eq_none_iff _ _).mp (storageManager.TryGC_pending_absent rc s now fs key hkey),
   storageManager.TryGC_pending_calls rc s now fs key hkey⟩

/-- Witness of C4 on the expired task `(t1, p1)`, pending after a first round. -/
theorem TryGC_sweeps_pending_witness :
    exampleKey ∈ exampleMarked.2.1.markedReclaimTasks ∧
    (exampleMarked.2.1.TryGC specReclaimer 300 exampleMarked.2.2.1).2.1.tasks.Load exampleKey
      = none ∧
    exampleKey ∉ (exampleMarked.2.1.TryGC specReclaimer 300 exampleMarked.2.2.1).2.1.tasks.keys ∧
    (exampleMarked.2.1.tasks.Load exampleKey ≠ none →
      ∃ err, [Call.Delete exampleKey, Call.Reclaim exampleKey err] <:+:
        (exampleMarked.2.1.TryGC specReclaimer 300 exampleMarked.2.2.1).2.2.2) :=
  ⟨by decide,
   TryGC_sweeps_pending specReclaimer exampleMarked.2.1 300 exampleMarked.2.2.1 exampleKey
     (by decide)⟩

/-- C5. Mark of `TryGC`: the pending list the call leaves holds exactly the keys of the
stores in the task map whose `CanReclaim` returned true during the call, in the order of
the walk, and `MarkReclaim` was called on exactly those stores. -/
theorem TryGC_marks_reclaimable (rc : Reclaimer) (s : storageManager) (now : Nat)
    (fs : FileSystem) :
    (s.TryGC rc now fs).2.1.markedReclaimTasks
      = (s.tasks.filter (fun e => rc.CanReclaim now e.2)).map Prod.fst ∧
    (s.TryGC rc now fs).2.1.markedReclaimTasks = reclaimableKeys (s.TryGC rc now fs).2.2.2 ∧
    markedKeys (s.TryGC rc now fs).2.2.2 = (s.TryGC rc now fs).2.1.markedReclaimTasks := by
  refine ⟨rfl, ?_, ?_⟩
  · simp only [storageManager.TryGC]
    rw [storageManager.sweep_reclaimableKeys, storageManager.markCalls_reclaimableKeys]
  · simp only [storageManager.TryGC]
    rw [storageManager.sweep_markedKeys, storageManager.markCalls_markedKeys]

/-- C6. GC latency bound: a store found in the task map with `CanReclaim` true at a `TryGC`
call is gone from the map after that call and the next one (whatever the instant and the
disk of the second call), and `Reclaim` has been called on its key in one of the two. -/
theorem TryGC_twice_reclaims (rc : Reclaimer) (s : storageManager) (now now2 : Nat)
    (fs fs2 : FileSystem) (key : PeerTaskMetaData) (t : localTaskStore)
    (hload : s.tasks.Load key = some t) (hcan : rc.CanReclaim now t = true) :
    ((s.TryGC rc now fs).2.1.TryGC rc now2 fs2).2.1.tasks.Load key = none ∧
    ∃ err, Call.Reclaim key err ∈
      (s.TryGC rc now fs).2.2.2 ++ ((s.TryGC rc now fs).2.1.TryGC rc now2 fs2).2.2.2 := by
  have hpending : key ∈ (s.TryGC rc now fs).2.1.markedReclaimTasks :=
    (storageManager.mem_markedTasks rc now s.tasks key).mpr ⟨t, SyncMap.mem_of_Load hload, hcan⟩
  refine ⟨storageManager.TryGC_pending_absent rc _ now2 fs2 key hpending, ?_⟩
  cases hmid : (s.TryGC rc now fs).2.1.tasks.Load key with
  | some t1 =>
    obtain ⟨err, hrun⟩ :=
      storageManager.TryGC_pending_calls rc _ now2 fs2 key hpending (by simp [hmid])
    refine ⟨err, List.mem_append_right _ (hrun.subset ?_)⟩
    simp
  | none =>
    have hin : key ∈ s.markedReclaimTasks := by
      by_contra hnot
      have := storageManager.sweep_Load_of_not_mem rc s.markedReclaimTasks
        (storageManager.markTasks rc now s.tasks, fs, storageManager.markCalls rc now s.tasks)
        hnot
      simp only [storageManager.TryGC] at hmid
      rw [this, storageManager.Load_markTasks, hload] at hmid
      simp at hmid
    obtain ⟨err, hrun⟩ :=
      storageManager.TryGC_pending_calls rc s now fs key hin (by simp [hload])
    refine ⟨err, List.mem_append_left _ (hrun.subset ?_)⟩
    simp

/-- Witness of C6 on the expired task `(t1, p1)` of the example. -/
theorem TryGC_twice_reclaims_witness :
    ((exampleRegistered.2.1.TryGC specReclaimer 200 exampleRegistered.2.2).2.1.TryGC
      specReclaimer 300 exampleMarked.2.2.1).2.1.tasks.Load exampleKey = none ∧
    ∃ err, Call.Reclaim exampleKey err ∈
      (exampleRegistered.2.1.TryGC specReclaimer 200 exampleRegistered.2.2).2.2.2 ++
      ((exampleRegistered.2.1.TryGC specReclaimer 200 exampleRegistered.2.2).2.1.TryGC
        specReclaimer 300 exampleMarked.2.2.1).2.2.2 :=
  TryGC_twice_reclaims specReclaimer exampleRegistered.2.1 200 300 exampleRegistered.2.2
    exampleMarked.2.2.1 exampleKey
    { StoreStrategy := "Simple", TaskID := "t1", ContentLength := 5, TotalPieces := 1,
      PeerID := "p1", DataFilePath := "/data/t1/p1/data", dataDir := "/data/t1/p1",
      metadataFile := some ⟨"/data/t1/p1/task.meta", .file 1⟩,
      metadataFilePath := "/data/t1/p1/task.meta", expireTime := 100 }
    (by decide) (by decide)

/-- C7, as stated, fails: in the example the second round leaves the key `(t1, p1)` in the
pending list although its store is gone; the task is then registered again, and the store
made by that registration, never marked before, is marked in the next `TryGC` call and
deleted from the map and reclaimed in that same call. -/
theorem TryGC_reclaims_fresh_store :
    exampleAgain.1 = none ∧
    (exampleAgain.2.1.tasks.Load exampleKey).map (fun t => t.reclaimMarked) = some false ∧
    Call.MarkReclaim exampleKey ∈ (exampleAgain.2.1.TryGC specReclaimer 320 exampleAgain.2.2).2.2.2 ∧
    Call.Reclaim exampleKey none ∈
      (exampleAgain.2.1.TryGC specReclaimer 320 exampleAgain.2.2).2.2.2 ∧
    (exampleAgain.2.1.TryGC specReclaimer 320 exampleAgain.2.2).2.1.tasks.Load exampleKey
      = none := by
  decide

/-- C7, amended. Two-round grace, by key: a `TryGC` call neither deletes from the map nor
calls `Reclaim` for a key that is not in the pending list left by an earlier call; a store
under such a key is still in the map when the call returns, marked if its `CanReclaim`
was true. -/
theorem TryGC_spares_unlisted (rc : Reclaimer) (s : storageManager) (now : Nat)
    (fs : FileSystem) (key : PeerTaskMetaData) (hkey : key ∉ s.markedReclaimTasks) :
    Call.Delete key ∉ (s.TryGC rc now fs).2.2.2 ∧
    (∀ err, Call.Reclaim key err ∉ (s.TryGC rc now fs).2.2.2) ∧
    (s.TryGC rc now fs).2.1.tasks.Load key =
      (s.tasks.Load key).map (fun t => if rc.CanReclaim now t then rc.MarkReclaim t else t) := by
  refine ⟨fun h => hkey (storageManager.TryGC_calls_origin rc s now fs key _ h (Or.inl rfl)).1,
    fun err h =>
      hkey (storageManager.TryGC_calls_origin rc s now fs key _ h (Or.inr ⟨err, rfl⟩)).1, ?_⟩
  simp only [storageManager.TryGC]
  rw [storageManager.sweep_Load_of_not_mem rc _ _ hkey, storageManager.Load_markTasks]

/-- Witness of C7 as amended, on the first round of the example, whose pending list is
empty. -/
theorem TryGC_spares_unlisted_witness :
    exampleKey ∉ exampleRegistered.2.1.markedReclaimTasks ∧
    Call.Delete exampleKey ∉
      (exampleRegistered.2.1.TryGC specReclaimer 200 exampleRegistered.2.2).2.2.2 ∧
    (∀ err, Call.Reclaim exampleKey err ∉
      (exampleRegistered.2.1.TryGC specReclaimer 200 exampleRegistered.2.2).2.2.2) ∧
    (exampleRegistered.2.1.TryGC specReclaimer 200 exampleRegistered.2.2).2.1.tasks.Load
        exampleKey =
      (exampleRegistered.2.1.tasks.Load exampleKey).map
        (fun t => if specReclaimer.CanReclaim 200 t then specReclaimer.MarkReclaim t else t) :=
  ⟨by decide,
   TryGC_spares_unlisted specReclaimer exampleRegistered.2.1 200 exampleRegistered.2.2
     exampleKey (by decide)⟩

/-- C8. `CleanUp` reclaims everything: afterwards the task map is empty, and for every store
that was in the map the record of calls holds, exactly once each, its deletion from the
map, `MarkReclaim` and then `Reclaim`, whatever `CanReclaim` says of it and whatever
`Reclaim` returns for it or for any other store. -/
theorem CleanUp_reclaims_all (rc : Reclaimer) (s : storageManager) (fs : FileSystem)
    (hnd : s.tasks.keys.Nodup) :
    (s.CleanUp rc fs).1.tasks = [] ∧
    markedKeys (s.CleanUp rc fs).2.2 = s.tasks.keys ∧
    reclaimedKeys (s.CleanUp rc fs).2.2 = s.tasks.keys ∧
    ∀ key, key ∈ s.tasks.keys →
      (markedKeys (s.CleanUp rc fs).2.2).count key = 1 ∧
      (reclaimedKeys (s.CleanUp rc fs).2.2).count key = 1 ∧
      ∃ err, [Call.Delete key, Call.MarkReclaim key, Call.Reclaim key err] <:+:
        (s.CleanUp rc fs).2.2 := by
  obtain ⟨extra, he, _, hm, hr, hin⟩ := storageManager.force_calls rc s.tasks (s.tasks, fs, [])
  have hcalls : (s.CleanUp rc fs).2.2 = extra := by
    simp only [storageManager.CleanUp, storageManager.forceGC]
    rw [he]; simp
  have htasks : (s.CleanUp rc fs).1.tasks = [] := by
    simp only [storageManager.CleanUp, storageManager.forceGC]
    rw [storageManager.force_tasks]
    simp only [List.filter_eq_nil_iff]
    intro e he
    have : e.1 ∈ s.tasks.keys := by
      simp only [SyncMap.keys, List.mem_map]
      exact ⟨e, he, rfl⟩
    simpa using this
  rw [hcalls]
  refine ⟨htasks, hm, hr, ?_⟩
  intro key hkey
  refine ⟨?_, ?_, hin key hkey⟩
  · rw [hm]; exact List.count_eq_one_of_mem hnd hkey
  · rw [hr]; exact List.count_eq_one_of_mem hnd hkey

/-- Witness of C8 on the example with its one registered task, not yet expired. -/
theorem CleanUp_reclaims_all_witness :
    exampleRegistered.2.1.tasks.keys.Nodup ∧
    (exampleRegistered.2.1.CleanUp specReclaimer exampleRegistered.2.2).1.tasks = [] ∧
    markedKeys (exampleRegistered.2.1.CleanUp specReclaimer exampleRegistered.2.2).2.2
      = exampleRegistered.2.1.tasks.keys :=
  ⟨by decide,
   (CleanUp_reclaims_all specReclaimer exampleRegistered.2.1 exampleRegistered.2.2
      (by decide)).1,
   (CleanUp_reclaims_all specReclaimer exampleRegistered.2.1 exampleRegistered.2.2
      (by decide)).2.1⟩

/-- C9, as stated, fails: in the second round of the example, run on a disk where a foreign
file keeps the task directory from being removed, `Reclaim` of the key `(t1, p1)` returns
an error and the key is gone from the map, yet it is in the pending list left for the
next round, because the mark phase of the same call listed it again. -/
theorem TryGC_failed_key_still_pending :
    Call.Reclaim exampleKey (some (.PathError "remove" "/data/t1/p1" .ENOTEMPTY)) ∈
      (exampleMarked.2.1.TryGC specReclaimer 300 exampleBusyDisk).2.2.2 ∧
    ¬ ((exampleMarked.2.1.TryGC specReclaimer 300 exampleBusyDisk).2.1.tasks.Load exampleKey
         = none ∧
       exampleKey ∉
         (exampleMarked.2.1.TryGC specReclaimer 300 exampleBusyDisk).2.1.markedReclaimTasks) := by
  decide

/-- C9, amended. A key whose `Reclaim` returns an error during the sweep of `TryGC` is
absent from the task map when the call returns; the error has no part in the state the
call leaves (the map is the marked map without the old pending keys, the pending list is
the list of the mark phase, so the key is in it exactly when it had a store whose
`CanReclaim` was true); and the next `TryGC` makes no `Reclaim` call for the key. -/
theorem TryGC_failed_key_dropped (rc : Reclaimer) (s : storageManager) (now : Nat)
    (fs : FileSystem) (key : PeerTaskMetaData) (err : GoError)
    (hfail : Call.Reclaim key (some err) ∈ (s.TryGC rc now fs).2.2.2) :
    (s.TryGC rc now fs).2.1.tasks.Load key = none ∧
    (s.TryGC rc now fs).2.1 =
      { s with
        tasks := s.markedReclaimTasks.foldl SyncMap.Delete
          (s.tasks.map (fun e => if rc.CanReclaim now e.2 then (e.1, rc.MarkReclaim e.2) else e)),
        markedReclaimTasks := (s.tasks.filter (fun e => rc.CanReclaim now e.2)).map Prod.fst } ∧
    (key ∈ (s.TryGC rc now fs).2.1.markedReclaimTasks ↔
      ∃ t, (key, t) ∈ s.tasks ∧ rc.CanReclaim now t = true) ∧
    ∀ (now2 : Nat) (fs2 : FileSystem) (err2 : Option GoError),
      Call.Reclaim key err2 ∉ ((s.TryGC rc now fs).2.1.TryGC rc now2 fs2).2.2.2 := by
  have hin : key ∈ s.markedReclaimTasks :=
    (storageManager.TryGC_calls_origin rc s now fs key _ hfail (Or.inr ⟨_, rfl⟩)).1
  have habsent := storageManager.TryGC_pending_absent rc s now fs key hin
  refine ⟨habsent, ?_, storageManager.mem_markedTasks rc now s.tasks key, ?_⟩
  · simp only [storageManager.TryGC]
    rw [storageManager.sweep_tasks]
    rfl
  · intro now2 fs2 err2 h
    exact (storageManager.TryGC_calls_origin rc _ now2 fs2 key _ h (Or.inr ⟨_, rfl⟩)).2 habsent

/-- Witness of C9 as amended, on the failing second round of the example. -/
theorem TryGC_failed_key_dropped_witness :
    Call.Reclaim exampleKey (some (.PathError "remove" "/data/t1/p1" .ENOTEMPTY)) ∈
      (exampleMarked.2.1.TryGC specReclaimer 300 exampleBusyDisk).2.2.2 ∧
    (exampleMarked.2.1.TryGC specReclaimer 300 exampleBusyDisk).2.1.tasks.Load exampleKey
      = none :=
  ⟨by decide,
   (TryGC_failed_key_dropped specReclaimer exampleMarked.2.1 300 exampleBusyDisk exampleKey
      (.PathError "remove" "/data/t1/p1" .ENOTEMPTY) (by decide)).1⟩

/-! ## Lemmas on the operating system -/

namespace FileSystem

theorem Mkdir_err (fs : FileSystem) (name : String) (e : GoError)
    (h : (fs.Mkdir name).1 = some e) : e.isPathError = true := by
  unfold Mkdir at h
  split at h
  · simp at h; subst h; rfl
  · split at h
    · simp at h; subst h; rfl
    · split at h
      · simp at h
      · simp at h; subst h; rfl
      · simp at h; subst h; rfl

theorem mkdirAllAux_err (fs : FileSystem) (n : Nat) (p : String) (e : GoError)
    (h : (fs.mkdirAllAux n p).1 = some e) : e.isPathError = true := by
  induction n generalizing fs p e with
  | zero => exact Mkdir_err fs p e h
  | succ n ih =>
    unfold mkdirAllAux at h
    split at h
    · split at h
      · simp at h
      · simp at h; subst h; rfl
    · split at h
      · rename_i e1 fs1 heq
        simp at h; subst h
        split at heq
        · simp at heq
        · exact ih _ _ _ (by rw [heq])
      · split at h
        · simp at h
        · split at h
          · simp at h
          · rename_i e2 fs2 heq2 _ _
            simp at h; subst h
            exact Mkdir_err _ _ _ (by rw [heq2])

theorem MkdirAll_err (fs : FileSystem) (name : String) (e : GoError)
    (h : (fs.MkdirAll name).1 = some e) : e.isPathError = true := by
  unfold MkdirAll at h
  split at h
  · simp at h; subst h; rfl
  · exact mkdirAllAux_err _ _ _ _ h

theorem OpenFile_err (fs : FileSystem) (name : String) (e : GoError) (fs1 : FileSystem)
    (h : fs.OpenFile name = (.error e, fs1)) : e.isPathError = true := by
  unfold OpenFile at h
  repeat' split at h
  all_goals simp at h
  all_goals (try (obtain ⟨h1, _⟩ := h; subst h1; rfl))

theorem Stat_err (fs : FileSystem) (name : String) (e : GoError)
    (h : fs.Stat name = .error e) : e.isPathError = true := by
  unfold Stat at h
  repeat' split at h
  all_goals simp at h
  all_goals (try (subst h; rfl))

theorem create_err (fs : FileSystem) (op name : String) (nd : Node) (e : GoError)
    (h : (fs.create op name nd).1 = some e) : e.isPathError = true := by
  unfold create at h
  repeat' split at h
  all_goals simp at h
  all_goals (try (subst h; rfl))

theorem Symlink_err (fs : FileSystem) (old name : String) (e : GoError)
    (h : (fs.Symlink old name).1 = some e) : e.isPathError = true := by
  unfold Symlink at h
  split at h
  · simp at h; subst h; rfl
  · exact create_err _ _ _ _ _ h

theorem Symlink_pair_err (fs : FileSystem) (old name : String) (e : GoError)
    (fs1 : FileSystem) (h : fs.Symlink old name = (some e, fs1)) : e.isPathError = true :=
  Symlink_err fs old name e (by rw [h])

theorem Link_err (fs : FileSystem) (old name : String) (e : GoError)
    (h : (fs.Link old name).1 = some e) : e.isPathError = true := by
  unfold Link at h
  repeat' split at h
  all_goals first
    | exact create_err _ _ _ _ _ h
    | (simp at h; subst h; rfl)

end FileSystem

/-! ## Lemmas on `CreateTask` and `RegisterTask` -/

namespace storageManager

theorem createData_err (dev : Nat) (req : RegisterTaskRequest) (t : localTaskStore)
    (data : String) (fs2 fs3 : FileSystem) (e : GoError)
    (h : createData dev req t data fs2 = (.error e, fs3)) : e.isPathError = true := by
  simp only [createData] at h
  repeat' split at h
  all_goals first
    | (simp at h; done)
    | (simp at h; obtain ⟨h1, _⟩ := h; subst h1
       first
        | exact FileSystem.OpenFile_err _ _ _ _ (by assumption)
        | exact FileSystem.Stat_err _ _ _ (by assumption)
        | exact FileSystem.Symlink_pair_err _ _ _ _ _ (by assumption))

theorem createData_ok (dev : Nat) (req : RegisterTaskRequest) (t t1 : localTaskStore)
    (data : String) (fs2 fs3 : FileSystem)
    (h : createData dev req t data fs2 = (.ok t1, fs3)) :
    ∃ p, t1 = { t with DataFilePath := p } := by
  simp only [createData] at h
  repeat' split at h
  all_goals first
    | (simp at h; done)
    | (simp at h; exact ⟨_, h.1.symm⟩)

theorem CreateTask_cases (s : storageManager) (now : Nat) (req : RegisterTaskRequest)
    (fs : FileSystem) :
    (∃ e fs1, e.isPathError = true ∧ s.CreateTask now req fs = (some e, s.Keep now, fs1)) ∨
    (∃ t fs1, t.dataDir = pathJoin [s.storeOption.DataPath, req.TaskID, req.PeerID] ∧
      s.CreateTask now req fs =
        (none, { s.Keep now with
                 tasks := (s.Keep now).tasks.Store ⟨req.PeerID, req.TaskID⟩ t }, fs1)) := by
  simp only [CreateTask]
  split
  · rename_i hany
    cases h1 : (fs.MkdirAll
        (pathJoin [(s.Keep now).storeOption.DataPath, req.TaskID, req.PeerID])).1 with
    | none => rw [h1] at hany; simp at hany
    | some e =>
      exact Or.inl ⟨e, (fs.MkdirAll
        (pathJoin [(s.Keep now).storeOption.DataPath, req.TaskID, req.PeerID])).2,
        FileSystem.MkdirAll_err _ _ _ h1, rfl⟩
  · split
    · rename_i e fs2 hopen
      exact Or.inl ⟨e, fs2, FileSystem.OpenFile_err _ _ _ _ hopen, rfl⟩
    · split
      · rename_i e fs3 hplace
        exact Or.inl ⟨e, fs3, createData_err _ _ _ _ _ _ _ hplace, rfl⟩
      · rename_i t1 fs3 hplace
        obtain ⟨p, hp⟩ := createData_ok _ _ _ _ _ _ _ hplace
        refine Or.inr ⟨t1, fs3, ?_, rfl⟩
        rw [hp]
        split <;> rfl

theorem RegisterTask_present (s : storageManager) (now : Nat) (req : RegisterTaskRequest)
    (fs : FileSystem) (t : localTaskStore)
    (h : s.tasks.Load ⟨req.PeerID, req.TaskID⟩ = some t) :
    s.RegisterTask now req fs = (none, s.Keep now, fs) := by
  simp [RegisterTask, LoadTask, h]

theorem RegisterTask_absent (s : storageManager) (now : Nat) (req : RegisterTaskRequest)
    (fs : FileSystem) (h : s.tasks.Load ⟨req.PeerID, req.TaskID⟩ = none) :
    s.RegisterTask now req fs = ((s.Keep now).Keep now).CreateTask now req fs := by
  simp [RegisterTask, LoadTask, h, Keep]

theorem RegisterTask_ok_present (s s1 : storageManager) (now : Nat)
    (req : RegisterTaskRequest) (fs fs1 : FileSystem)
    (h : s.RegisterTask now req fs = (none, s1, fs1)) :
    ∃ t, s1.tasks.Load ⟨req.PeerID, req.TaskID⟩ = some t := by
  cases hl : s.tasks.Load ⟨req.PeerID, req.TaskID⟩ with
  | some t =>
    rw [RegisterTask_present s now req fs t hl] at h
    simp only [Prod.mk.injEq, true_and] at h
    exact ⟨t, by rw [← h.1]; exact hl⟩
  | none =>
    rw [RegisterTask_absent s now req fs hl] at h
    rcases CreateTask_cases ((s.Keep now).Keep now) now req fs with
      ⟨e, fs2, _, he⟩ | ⟨t, fs2, _, ht⟩
    · rw [he] at h; simp at h
    · rw [ht] at h
      simp only [Prod.mk.injEq, true_and] at h
      exact ⟨t, by rw [← h.1]; exact SyncMap.Load_Store_self _ _ _⟩

theorem Store_keys_nodup (m : SyncMap) (k : PeerTaskMetaData) (v : localTaskStore)
    (h : m.keys.Nodup) : (m.Store k v).keys.Nodup := by
  induction m with
  | nil => simp [SyncMap.Store, SyncMap.keys]
  | cons e m ih =>
    obtain ⟨k0, v0⟩ := e
    simp only [SyncMap.keys, List.map_cons, List.nodup_cons] at h
    by_cases h0 : k0 = k
    · subst h0
      simpa [SyncMap.Store, SyncMap.keys] using h
    · simp only [SyncMap.Store, h0, if_false, SyncMap.keys, List.map_cons, List.nodup_cons]
      refine ⟨?_, ih h.2⟩
      intro hmem
      have h1 : (SyncMap.Store m k v).Load k0 ≠ none := by
        intro hn
        exact (SyncMap.Load_eq_none_iff _ _).mp hn hmem
      rw [SyncMap.Load_Store_of_ne m v (fun e => h0 e.symm)] at h1
      exact h1 ((SyncMap.Load_eq_none_iff _ _).mpr h.1)

theorem RegisterTask_keys_nodup (s s1 : storageManager) (now : Nat)
    (req : RegisterTaskRequest) (fs fs1 : FileSystem) (e : Option GoError)
    (h : s.RegisterTask now req fs = (e, s1, fs1)) (hnd : s.tasks.keys.Nodup) :
    s1.tasks.keys.Nodup := by
  cases hl : s.tasks.Load ⟨req.PeerID, req.TaskID⟩ with
  | some t =>
    rw [RegisterTask_present s now req fs t hl] at h
    simp only [Prod.mk.injEq] at h
    rw [← h.2.1]; exact hnd
  | none =>
    rw [RegisterTask_absent s now req fs hl] at h
    rcases CreateTask_cases ((s.Keep now).Keep now) now req fs with
      ⟨e, fs2, _, he⟩ | ⟨t, fs2, _, ht⟩
    · rw [he] at h
      simp only [Prod.mk.injEq] at h
      rw [← h.2.1]; exact hnd
    · rw [ht] at h
      simp only [Prod.mk.injEq] at h
      rw [← h.2.1]
      exact Store_keys_nodup _ _ _ hnd

end storageManager

namespace storageManager

theorem RegisterTasks_present (s : storageManager) (fs : FileSystem)
    (key : PeerTaskMetaData) (t : localTaskStore) (hl : s.tasks.Load key = some t)
    (calls : List (Nat × RegisterTaskRequest))
    (hkey : ∀ c, c ∈ calls → (⟨c.2.PeerID, c.2.TaskID⟩ : PeerTaskMetaData) = key) :
    (RegisterTasks s fs calls).1 = calls.map (fun _ => none) ∧
    (RegisterTasks s fs calls).2.1.tasks = s.tasks ∧
    (RegisterTasks s fs calls).2.2 = fs := by
  induction calls generalizing s with
  | nil => simp [RegisterTasks]
  | cons c calls ih =>
    obtain ⟨now, req⟩ := c
    have hk : (⟨req.PeerID, req.TaskID⟩ : PeerTaskMetaData) = key := hkey (now, req) (by simp)
    have hstep := RegisterTask_present s now req fs t (by rw [hk]; exact hl)
    have := ih (s.Keep now) hl (fun c hc => hkey c (List.mem_cons_of_mem _ hc))
    simp only [RegisterTasks, hstep, List.map_cons]
    exact ⟨by rw [this.1], this.2.1, this.2.2⟩

end storageManager

/-! ## The claims on registration and lookup -/

/-- C1. `RegisterTask` is idempotent: once it has succeeded for a key, the key has a store,
and every later `RegisterTask` with the same key, whatever else the request holds and
whatever the disk, succeeds and leaves the task map (so the registered store) and the disk
as they are; any number of such calls gives only successes, and a map with one store per
key still has exactly one store for the key. -/
theorem RegisterTask_idempotent (s s1 : storageManager) (now : Nat)
    (req : RegisterTaskRequest) (fs fs1 : FileSystem)
    (hok : s.RegisterTask now req fs = (none, s1, fs1)) :
    (∃ t, s1.tasks.Load ⟨req.PeerID, req.TaskID⟩ = some t) ∧
    (∀ (now2 : Nat) (req2 : RegisterTaskRequest) (fs2 : FileSystem),
      req2.PeerID = req.PeerID → req2.TaskID = req.TaskID →
        s1.RegisterTask now2 req2 fs2 = (none, s1.Keep now2, fs2) ∧
        (s1.RegisterTask now2 req2 fs2).2.1.tasks = s1.tasks) ∧
    (∀ calls : List (Nat × RegisterTaskRequest),
      (∀ c, c ∈ calls → c.2.PeerID = req.PeerID ∧ c.2.TaskID = req.TaskID) →
        (RegisterTasks s1 fs1 calls).1 = calls.map (fun _ => none) ∧
        (RegisterTasks s1 fs1 calls).2.1.tasks = s1.tasks ∧
        (RegisterTasks s1 fs1 calls).2.2 = fs1) ∧
    (s.tasks.keys.Nodup → s1.tasks.keys.count ⟨req.PeerID, req.TaskID⟩ = 1) := by
  obtain ⟨t, ht⟩ := storageManager.RegisterTask_ok_present s s1 now req fs fs1 hok
  refine ⟨⟨t, ht⟩, ?_, ?_, ?_⟩
  · intro now2 req2 fs2 hp hi
    have h := storageManager.RegisterTask_present s1 now2 req2 fs2 t (by rw [hp, hi]; exact ht)
    exact ⟨h, by rw [h]; rfl⟩
  · intro calls hcalls
    refine storageManager.RegisterTasks_present s1 fs1 _ t ht calls ?_
    intro c hc
    rw [(hcalls c hc).1, (hcalls c hc).2]
  · intro hnd
    refine List.count_eq_one_of_mem
      (storageManager.RegisterTask_keys_nodup s s1 now req fs fs1 none hok hnd) ?_
    by_contra hmem
    rw [(SyncMap.Load_eq_none_iff _ _).mpr hmem] at ht
    simp at ht

/-- Witness of C1 on the registration of `(t1, p1)` on the fresh manager. -/
theorem RegisterTask_idempotent_witness :
    exampleManager.RegisterTask 5
      { PeerID := "p1", TaskID := "t1", Destination := "", ContentLength := 5, TotalPieces := 1 }
      exampleDisk = (none, exampleRegistered.2.1, exampleRegistered.2.2) ∧
    ∃ t, exampleRegistered.2.1.tasks.Load ⟨"p1", "t1"⟩ = some t :=
  ⟨by decide,
   (RegisterTask_idempotent exampleManager exampleRegistered.2.1 5
      { PeerID := "p1", TaskID := "t1", Destination := "", ContentLength := 5, TotalPieces := 1 }
      exampleDisk exampleRegistered.2.2 (by decide)).1⟩

/-- C2. Each of the manager's `WritePiece`, `ReadPiece`, `GetPieces`, `UpdateTask` and
`Store` returns `ErrTaskNotFound` with zero results when the key of the request is absent
from the task map, and otherwise exactly what the method of the same name of the store
found under the key returns for the request. -/
theorem manager_ops_delegate (drv : TaskStorageDriver) (s : storageManager) (now : Nat)
    (fs : FileSystem) :
    (∀ req : WritePieceRequest, (s.WritePiece drv now req fs).1 =
      match s.tasks.Load ⟨req.PeerID, req.TaskID⟩ with
      | none => (0, some .ErrTaskNotFound)
      | some t => (drv.WritePiece now t req fs).1) ∧
    (∀ req : ReadPieceRequest, (s.ReadPiece drv now req fs).1 =
      match s.tasks.Load ⟨req.PeerID, req.TaskID⟩ with
      | none => (none, none, some .ErrTaskNotFound)
      | some t => (drv.ReadPiece now t req fs).1) ∧
    (∀ req : PieceTaskRequest, (s.GetPieces drv now req fs).1 =
      match s.tasks.Load ⟨req.DstPid, req.TaskId⟩ with
      | none => (none, some .ErrTaskNotFound)
      | some t => (drv.GetPieces now t req fs).1) ∧
    (∀ req : UpdateTaskRequest, (s.UpdateTask drv now req fs).1 =
      match s.tasks.Load ⟨req.PeerID, req.TaskID⟩ with
      | none => some .ErrTaskNotFound
      | some t => (drv.UpdateTask now t req fs).1) ∧
    (∀ req : StoreRequest, (s.Store drv now req fs).1 =
      match s.tasks.Load ⟨req.PeerID, req.TaskID⟩ with
      | none => some .ErrTaskNotFound
      | some t => (drv.Store now t req fs).1) := by
  refine ⟨?_, ?_, ?_, ?_, ?_⟩
  · intro req
    cases h : s.tasks.Load ⟨req.PeerID, req.TaskID⟩ <;>
      simp [storageManager.WritePiece, storageManager.LoadTask, h]
  · intro req
    cases h : s.tasks.Load ⟨req.PeerID, req.TaskID⟩ <;>
      simp [storageManager.ReadPiece, storageManager.LoadTask, h]
  · intro req
    cases h : s.tasks.Load ⟨req.DstPid, req.TaskId⟩ <;>
      simp [storageManager.GetPieces, storageManager.LoadTask, h]
  · intro req
    cases h : s.tasks.Load ⟨req.PeerID, req.TaskID⟩ <;>
      simp [storageManager.UpdateTask, storageManager.LoadTask, h]
  · intro req
    cases h : s.tasks.Load ⟨req.PeerID, req.TaskID⟩ <;>
      simp [storageManager.Store, storageManager.LoadTask, h]

/-- C3, as stated, fails: on the fresh manager `RegisterTask` succeeds and registers a store
for a request whose task id and peer id are both empty, and for one whose task id contains
a slash and whose peer id starts with `../`. -/
theorem RegisterTask_accepts_bad_ids :
    (exampleManager.RegisterTask 5
      { PeerID := "", TaskID := "", Destination := "", ContentLength := 5, TotalPieces := 1 }
      exampleDisk).1 = none ∧
    ((exampleManager.RegisterTask 5
      { PeerID := "", TaskID := "", Destination := "", ContentLength := 5, TotalPieces := 1 }
      exampleDisk).2.1.tasks.Load ⟨"", ""⟩).isSome = true ∧
    (exampleManager.RegisterTask 5
      { PeerID := "../p", TaskID := "t/1", Destination := "", ContentLength := 5,
        TotalPieces := 1 } exampleDisk).1 = none ∧
    ((exampleManager.RegisterTask 5
      { PeerID := "../p", TaskID := "t/1", Destination := "", ContentLength := 5,
        TotalPieces := 1 } exampleDisk).2.1.tasks.Load ⟨"../p", "t/1"⟩).isSome = true := by
  decide

/-- C3, amended. `RegisterTask` does not look at the shape of the ids: for every request,
empty ids and ids with a path separator included, it either fails with a path error of
one of the file-system steps of `CreateTask`, leaving the task map as it was, or succeeds
with a store under the key of the request, whose data directory is
`path.Join(DataPath, TaskID, PeerID)` when this call created it. -/
theorem RegisterTask_unvalidated (s : storageManager) (now : Nat) (req : RegisterTaskRequest)
    (fs : FileSystem) :
    (∀ e, (s.RegisterTask now req fs).1 = some e →
      e.isPathError = true ∧ (s.RegisterTask now req fs).2.1.tasks = s.tasks) ∧
    ((s.RegisterTask now req fs).1 = none →
      ∃ t, (s.RegisterTask now req fs).2.1.tasks.Load ⟨req.PeerID, req.TaskID⟩ = some t ∧
        (s.tasks.Load ⟨req.PeerID, req.TaskID⟩ = none →
          t.dataDir = pathJoin [s.storeOption.DataPath, req.TaskID, req.PeerID])) := by
  cases hl : s.tasks.Load ⟨req.PeerID, req.TaskID⟩ with
  | some t =>
    rw [storageManager.RegisterTask_present s now req fs t hl]
    refine ⟨fun e he => by simp at he, fun _ => ⟨t, hl, fun h => by simp at h⟩⟩
  | none =>
    rw [storageManager.RegisterTask_absent s now req fs hl]
    rcases storageManager.CreateTask_cases ((s.Keep now).Keep now) now req fs with
      ⟨e, fs2, hpe, he⟩ | ⟨t, fs2, hdir, ht⟩
    · rw [he]
      refine ⟨fun e1 he1 => ?_, fun h => by simp at h⟩
      simp only [Option.some.injEq] at he1
      subst he1
      exact ⟨hpe, rfl⟩
    · rw [ht]
      refine ⟨fun e1 he1 => by simp at he1, fun _ => ⟨t, ?_, fun _ => hdir⟩⟩
      exact SyncMap.Load_Store_self _ _ _

/-! ## Lemmas on the reload -/

namespace storageManager

theorem reloadPeerDir_eq (lib : Stdlib) (s : storageManager) (now : Nat) (cb : GCCallback)
    (fs : FileSystem) (taskID : String) (acc : ReloadScan) (peerID : String) :
    reloadPeerDir lib s now cb fs taskID acc peerID =
      match loadMetadata lib fs (pathJoin [s.storeOption.DataPath, taskID, peerID]) with
      | .error err =>
        ⟨acc.tasks, acc.loadErrs ++ [err],
          acc.loadErrDirs ++ [pathJoin [s.storeOption.DataPath, taskID, peerID]]⟩
      | .ok (f, md) =>
        ⟨acc.tasks.Store ⟨peerID, taskID⟩ (reloadedStore s now cb taskID peerID f md),
          acc.loadErrs, acc.loadErrDirs⟩ := by
  simp only [reloadPeerDir, loadMetadata, reloadedStore]
  cases fs.Open (pathJoin [pathJoin [s.storeOption.DataPath, taskID, peerID], taskMetaData]) with
  | error e => rfl
  | ok f =>
    simp only []
    cases fs.ReadAll f with
    | error e => rfl
    | ok bytes =>
      simp only []
      cases jsonUnmarshal lib bytes with
      | error e => rfl
      | ok md => rfl

/-- The scan of `ReloadPersistentTask` as one loop over the peer directories. -/
theorem scan_flat (lib : Stdlib) (s : storageManager) (now : Nat) (cb : GCCallback)
    (fs : FileSystem) (dirs : List String) (acc : ReloadScan) :
    dirs.foldl (reloadTaskDir lib s now cb fs) acc =
      (peerDirs fs s.storeOption.DataPath dirs).foldl
        (fun a p => reloadPeerDir lib s now cb fs p.1 a p.2) acc := by
  induction dirs generalizing acc with
  | nil => rfl
  | cons d dirs ih =>
    simp only [List.foldl_cons, peerDirs, List.flatMap_cons, List.foldl_append]
    rw [ih]
    simp only [peerDirs, reloadTaskDir]
    cases fs.ReadDir (pathJoin [s.storeOption.DataPath, d]) with
    | error e => rfl
    | ok peers => simp [List.foldl_map]

theorem scan_loadErrs (lib : Stdlib) (s : storageManager) (now : Nat) (cb : GCCallback)
    (fs : FileSystem) (pairs : List (String × String)) (acc : ReloadScan) :
    (pairs.foldl (fun a p => reloadPeerDir lib s now cb fs p.1 a p.2) acc).loadErrs =
      acc.loadErrs ++ loadErrors lib fs s.storeOption.DataPath pairs := by
  induction pairs generalizing acc with
  | nil => simp [loadErrors]
  | cons p pairs ih =>
    simp only [List.foldl_cons]
    rw [ih, reloadPeerDir_eq]
    cases h : loadMetadata lib fs (pathJoin [s.storeOption.DataPath, p.1, p.2]) with
    | error e => simp [loadErrors, List.filterMap_cons, h]
    | ok r => simp [loadErrors, List.filterMap_cons, h]

theorem scan_Load_of_not_mem (lib : Stdlib) (s : storageManager) (now : Nat)
    (cb : GCCallback) (fs : FileSystem) (pairs : List (String × String)) (acc : ReloadScan)
    (taskID peerID : String) (h : (taskID, peerID) ∉ pairs) :
    (pairs.foldl (fun a p => reloadPeerDir lib s now cb fs p.1 a p.2) acc).tasks.Load
      ⟨peerID, taskID⟩ = acc.tasks.Load ⟨peerID, taskID⟩ := by
  induction pairs generalizing acc with
  | nil => rfl
  | cons p pairs ih =>
    simp only [List.foldl_cons]
    rw [ih _ (fun hm => h (List.mem_cons_of_mem _ hm)), reloadPeerDir_eq]
    cases hl : loadMetadata lib fs (pathJoin [s.storeOption.DataPath, p.1, p.2]) with
    | error e => rfl
    | ok r =>
      obtain ⟨f, md⟩ := r
      refine SyncMap.Load_Store_of_ne _ _ ?_
      intro heq
      apply h
      have h1 : p.2 = peerID := congrArg PeerTaskMetaData.PeerID heq
      have h2 : p.1 = taskID := congrArg PeerTaskMetaData.TaskID heq
      rw [← h1, ← h2]
      simp

theorem scan_Load_of_mem (lib : Stdlib) (s : storageManager) (now : Nat)
    (cb : GCCallback) (fs : FileSystem) (pairs : List (String × String)) (acc : ReloadScan)
    (taskID peerID : String) (f : OsFile) (md : persistentMetadata)
    (h : (taskID, peerID) ∈ pairs)
    (hl : loadMetadata lib fs (pathJoin [s.storeOption.DataPath, taskID, peerID]) = .ok (f, md)) :
    (pairs.foldl (fun a p => reloadPeerDir lib s now cb fs p.1 a p.2) acc).tasks.Load
      ⟨peerID, taskID⟩ =
      some (reloadedStore s now cb taskID peerID f md) := by
  induction pairs generalizing acc with
  | nil => simp at h
  | cons p pairs ih =>
    simp only [List.foldl_cons]
    by_cases hmem : (taskID, peerID) ∈ pairs
    · exact ih _ hmem
    · have hp : p = (taskID, peerID) := by
        rcases List.mem_cons.mp h with e | e
        · exact e.symm
        · exact absurd e hmem
      subst hp
      rw [scan_Load_of_not_mem lib s now cb fs pairs _ taskID peerID hmem, reloadPeerDir_eq]
      simp only [hl]
      exact SyncMap.Load_Store_self _ _ _

end storageManager

/-! ## The claims on the reload -/

/-- C10. The reload does not stop at a bad entry: when the data path can be listed, every
peer directory whose metadata file opens, reads and parses is in the task map afterwards
under its key `(taskID, peerID)`, with the parsed metadata, however many other directories
fail; and the call returns an error exactly when some peer directory failed to load, that
error being the one message that quotes the texts of all the load errors, in order. -/
theorem ReloadPersistentTask_keeps_going (lib : Stdlib) (s : storageManager) (now : Nat)
    (cb : GCCallback) (fs : FileSystem) (dirs : List String)
    (hroot : fs.ReadDir s.storeOption.DataPath = .ok dirs) :
    (∀ (taskID peerID : String) (f : OsFile) (md : persistentMetadata),
      (taskID, peerID) ∈ peerDirs fs s.storeOption.DataPath dirs →
      loadMetadata lib fs (pathJoin [s.storeOption.DataPath, taskID, peerID]) = .ok (f, md) →
      (s.ReloadPersistentTask lib now cb fs).2.1.tasks.Load ⟨peerID, taskID⟩ =
        some (reloadedStore s now cb taskID peerID f md)) ∧
    ((s.ReloadPersistentTask lib now cb fs).1 ≠ none ↔
      ∃ taskID peerID err, (taskID, peerID) ∈ peerDirs fs s.storeOption.DataPath dirs ∧
        loadMetadata lib fs (pathJoin [s.storeOption.DataPath, taskID, peerID]) = .error err) ∧
    ((s.ReloadPersistentTask lib now cb fs).1 ≠ none →
      (s.ReloadPersistentTask lib now cb fs).1 =
        some (.Errorf ("load tasks from disk error: " ++ lib.Quote (String.join
          ((loadErrors lib fs s.storeOption.DataPath
            (peerDirs fs s.storeOption.DataPath dirs)).map GoError.Error))))) := by
  have herrs : (dirs.foldl (storageManager.reloadTaskDir lib s now cb fs)
      ⟨s.tasks, [], []⟩).loadErrs =
      loadErrors lib fs s.storeOption.DataPath (peerDirs fs s.storeOption.DataPath dirs) := by
    rw [storageManager.scan_flat, storageManager.scan_loadErrs]; simp
  have hiff : loadErrors lib fs s.storeOption.DataPath
        (peerDirs fs s.storeOption.DataPath dirs) ≠ [] ↔
      ∃ taskID peerID err, (taskID, peerID) ∈ peerDirs fs s.storeOption.DataPath dirs ∧
        loadMetadata lib fs (pathJoin [s.storeOption.DataPath, taskID, peerID]) =
          .error err := by
    constructor
    · intro hne
      obtain ⟨e, he⟩ := List.exists_mem_of_ne_nil _ hne
      simp only [loadErrors, List.mem_filterMap] at he
      obtain ⟨p, hp, hpe⟩ := he
      cases hl : loadMetadata lib fs (pathJoin [s.storeOption.DataPath, p.1, p.2]) with
      | error err => exact ⟨p.1, p.2, err, hp, hl⟩
      | ok r => rw [hl] at hpe; simp at hpe
    · rintro ⟨taskID, peerID, err, hp, hl⟩ hnil
      have : err ∈ loadErrors lib fs s.storeOption.DataPath
          (peerDirs fs s.storeOption.DataPath dirs) := by
        simp only [loadErrors, List.mem_filterMap]
        exact ⟨(taskID, peerID), hp, by simp [hl]⟩
      rw [hnil] at this
      simp at this
  refine ⟨?_, ?_, ?_⟩
  · intro taskID peerID f md hp hl
    have htasks : (s.ReloadPersistentTask lib now cb fs).2.1.tasks =
        (dirs.foldl (storageManager.reloadTaskDir lib s now cb fs) ⟨s.tasks, [], []⟩).tasks := by
      simp only [storageManager.ReloadPersistentTask, hroot]
      split <;> rfl
    rw [htasks, storageManager.scan_flat]
    exact storageManager.scan_Load_of_mem lib s now cb fs _ _ taskID peerID f md hp hl
  · rw [← hiff, ← herrs]
    simp only [storageManager.ReloadPersistentTask, hroot]
    split
    · rename_i hlen
      simp only [ne_eq, reduceCtorEq, not_false_eq_true, true_iff]
      intro hnil
      rw [hnil] at hlen
      simp at hlen
    · rename_i hlen
      simp only [ne_eq, not_true_eq_false, false_iff, not_not]
      exact List.length_eq_zero.mp (by omega)
  · intro hne
    rw [← herrs]
    simp only [storageManager.ReloadPersistentTask, hroot] at hne ⊢
    split
    · rfl
    · rename_i hlen
      rw [if_neg hlen] at hne
      simp at hne

/-- Witness of C10 on a data root with one good and one bad task directory. -/
theorem ReloadPersistentTask_keeps_going_witness :
    exampleReloadDisk.ReadDir exampleManager.storeOption.DataPath = .ok ["t1", "t2"] ∧
    ((exampleManager.ReloadPersistentTask exampleStdlib 7 0 exampleReloadDisk).1 ≠ none ↔
      ∃ taskID peerID err,
        (taskID, peerID) ∈ peerDirs exampleReloadDisk exampleManager.storeOption.DataPath
          ["t1", "t2"] ∧
        loadMetadata exampleStdlib exampleReloadDisk
          (pathJoin [exampleManager.storeOption.DataPath, taskID, peerID]) = .error err) :=
  ⟨by decide,
   (ReloadPersistentTask_keeps_going exampleStdlib exampleManager 7 0 exampleReloadDisk
      ["t1", "t2"] (by decide)).2.1⟩

/-! ## The claims on the construction of the manager -/

namespace storageManager

theorem ReloadPersistentTask_keeps_fields (lib : Stdlib) (s : storageManager) (now : Nat)
    (cb : GCCallback) (fs : FileSystem) :
    (s.ReloadPersistentTask lib now cb fs).2.1.storeStrategy = s.storeStrategy ∧
    (s.ReloadPersistentTask lib now cb fs).2.1.storeOption = s.storeOption ∧
    (s.ReloadPersistentTask lib now cb fs).2.1.dataPathStat = s.dataPathStat ∧
    (s.ReloadPersistentTask lib now cb fs).2.1.markedReclaimTasks = s.markedReclaimTasks := by
  simp only [ReloadPersistentTask]
  split
  · split <;> exact ⟨rfl, rfl, rfl, rfl⟩
  · split <;> exact ⟨rfl, rfl, rfl, rfl⟩

theorem applyOptions_strategy (moreOpts : List ManagerOption) (s s0 : storageManager)
    (hkeep : ∀ o, o ∈ moreOpts → ∀ m, (o m).2.storeStrategy = m.storeStrategy)
    (h : applyOptions moreOpts s = .ok s0) : s0.storeStrategy = s.storeStrategy := by
  induction moreOpts generalizing s with
  | nil => simp only [applyOptions, Except.ok.injEq] at h; rw [← h]
  | cons o rest ih =>
    simp only [applyOptions] at h
    split at h
    · simp at h
    · rename_i s1 ho
      rw [ih s1 (fun o1 h1 => hkeep o1 (List.mem_cons_of_mem _ h1)) h]
      have := hkeep o (by simp) s
      rw [ho] at this
      exact this

theorem checkStrategy_ok (tag tag1 : String) (h : checkStrategy tag = .ok tag1) :
    (tag = SimpleLocalTaskStoreStrategy ∨ tag = AdvanceLocalTaskStoreStrategy ∨ tag = "") ∧
    tag1 = (if tag = "" then SimpleLocalTaskStoreStrategy else tag) := by
  unfold checkStrategy at h
  split at h
  · rename_i h1
    simp only [Except.ok.injEq] at h
    subst h
    rcases h1 with h1 | h1
    · exact ⟨Or.inl h1, by rw [h1]; decide⟩
    · exact ⟨Or.inr (Or.inl h1), by rw [h1]; decide⟩
  · split at h
    · rename_i h2
      simp only [Except.ok.injEq] at h
      exact ⟨Or.inr (Or.inr h2), by simp [h2, h]⟩
    · simp at h

theorem checkStrategy_error (tag : String) (h1 : tag ≠ SimpleLocalTaskStoreStrategy)
    (h2 : tag ≠ AdvanceLocalTaskStoreStrategy) (h3 : tag ≠ "") :
    checkStrategy tag = .error (.Errorf ("not support store strategy: " ++ tag)) := by
  simp [checkStrategy, h1, h2, h3]

end storageManager

/-- C12, as stated, fails: on the disk with one good and one bad task directory the reload
made by `NewStorageManager` returns the aggregated error, and `NewStorageManager` returns
a manager and a nil error, the reload error being logged as a warning only. -/
theorem NewStorageManager_swallows_reload_error :
    ((newManager SimpleLocalTaskStoreStrategy ⟨"/data", 100⟩ 1 0).ReloadPersistentTask
        exampleStdlib 7 0 exampleReloadDisk).1 =
      some (.Errorf "load tasks from disk error: \"unexpected end of JSON input\"") ∧
    (NewStorageManager exampleStdlib "" ⟨"/data", 100⟩ 0 [] 7 exampleReloadDisk).1.2 = none ∧
    ((NewStorageManager exampleStdlib "" ⟨"/data", 100⟩ 0 [] 7 exampleReloadDisk).1.1).isSome
      = true ∧
    (NewStorageManager exampleStdlib "" ⟨"/data", 100⟩ 0 [] 7 exampleReloadDisk).2.2 =
      ["reload tasks error: load tasks from disk error: \"unexpected end of JSON input\""] := by
  decide

/-- C12, amended. `NewStorageManager` never returns the error of `ReloadPersistentTask`:
once the data path, the strategy tag and the options have passed, it returns the manager
the reload left together with a nil error, and an error of the reload only shows as the
warning "reload tasks error: ..." in the log. -/
theorem NewStorageManager_logs_reload_error (lib : Stdlib) (tag tag1 : String)
    (opt : StorageOption) (cb : GCCallback) (moreOpts : List ManagerOption) (now : Nat)
    (fs fs1 : FileSystem) (dev : Nat) (s0 : storageManager)
    (hstat : statDataPath fs (absDataPath fs opt).DataPath = (.ok dev, fs1))
    (htag : checkStrategy tag = .ok tag1)
    (hopts : applyOptions moreOpts (newManager tag1 (absDataPath fs opt) dev cb) = .ok s0) :
    (NewStorageManager lib tag opt cb moreOpts now fs).1 =
      (some (s0.ReloadPersistentTask lib now cb fs1).2.1, none) ∧
    (NewStorageManager lib tag opt cb moreOpts now fs).2.1 =
      (s0.ReloadPersistentTask lib now cb fs1).2.2 ∧
    (NewStorageManager lib tag opt cb moreOpts now fs).2.2 =
      match (s0.ReloadPersistentTask lib now cb fs1).1 with
      | some err => ["reload tasks error: " ++ err.Error]
      | none => [] := by
  simp only [NewStorageManager, hstat, htag, hopts]
  split <;> rename_i h <;> simp [h]

/-- Witness of C12 as amended, on the disk with one good and one bad task directory. -/
theorem NewStorageManager_logs_reload_error_witness :
    (NewStorageManager exampleStdlib "" ⟨"/data", 100⟩ 0 [] 7 exampleReloadDisk).1 =
      (some ((newManager SimpleLocalTaskStoreStrategy ⟨"/data", 100⟩ 1 0).ReloadPersistentTask
        exampleStdlib 7 0 exampleReloadDisk).2.1, none) :=
  (NewStorageManager_logs_reload_error exampleStdlib "" SimpleLocalTaskStoreStrategy
    ⟨"/data", 100⟩ 0 [] 7 exampleReloadDisk exampleReloadDisk 1
    (newManager SimpleLocalTaskStoreStrategy ⟨"/data", 100⟩ 1 0)
    (by decide) (by decide) (by decide)).1

/-- C16. `NewStorageManager` accepts exactly the Simple tag, the Advance tag and the empty
tag: for any other tag it returns an error and no manager; a manager it returns was built
with one of the three tags, the empty one replaced by Simple (and it still carries that
tag when no option changes it); and with one of the three tags a manager is returned
whenever the data path and the options pass. -/
theorem NewStorageManager_strategy (lib : Stdlib) (tag : String) (opt : StorageOption)
    (cb : GCCallback) (moreOpts : List ManagerOption) (now : Nat) (fs : FileSystem) :
    (tag ≠ SimpleLocalTaskStoreStrategy → tag ≠ AdvanceLocalTaskStoreStrategy → tag ≠ "" →
      (NewStorageManager lib tag opt cb moreOpts now fs).1.1 = none ∧
      (NewStorageManager lib tag opt cb moreOpts now fs).1.2 ≠ none) ∧
    (∀ s, (NewStorageManager lib tag opt cb moreOpts now fs).1.1 = some s →
      (tag = SimpleLocalTaskStoreStrategy ∨ tag = AdvanceLocalTaskStoreStrategy ∨ tag = "") ∧
      ((∀ o, o ∈ moreOpts → ∀ m, (o m).2.storeStrategy = m.storeStrategy) →
        s.storeStrategy = (if tag = "" then SimpleLocalTaskStoreStrategy else tag))) ∧
    ((tag = SimpleLocalTaskStoreStrategy ∨ tag = AdvanceLocalTaskStoreStrategy ∨ tag = "") →
      ∀ dev fs1 s0, statDataPath fs (absDataPath fs opt).DataPath = (.ok dev, fs1) →
        applyOptions moreOpts
          (newManager (if tag = "" then SimpleLocalTaskStoreStrategy else tag)
            (absDataPath fs opt) dev cb) = .ok s0 →
        (NewStorageManager lib tag opt cb moreOpts now fs).1.1 ≠ none ∧
        (NewStorageManager lib tag opt cb moreOpts now fs).1.2 = none) := by
  refine ⟨?_, ?_, ?_⟩
  · intro h1 h2 h3
    simp only [NewStorageManager, storageManager.checkStrategy_error tag h1 h2 h3]
    split <;> simp
  · intro s hs
    simp only [NewStorageManager] at hs
    split at hs
    · simp at hs
    · rename_i dev fs1 hstat
      split at hs
      · simp at hs
      · rename_i tag1 htag
        have hc := storageManager.checkStrategy_ok tag tag1 htag
        refine ⟨hc.1, ?_⟩
        intro hkeep
        split at hs
        · simp at hs
        · rename_i s0 hopts
          have h0 := storageManager.applyOptions_strategy moreOpts _ s0 hkeep hopts
          have hr := (storageManager.ReloadPersistentTask_keeps_fields lib s0 now cb fs1).1
          split at hs
          · rename_i e s1 fs2 hreload
            simp only [Option.some.injEq] at hs
            rw [hreload] at hr
            rw [← hs, hr, h0, ← hc.2]
            rfl
          · rename_i s1 fs2 hreload
            simp only [Option.some.injEq] at hs
            rw [hreload] at hr
            rw [← hs, hr, h0, ← hc.2]
            rfl
  · intro htag dev fs1 s0 hstat hopts
    have hc : checkStrategy tag =
        .ok (if tag = "" then SimpleLocalTaskStoreStrategy else tag) := by
      rcases htag with h | h | h
      · subst h; decide
      · subst h; decide
      · subst h; decide
    simp only [NewStorageManager, hstat, hc, hopts]
    split <;> simp

/-! ## Lemmas on a growing disk -/

namespace FileSystem

theorem lookup_consList (k : String) (v : Node) (l : List (String × Node)) (p : String) :
    List.lookup p ((k, v) :: l) = if p = k then some v else List.lookup p l := by
  by_cases h : p = k
  · subst h; simp [List.lookup]
  · have hb : (p == k) = false := by simpa using h
    simp [List.lookup, hb, h]

theorem lookup_putList (l : List (String × Node)) (q p : String) (nd : Node) :
    List.lookup p (l.filter (fun e => e.1 ≠ q) ++ [(q, nd)]) =
      if p = q then some nd else List.lookup p l := by
  induction l with
  | nil =>
    simp only [List.filter_nil, List.nil_append]
    rw [lookup_consList]
  | cons e l ih =>
    obtain ⟨k, v⟩ := e
    rw [lookup_consList k v l p]
    by_cases hk : k = q
    · subst hk
      have hf : ((k, v) :: l).filter (fun e => e.1 ≠ k) = l.filter (fun e => e.1 ≠ k) := by
        simp [List.filter_cons]
      rw [hf, ih]
      by_cases hp : p = k <;> simp [hp]
    · have hf : ((k, v) :: l).filter (fun e => e.1 ≠ q) =
          (k, v) :: l.filter (fun e => e.1 ≠ q) := by
        simp [List.filter_cons, hk]
      rw [hf, List.cons_append, lookup_consList, ih]
      by_cases hp : p = k
      · subst hp; simp [hk]
      · simp [hp]

theorem follow_lookup (fs : FileSystem) (n : Nat) (p q : String) (r : Option Node)
    (h : fs.follow n p = .ok (q, r)) : fs.lookup q = r := by
  induction n generalizing p with
  | zero => simp [follow] at h
  | succ n ih =>
    unfold follow at h
    split at h
    · split at h
      · simp at h
      · exact ih _ h
    · simp only [Except.ok.injEq, Prod.mk.injEq] at h
      rw [← h.1, ← h.2]

theorem lookup_put (fs : FileSystem) (q p : String) (nd : Node) (hq : fs.lookup q = none) :
    (fs.put q nd).lookup p = if p = q then some nd else fs.lookup p := by
  have hroot : q ≠ "/" := by
    intro h
    simp [lookup, h] at hq
  unfold lookup put
  by_cases hp : p = "/"
  · subst hp
    have : ¬ "/" = q := fun h => hroot h.symm
    simp [this]
  · simp only [hp, if_false]
    exact lookup_putList fs.nodes q p nd

theorem Extends.refl (fs : FileSystem) : fs.Extends fs := ⟨rfl, rfl, fun _ _ h => h⟩

theorem Extends.trans {a b c : FileSystem} (h1 : a.Extends b) (h2 : b.Extends c) :
    a.Extends c :=
  ⟨h2.1.trans h1.1, h2.2.1.trans h1.2.1, fun p nd h => h2.2.2 p nd (h1.2.2 p nd h)⟩

theorem put_extends (fs fs1 : FileSystem) (q : String) (nd : Node)
    (hq : fs.lookup q = none) (hcwd : fs1.cwd = fs.cwd) (hroot : fs1.rootDev = fs.rootDev)
    (hnodes : fs1.nodes = (fs.put q nd).nodes) : fs.Extends fs1 := by
  refine ⟨hcwd, hroot, ?_⟩
  intro p nd1 hp
  have h1 : fs1.lookup p = (fs.put q nd).lookup p := by
    unfold lookup
    rw [hroot, hnodes]
    rfl
  rw [h1, lookup_put fs q p nd hq]
  by_cases hpq : p = q
  · subst hpq; rw [hq] at hp; simp at hp
  · simp [hpq, hp]

theorem Mkdir_extends (fs : FileSystem) (name : String) : fs.Extends (fs.Mkdir name).2 := by
  unfold Mkdir
  repeat' split
  all_goals first
    | exact Extends.refl fs
    | exact put_extends fs _ _ _ (by assumption) rfl rfl rfl

theorem mkdirAllAux_extends (fs : FileSystem) (n : Nat) (p : String) :
    fs.Extends (fs.mkdirAllAux n p).2 := by
  induction n generalizing fs p with
  | zero => exact Mkdir_extends fs p
  | succ n ih =>
    unfold mkdirAllAux
    split
    · split <;> exact Extends.refl fs
    · have hparent : fs.Extends
          (if pathDir p = "/" then ((none : Option GoError), fs)
            else fs.mkdirAllAux n (pathDir p)).2 := by
        split
        · exact Extends.refl fs
        · exact ih fs (pathDir p)
      split
      · rename_i heq
        rw [heq] at hparent
        exact hparent
      · rename_i fs1 heq
        rw [heq] at hparent
        have hm := Mkdir_extends fs1 p
        split
        · rename_i heq2
          rw [heq2] at hm
          exact hparent.trans hm
        · rename_i heq2
          rw [heq2] at hm
          split <;> exact hparent.trans hm

theorem MkdirAll_extends (fs : FileSystem) (name : String) :
    fs.Extends (fs.MkdirAll name).2 := by
  unfold MkdirAll
  split
  · exact Extends.refl fs
  · exact mkdirAllAux_extends _ _ _

theorem OpenFile_extends (fs : FileSystem) (name : String) :
    fs.Extends (fs.OpenFile name).2 := by
  unfold OpenFile
  repeat' split
  all_goals first
    | exact Extends.refl fs
    | exact put_extends fs _ _ _ (follow_lookup fs _ _ _ _ (by assumption)) rfl rfl rfl

theorem create_extends (fs : FileSystem) (op name : String) (nd : Node) :
    fs.Extends (fs.create op name nd).2 := by
  unfold create
  repeat' split
  all_goals first
    | exact Extends.refl fs
    | exact put_extends fs _ _ _ (by assumption) rfl rfl rfl

theorem Link_extends (fs : FileSystem) (old name : String) :
    fs.Extends (fs.Link old name).2 := by
  unfold Link
  repeat' split
  all_goals first
    | exact Extends.refl fs
    | exact create_extends fs _ _ _

theorem Symlink_extends (fs : FileSystem) (old name : String) :
    fs.Extends (fs.Symlink old name).2 := by
  unfold Symlink
  split
  · exact Extends.refl fs
  · exact create_extends fs _ _ _

theorem follow_extends {fs fs1 : FileSystem} (h : fs.Extends fs1) (n : Nat) (p q : String)
    (nd : Node) (hf : fs.follow n p = .ok (q, some nd)) :
    fs1.follow n p = .ok (q, some nd) := by
  induction n generalizing p with
  | zero => simp [follow] at hf
  | succ n ih =>
    unfold follow at hf ⊢
    split at hf
    · rename_i t hl
      rw [h.2.2 p _ hl]
      split at hf
      · simp at hf
      · rename_i ht
        simp only [ht, if_false]
        exact ih _ hf
    · rename_i r hr
      simp only [Except.ok.injEq, Prod.mk.injEq] at hf
      obtain ⟨h1, h2⟩ := hf
      subst h1
      have hl := h.2.2 p nd h2
      rw [hl]
      cases nd with
      | symlink t => exact absurd h2 (hr t)
      | dir d => rfl
      | file i => rfl

theorem abs_extends {fs fs1 : FileSystem} (h : fs.Extends fs1) (name : String) :
    fs1.abs name = fs.abs name := by
  unfold abs
  rw [h.1]

theorem Open_extends {fs fs1 : FileSystem} (h : fs.Extends fs1) (name : String) (f : OsFile)
    (ho : fs.Open name = .ok f) : fs1.Open name = .ok f := by
  unfold Open at ho ⊢
  rw [abs_extends h]
  split at ho
  · simp at ho
  · split at ho
    · simp at ho
    · simp at ho
    · rename_i q nd hf
      rw [follow_extends h _ _ _ _ hf]
      exact ho

theorem Lstat_extends {fs fs1 : FileSystem} (h : fs.Extends fs1) (name : String) (nd : Node)
    (ho : fs.Lstat name = .ok nd) : fs1.Lstat name = .ok nd := by
  unfold Lstat at ho ⊢
  rw [abs_extends h]
  split at ho
  · simp at ho
  · split at ho
    · rename_i nd1 hl
      rw [h.2.2 _ _ hl]
      exact ho
    · simp at ho

theorem follow_put (fs : FileSystem) (n : Nat) (p q : String) (nd : Node)
    (hnd : nd.IsSymlink = false) (hf : fs.follow n p = .ok (q, none)) :
    (fs.put q nd).follow n p = .ok (q, some nd) := by
  have hq : fs.lookup q = none := follow_lookup fs n p q none hf
  induction n generalizing p with
  | zero => simp [follow] at hf
  | succ n ih =>
    unfold follow at hf ⊢
    rw [lookup_put fs q p nd hq]
    split at hf
    · rename_i t hl
      have hpq : p ≠ q := by
        intro e; subst e; rw [hq] at hl; simp at hl
      simp only [hpq, if_false, hl]
      split at hf
      · simp at hf
      · rename_i ht
        simp only [ht, if_false]
        exact ih _ hf
    · rename_i r hr
      simp only [Except.ok.injEq, Prod.mk.injEq] at hf
      obtain ⟨h1, h2⟩ := hf
      subst h1
      simp only [if_true]
      cases nd with
      | symlink t => simp [Node.IsSymlink] at hnd
      | dir d => rfl
      | file i => rfl

theorem lookup_congr (fs fs1 : FileSystem) (hroot : fs1.rootDev = fs.rootDev)
    (hnodes : fs1.nodes = fs.nodes) (p : String) : fs1.lookup p = fs.lookup p := by
  unfold lookup
  rw [hroot, hnodes]

theorem follow_congr (fs fs1 : FileSystem) (hroot : fs1.rootDev = fs.rootDev)
    (hnodes : fs1.nodes = fs.nodes) (n : Nat) (p : String) :
    fs1.follow n p = fs.follow n p := by
  induction n generalizing p with
  | zero => rfl
  | succ n ih =>
    unfold follow
    rw [lookup_congr fs fs1 hroot hnodes]
    split
    · split
      · rfl
      · exact ih _
    · rfl

theorem Open_congr (fs fs1 : FileSystem) (hcwd : fs1.cwd = fs.cwd)
    (hroot : fs1.rootDev = fs.rootDev) (hnodes : fs1.nodes = fs.nodes) (name : String) :
    fs1.Open name = fs.Open name := by
  unfold Open
  have hab : fs1.abs name = fs.abs name := by unfold abs; rw [hcwd]
  rw [hab]
  split
  · rfl
  · rw [follow_congr fs fs1 hroot hnodes]
    have hm : ∀ q, fs1.missing q = fs.missing q := by
      intro q; unfold missing; rw [lookup_congr fs fs1 hroot hnodes]
    split <;> simp [hm]

theorem Open_put (fs : FileSystem) (name p q : String) (i : Nat)
    (hp : fs.abs name = some p) (hf : fs.follow maxSymlinks p = .ok (q, none)) :
    (fs.put q (.file i)).Open name = .ok ⟨name, .file i⟩ := by
  unfold Open
  have hab : (fs.put q (.file i)).abs name = some p := by rw [← hp]; rfl
  rw [hab]
  simp only []
  rw [follow_put fs _ p q (.file i) rfl hf]

theorem OpenFile_opens (fs fs1 : FileSystem) (name : String) (f : OsFile)
    (h : fs.OpenFile name = (.ok f, fs1)) : fs1.Open name = .ok f := by
  unfold OpenFile at h
  split at h
  · simp at h
  · rename_i p hp
    split at h
    · simp at h
    · simp at h
    · rename_i q nd hnd hf
      simp only [Prod.mk.injEq, Except.ok.injEq] at h
      obtain ⟨h1, h2⟩ := h
      subst h2
      unfold Open
      rw [hp]
      simp only []
      rw [hf]
      simp only [h1]
    · rename_i q hf
      split at h
      · simp only [Prod.mk.injEq, Except.ok.injEq] at h
        obtain ⟨h1, h2⟩ := h
        subst h2
        exact (Open_congr (fs.put q (.file fs.nextIno)) _ rfl rfl rfl name).trans
          (by rw [Open_put fs name p q _ hp hf, h1])
      · simp at h
      · simp at h

theorem create_Lstat (fs fs1 : FileSystem) (op name : String) (nd : Node)
    (h : fs.create op name nd = (none, fs1)) : fs1.Lstat name = .ok nd := by
  unfold create at h
  unfold Lstat
  split at h
  · simp at h
  · rename_i q hq
    split at h
    · simp at h
    · rename_i hl
      split at h
      · simp only [Prod.mk.injEq, true_and] at h
        subst h
        have hab : (fs.put q nd).abs name = some q := by rw [← hq]; rfl
        rw [hab]
        simp only []
        rw [lookup_put fs q q nd hl]
        simp
      · simp at h
      · simp at h

theorem AddsEmptyFiles.adds_refl (fs : FileSystem) : fs.AddsEmptyFiles fs :=
  ⟨[], by simp, by simp⟩

theorem AddsEmptyFiles.adds_trans {a b c : FileSystem} (h1 : a.AddsEmptyFiles b)
    (h2 : b.AddsEmptyFiles c) : a.AddsEmptyFiles c := by
  obtain ⟨l1, e1, p1⟩ := h1
  obtain ⟨l2, e2, p2⟩ := h2
  refine ⟨l1 ++ l2, by rw [e2, e1, List.append_assoc], ?_⟩
  intro e he
  rcases List.mem_append.mp he with h | h
  · exact p1 e h
  · exact p2 e h

theorem AddsEmptyFiles.of_eq {a b : FileSystem} (h : b.inodes = a.inodes) :
    a.AddsEmptyFiles b := ⟨[], by simp [h], by simp⟩

theorem Mkdir_inodes (fs : FileSystem) (name : String) :
    (fs.Mkdir name).2.inodes = fs.inodes := by
  unfold Mkdir
  repeat' split
  all_goals rfl

theorem mkdirAllAux_inodes (fs : FileSystem) (n : Nat) (p : String) :
    (fs.mkdirAllAux n p).2.inodes = fs.inodes := by
  induction n generalizing fs p with
  | zero => exact Mkdir_inodes fs p
  | succ n ih =>
    unfold mkdirAllAux
    split
    · split <;> rfl
    · have hparent : (if pathDir p = "/" then ((none : Option GoError), fs)
            else fs.mkdirAllAux n (pathDir p)).2.inodes = fs.inodes := by
        split
        · rfl
        · exact ih fs (pathDir p)
      split
      · rename_i heq
        rw [heq] at hparent
        exact hparent
      · rename_i fs1 heq
        rw [heq] at hparent
        have hm := Mkdir_inodes fs1 p
        split
        · rename_i heq2
          rw [heq2] at hm
          exact hm.trans hparent
        · rename_i heq2
          rw [heq2] at hm
          split <;> exact hm.trans hparent

theorem MkdirAll_inodes (fs : FileSystem) (name : String) :
    (fs.MkdirAll name).2.inodes = fs.inodes := by
  unfold MkdirAll
  split
  · rfl
  · exact mkdirAllAux_inodes _ _ _

theorem OpenFile_adds_empty (fs : FileSystem) (name : String) :
    fs.AddsEmptyFiles (fs.OpenFile name).2 := by
  unfold OpenFile
  repeat' split
  all_goals first
    | exact AddsEmptyFiles.adds_refl fs
    | exact ⟨[(fs.nextIno, "")], rfl, by simp⟩

theorem create_inodes (fs : FileSystem) (op name : String) (nd : Node) :
    (fs.create op name nd).2.inodes = fs.inodes := by
  unfold create
  repeat' split
  all_goals rfl

theorem Link_inodes (fs : FileSystem) (old name : String) :
    (fs.Link old name).2.inodes = fs.inodes := by
  unfold Link
  repeat' split
  all_goals first
    | rfl
    | exact create_inodes fs _ _ _

theorem Symlink_inodes (fs : FileSystem) (old name : String) :
    (fs.Symlink old name).2.inodes = fs.inodes := by
  unfold Symlink
  split
  · rfl
  · exact create_inodes fs _ _ _

theorem OpenFile_grows {fs fs1 : FileSystem} {name : String} {r : Except GoError OsFile}
    (h : fs.OpenFile name = (r, fs1)) : fs.Extends fs1 ∧ fs.AddsEmptyFiles fs1 := by
  have h1 := OpenFile_extends fs name
  have h2 := OpenFile_adds_empty fs name
  rw [h] at h1 h2
  exact ⟨h1, h2⟩

theorem Link_grows {fs fs1 : FileSystem} {old name : String} {r : Option GoError}
    (h : fs.Link old name = (r, fs1)) : fs.Extends fs1 ∧ fs.AddsEmptyFiles fs1 := by
  have h1 := Link_extends fs old name
  have h2 := Link_inodes fs old name
  rw [h] at h1 h2
  exact ⟨h1, AddsEmptyFiles.of_eq h2⟩

theorem Symlink_grows {fs fs1 : FileSystem} {old name : String} {r : Option GoError}
    (h : fs.Symlink old name = (r, fs1)) : fs.Extends fs1 ∧ fs.AddsEmptyFiles fs1 := by
  have h1 := Symlink_extends fs old name
  have h2 := Symlink_inodes fs old name
  rw [h] at h1 h2
  exact ⟨h1, AddsEmptyFiles.of_eq h2⟩

theorem MkdirAll_grows {fs fs1 : FileSystem} {name : String} {r : Option GoError}
    (h : fs.MkdirAll name = (r, fs1)) : fs.Extends fs1 ∧ fs.AddsEmptyFiles fs1 := by
  have h1 := MkdirAll_extends fs name
  have h2 := MkdirAll_inodes fs name
  rw [h] at h1 h2
  exact ⟨h1, AddsEmptyFiles.of_eq h2⟩

theorem grows_refl (fs : FileSystem) : fs.Extends fs ∧ fs.AddsEmptyFiles fs :=
  ⟨Extends.refl fs, AddsEmptyFiles.adds_refl fs⟩

theorem grows_trans {a b c : FileSystem} (h1 : a.Extends b ∧ a.AddsEmptyFiles b)
    (h2 : b.Extends c ∧ b.AddsEmptyFiles c) : a.Extends c ∧ a.AddsEmptyFiles c :=
  ⟨h1.1.trans h2.1, h1.2.adds_trans h2.2⟩

theorem Symlink_ok (fs fs1 : FileSystem) (old name : String)
    (h : fs.Symlink old name = (none, fs1)) : fs1.Lstat name = .ok (.symlink old) := by
  unfold Symlink at h
  split at h
  · simp at h
  · exact create_Lstat fs fs1 _ name _ h

theorem Lstat_of_lookup (fs : FileSystem) (name p : String) (nd : Node)
    (hp : fs.abs name = some p) (hl : fs.lookup p = some nd) : fs.Lstat name = .ok nd := by
  unfold Lstat
  rw [hp]
  simp only [hl]

theorem Link_ok (fs fs1 : FileSystem) (old name : String)
    (h : fs.Link old name = (none, fs1)) :
    ∃ nd, nd.IsDir = false ∧ fs.Lstat old = .ok nd ∧ fs1.Lstat name = .ok nd ∧
      fs1.Lstat old = .ok nd := by
  have hext : fs.Extends fs1 := (Link_grows h).1
  unfold Link at h
  split at h
  · rename_i p q hp hq
    split at h
    · simp at h
    · simp at h
    · rename_i nd hnd hl
      have hold : fs.Lstat old = .ok nd := Lstat_of_lookup fs old p nd hp hl
      have hdir : nd.IsDir = false := by
        cases nd with
        | dir d => exact absurd rfl (hnd d)
        | file i => rfl
        | symlink t => rfl
      refine ⟨nd, hdir, hold, ?_, Lstat_extends hext old nd hold⟩
      split at h
      · split at h
        · exact create_Lstat fs fs1 _ name nd h
        · simp at h
      · exact create_Lstat fs fs1 _ name nd h
  · simp at h

theorem AddsEmptyFiles.keeps {fs fs1 : FileSystem} (h : fs.AddsEmptyFiles fs1) (ino : Nat)
    (c : String) (hc : fs.inodes.lookup ino = some c) : fs1.inodes.lookup ino = some c := by
  obtain ⟨added, he, _⟩ := h
  rw [he]
  generalize fs.inodes = l at hc
  induction l with
  | nil => simp [List.lookup] at hc
  | cons e l ih =>
    obtain ⟨k, v⟩ := e
    simp only [List.cons_append, List.lookup_cons] at hc ⊢
    split
    · rename_i hk
      rw [hk] at hc
      exact hc
    · rename_i hk
      rw [hk] at hc
      exact ih hc

end FileSystem

/-! ## Lemmas on what `CreateTask` leaves -/

namespace storageManager

theorem createData_store (dev : Nat) (req : RegisterTaskRequest) (t t1 : localTaskStore)
    (data : String) (fs2 fs3 : FileSystem)
    (h : createData dev req t data fs2 = (.ok t1, fs3)) :
    t1 = { t with DataFilePath :=
      if t.StoreStrategy = SimpleLocalTaskStoreStrategy then data
      else if t.StoreStrategy = AdvanceLocalTaskStoreStrategy then advanceDataFilePath req
      else t.DataFilePath } := by
  simp only [createData] at h
  split at h
  · rename_i hs
    rw [if_pos hs]
    split at h
    · simp at h
    · simp only [Prod.mk.injEq, Except.ok.injEq] at h
      exact h.1.symm
  · rename_i hs
    rw [if_neg hs]
    split at h
    · rename_i ha
      rw [if_pos ha]
      repeat' split at h
      all_goals first
        | (simp at h; done)
        | (simp only [Prod.mk.injEq, Except.ok.injEq] at h
           rw [← h.1]
           rfl)
    · rename_i ha
      rw [if_neg ha]
      simp only [Prod.mk.injEq, Except.ok.injEq] at h
      exact h.1.symm

theorem createData_grows (dev : Nat) (req : RegisterTaskRequest) (t : localTaskStore)
    (data : String) (fs2 : FileSystem) :
    fs2.Extends (createData dev req t data fs2).2 ∧
    fs2.AddsEmptyFiles (createData dev req t data fs2).2 := by
  simp only [createData]
  repeat' split
  all_goals first
    | exact FileSystem.grows_refl fs2
    | exact FileSystem.OpenFile_grows (by assumption)
    | exact FileSystem.grows_trans (FileSystem.OpenFile_grows (by assumption))
        (FileSystem.Link_grows (by assumption))
    | exact FileSystem.grows_trans (FileSystem.OpenFile_grows (by assumption))
        (FileSystem.Symlink_grows (by assumption))
    | exact FileSystem.grows_trans (FileSystem.OpenFile_grows (by assumption))
        (FileSystem.grows_trans (FileSystem.Link_grows (by assumption))
          (FileSystem.Symlink_grows (by assumption)))

theorem createData_simple_opens (dev : Nat) (req : RegisterTaskRequest)
    (t t1 : localTaskStore) (data : String) (fs2 fs3 : FileSystem)
    (hs : t.StoreStrategy = SimpleLocalTaskStoreStrategy)
    (h : createData dev req t data fs2 = (.ok t1, fs3)) :
    ∃ f, fs2.OpenFile data = (.ok f, fs3) ∧ fs3.Open data = .ok f := by
  simp only [createData] at h
  rw [if_pos hs] at h
  split at h
  · simp at h
  · rename_i f fs3a heq
    simp only [Prod.mk.injEq, Except.ok.injEq] at h
    rw [← h.2]
    exact ⟨f, heq, FileSystem.OpenFile_opens fs2 fs3a data f heq⟩

theorem createData_advance (dev : Nat) (req : RegisterTaskRequest)
    (t t1 : localTaskStore) (data : String) (fs2 fs3 : FileSystem)
    (hs : t.StoreStrategy ≠ SimpleLocalTaskStoreStrategy)
    (ha : t.StoreStrategy = AdvanceLocalTaskStoreStrategy)
    (h : createData dev req t data fs2 = (.ok t1, fs3)) :
    ∃ nd dev0 f fs3a,
      fs2.Stat (pathSplit req.Destination).1 = .ok (nd, dev0) ∧
      fs2.OpenFile (advanceDataFilePath req) = (.ok f, fs3a) ∧
      fs3.Open (advanceDataFilePath req) = .ok f ∧
      (dev0 ≠ dev → fs3.Lstat data = .ok (.symlink (advanceDataFilePath req))) ∧
      (dev0 = dev →
        ((fs3a.Link (advanceDataFilePath req) data).1 = none ∧
          ∃ nd1, nd1.IsDir = false ∧ fs3.Lstat data = .ok nd1 ∧
            fs3.Lstat (advanceDataFilePath req) = .ok nd1) ∨
        ((fs3a.Link (advanceDataFilePath req) data).1 ≠ none ∧
          fs3.Lstat data = .ok (.symlink (advanceDataFilePath req)))) := by
  simp only [createData] at h
  rw [if_neg hs, if_pos ha] at h
  split at h
  · simp at h
  · rename_i nd dev0 hstat
    split at h
    · simp at h
    · rename_i f fs3a hopen
      have hopens := FileSystem.OpenFile_opens fs2 fs3a _ f hopen
      split at h
      · rename_i hdev
        split at h
        · rename_i fs4 hlink
          simp only [Prod.mk.injEq, Except.ok.injEq] at h
          obtain ⟨_, h2⟩ := h
          subst h2
          obtain ⟨nd1, hd1, _, hl1, hl2⟩ := FileSystem.Link_ok fs3a fs4 _ _ hlink
          refine ⟨nd, dev0, f, fs3a, hstat, hopen,
            FileSystem.Open_extends (FileSystem.Link_grows hlink).1 _ f hopens,
            fun hne => absurd hdev hne, fun _ => Or.inl ⟨?_, nd1, hd1, hl1, hl2⟩⟩
          show (fs3a.Link (advanceDataFilePath req) data).1 = none
          unfold advanceDataFilePath
          rw [hlink]
        · rename_i e fs4 hlink
          split at h
          · simp at h
          · rename_i fs5 hsym
            simp only [Prod.mk.injEq, Except.ok.injEq] at h
            obtain ⟨_, h2⟩ := h
            subst h2
            refine ⟨nd, dev0, f, fs3a, hstat, hopen,
              FileSystem.Open_extends ((FileSystem.Link_grows hlink).1.trans
                (FileSystem.Symlink_grows hsym).1) _ f hopens,
              fun hne => absurd hdev hne,
              fun _ => Or.inr ⟨?_, FileSystem.Symlink_ok fs4 fs5 _ _ hsym⟩⟩
            show (fs3a.Link (advanceDataFilePath req) data).1 ≠ none
            unfold advanceDataFilePath
            rw [hlink]
            simp
      · rename_i hdev
        split at h
        · simp at h
        · rename_i fs4 hsym
          simp only [Prod.mk.injEq, Except.ok.injEq] at h
          obtain ⟨_, h2⟩ := h
          subst h2
          exact ⟨nd, dev0, f, fs3a, hstat, hopen,
            FileSystem.Open_extends (FileSystem.Symlink_grows hsym).1 _ f hopens,
            fun _ => FileSystem.Symlink_ok fs3a fs4 _ _ hsym,
            fun he => absurd he hdev⟩

theorem createData_pair_grows {dev : Nat} {req : RegisterTaskRequest} {t : localTaskStore}
    {data : String} {fs2 fs3 : FileSystem} {r : Except GoError localTaskStore}
    (h : createData dev req t data fs2 = (r, fs3)) :
    fs2.Extends fs3 ∧ fs2.AddsEmptyFiles fs3 := by
  have h1 := createData_grows dev req t data fs2
  rw [h] at h1
  exact h1

theorem CreateTask_grows (s : storageManager) (now : Nat) (req : RegisterTaskRequest)
    (fs : FileSystem) :
    fs.Extends (s.CreateTask now req fs).2.2 ∧
    fs.AddsEmptyFiles (s.CreateTask now req fs).2.2 := by
  simp only [CreateTask]
  have hm := @FileSystem.MkdirAll_grows fs _
    (pathJoin [(s.Keep now).storeOption.DataPath, req.TaskID, req.PeerID]) _ rfl
  split
  · exact hm
  · split
    · rename_i heq
      exact FileSystem.grows_trans hm (FileSystem.OpenFile_grows heq)
    · rename_i metadata fs2 heq
      have ho := FileSystem.grows_trans hm (FileSystem.OpenFile_grows heq)
      split
      · rename_i hc
        exact FileSystem.grows_trans ho (createData_pair_grows hc)
      · rename_i hc
        exact FileSystem.grows_trans ho (createData_pair_grows hc)

theorem RegisterTask_grows (s : storageManager) (now : Nat) (req : RegisterTaskRequest)
    (fs : FileSystem) :
    fs.Extends (s.RegisterTask now req fs).2.2 ∧
    fs.AddsEmptyFiles (s.RegisterTask now req fs).2.2 := by
  cases hl : s.tasks.Load ⟨req.PeerID, req.TaskID⟩ with
  | some t =>
    rw [RegisterTask_present s now req fs t hl]
    exact FileSystem.grows_refl fs
  | none =>
    rw [RegisterTask_absent s now req fs hl]
    exact CreateTask_grows _ now req fs

theorem createdStore_placed (s : storageManager) (req : RegisterTaskRequest)
    (metadata : OsFile) (t t1 : localTaskStore) (dev : Nat) (fs2 fs3 : FileSystem)
    (ht : t = { createdStore s req metadata with DataFilePath := "" })
    (h : createData dev req t
      (pathJoin [pathJoin [s.storeOption.DataPath, req.TaskID, req.PeerID], taskData]) fs2
      = (.ok t1, fs3)) :
    t1 = createdStore s req metadata := by
  rw [createData_store dev req t t1 _ fs2 fs3 h, ht]
  simp only [createdStore]

theorem CreateTask_ok_steps (s s1 : storageManager) (now : Nat) (req : RegisterTaskRequest)
    (fs fs3 : FileSystem) (h : s.CreateTask now req fs = (none, s1, fs3)) :
    ∃ metadata fs2,
      fs.Extends fs2 ∧
      fs2.Open (pathJoin [pathJoin [s.storeOption.DataPath, req.TaskID, req.PeerID],
        taskMetaData]) = .ok metadata ∧
      createData s.dataPathStat req { createdStore s req metadata with DataFilePath := "" }
        (pathJoin [pathJoin [s.storeOption.DataPath, req.TaskID, req.PeerID], taskData]) fs2
        = (.ok (createdStore s req metadata), fs3) ∧
      s1 = { s.Keep now with
             tasks := (s.Keep now).tasks.Store ⟨req.PeerID, req.TaskID⟩
               (createdStore s req metadata) } := by
  simp only [CreateTask] at h
  split at h
  · rename_i hany
    simp only [Prod.mk.injEq] at h
    rw [h.1] at hany
    simp at hany
  · split at h
    · simp at h
    · rename_i metadata fs2 hopen
      have hext : fs.Extends fs2 :=
        (@FileSystem.MkdirAll_grows fs _ _ _ rfl).1.trans (FileSystem.OpenFile_grows hopen).1
      have hopens := FileSystem.OpenFile_opens _ fs2 _ metadata hopen
      have ht : (if req.Destination = "" then
            ({ StoreStrategy := SimpleLocalTaskStoreStrategy, TaskID := req.TaskID,
               TaskMeta := [], ContentLength := req.ContentLength,
               TotalPieces := req.TotalPieces, PeerID := req.PeerID, Pieces := [],
               gcCallback := (s.Keep now).gcCallback,
               dataDir := pathJoin [(s.Keep now).storeOption.DataPath, req.TaskID, req.PeerID],
               metadataFile := some metadata,
               metadataFilePath := pathJoin
                 [pathJoin [(s.Keep now).storeOption.DataPath, req.TaskID, req.PeerID],
                   taskMetaData],
               expireTime := (s.Keep now).storeOption.TaskExpireTime } : localTaskStore)
          else
            { StoreStrategy := (s.Keep now).storeStrategy, TaskID := req.TaskID,
              TaskMeta := [], ContentLength := req.ContentLength,
              TotalPieces := req.TotalPieces, PeerID := req.PeerID, Pieces := [],
              gcCallback := (s.Keep now).gcCallback,
              dataDir := pathJoin [(s.Keep now).storeOption.DataPath, req.TaskID, req.PeerID],
              metadataFile := some metadata,
              metadataFilePath := pathJoin
                [pathJoin [(s.Keep now).storeOption.DataPath, req.TaskID, req.PeerID],
                  taskMetaData],
              expireTime := (s.Keep now).storeOption.TaskExpireTime }) =
          { createdStore s req metadata with DataFilePath := "" } := by
        by_cases hd : req.Destination = "" <;> simp [createdStore, hd, Keep]
      split at h
      · simp at h
      · rename_i t1 fs3a hplace
        simp only [Prod.mk.injEq, true_and] at h
        obtain ⟨h1, h2⟩ := h
        subst h2
        rw [ht] at hplace
        have ht1 := createdStore_placed s req metadata _ t1 _ fs2 fs3a rfl hplace
        subst ht1
        exact ⟨metadata, fs2, hext, hopens, hplace, h1.symm⟩

theorem RegisterTask_created (s s1 : storageManager) (now : Nat)
    (req : RegisterTaskRequest) (fs fs3 : FileSystem)
    (habsent : s.tasks.Load ⟨req.PeerID, req.TaskID⟩ = none)
    (h : s.RegisterTask now req fs = (none, s1, fs3)) :
    ∃ metadata fs2,
      fs.Extends fs2 ∧
      fs2.Open (pathJoin [pathJoin [s.storeOption.DataPath, req.TaskID, req.PeerID],
        taskMetaData]) = .ok metadata ∧
      createData s.dataPathStat req { createdStore s req metadata with DataFilePath := "" }
        (pathJoin [pathJoin [s.storeOption.DataPath, req.TaskID, req.PeerID], taskData]) fs2
        = (.ok (createdStore s req metadata), fs3) ∧
      s1.tasks.Load ⟨req.PeerID, req.TaskID⟩ = some (createdStore s req metadata) := by
  rw [RegisterTask_absent s now req fs habsent] at h
  obtain ⟨metadata, fs2, hext, hopen, hplace, hs1⟩ :=
    CreateTask_ok_steps ((s.Keep now).Keep now) s1 now req fs fs3 h
  refine ⟨metadata, fs2, hext, hopen, hplace, ?_⟩
  rw [hs1]
  exact SyncMap.Load_Store_self _ _ _

end storageManager

/-! ## The claims on the placement of a new task -/

theorem pathSplit_spec (d : String) :
    (pathSplit d).1 ++ (pathSplit d).2 = d ∧ '/' ∉ (pathSplit d).2.data ∧
    ((pathSplit d).1 = "" ∨ (pathSplit d).1.data.getLast? = some '/') := by
  refine ⟨?_, ?_, ?_⟩
  · apply String.ext
    simp only [pathSplit, String.data_append]
    rw [← List.reverse_append, List.takeWhile_append_dropWhile, List.reverse_reverse]
  · simp only [pathSplit, List.mem_reverse]
    intro h
    have := List.mem_takeWhile_imp h
    simp at this
  · simp only [pathSplit]
    cases hd : List.dropWhile (fun c => decide (c ≠ '/')) d.data.reverse with
    | nil => left; rfl
    | cons c rest =>
      right
      have h := List.head?_dropWhile_not (fun c => decide (c ≠ '/')) d.data.reverse
      rw [hd] at h
      simp only [List.head?_cons, decide_eq_false_iff_not, ne_eq, not_not] at h
      simp [h]

/-- C17. A task registered with an empty destination gets the Simple strategy whatever the
manager is configured with: the tag recorded in its metadata is Simple and its data file
is `dataDir/data`. With a destination the recorded tag is the tag of the manager and the
placement follows it: Simple puts the data file at `dataDir/data`, Advance puts it beside
the destination and installs an entry at `dataDir/data`. In both cases the data file can
be opened when the call returns. -/
theorem RegisterTask_strategy_fallback (s s1 : storageManager) (now : Nat)
    (req : RegisterTaskRequest) (fs fs1 : FileSystem)
    (habsent : s.tasks.Load ⟨req.PeerID, req.TaskID⟩ = none)
    (hok : s.RegisterTask now req fs = (none, s1, fs1)) :
    ∃ t, s1.tasks.Load ⟨req.PeerID, req.TaskID⟩ = some t ∧
      (req.Destination = "" →
        t.StoreStrategy = SimpleLocalTaskStoreStrategy ∧
        t.DataFilePath = pathJoin [t.dataDir, taskData] ∧
        ∃ f, fs1.Open t.DataFilePath = .ok f) ∧
      (req.Destination ≠ "" →
        t.StoreStrategy = s.storeStrategy ∧
        (s.storeStrategy = SimpleLocalTaskStoreStrategy →
          t.DataFilePath = pathJoin [t.dataDir, taskData] ∧
          ∃ f, fs1.Open t.DataFilePath = .ok f) ∧
        (s.storeStrategy = AdvanceLocalTaskStoreStrategy →
          t.DataFilePath = advanceDataFilePath req ∧
          (∃ f, fs1.Open t.DataFilePath = .ok f) ∧
          ∃ nd, fs1.Lstat (pathJoin [t.dataDir, taskData]) = .ok nd)) := by
  obtain ⟨metadata, fs2, _, _, hplace, hload⟩ :=
    storageManager.RegisterTask_created s s1 now req fs fs1 habsent hok
  refine ⟨createdStore s req metadata, hload, ?_, ?_⟩
  · intro hd
    have hs : ({ createdStore s req metadata with DataFilePath := "" } :
        localTaskStore).StoreStrategy = SimpleLocalTaskStoreStrategy := by
      simp [createdStore, hd]
    obtain ⟨f, _, hopen⟩ := storageManager.createData_simple_opens _ _ _ _ _ _ _ hs hplace
    refine ⟨by simp [createdStore, hd], by simp [createdStore, hd], f, ?_⟩
    simpa [createdStore, hd] using hopen
  · intro hd
    refine ⟨by simp [createdStore, hd], ?_, ?_⟩
    · intro hsimple
      have hs : ({ createdStore s req metadata with DataFilePath := "" } :
          localTaskStore).StoreStrategy = SimpleLocalTaskStoreStrategy := by
        simp [createdStore, hd, hsimple]
      obtain ⟨f, _, hopen⟩ := storageManager.createData_simple_opens _ _ _ _ _ _ _ hs hplace
      refine ⟨by simp [createdStore, hd, hsimple], f, ?_⟩
      simpa [createdStore, hd, hsimple] using hopen
    · intro hadv
      have hne : AdvanceLocalTaskStoreStrategy ≠ SimpleLocalTaskStoreStrategy := by decide
      have hs : ({ createdStore s req metadata with DataFilePath := "" } :
          localTaskStore).StoreStrategy ≠ SimpleLocalTaskStoreStrategy := by
        simp [createdStore, hd, hadv, hne]
      have ha : ({ createdStore s req metadata with DataFilePath := "" } :
          localTaskStore).StoreStrategy = AdvanceLocalTaskStoreStrategy := by
        simp [createdStore, hd, hadv]
      obtain ⟨nd, dev0, f, fs3a, _, _, hopen, hfar, hnear⟩ :=
        storageManager.createData_advance _ _ _ _ _ _ _ hs ha hplace
      have hpath : (createdStore s req metadata).DataFilePath = advanceDataFilePath req := by
        simp [createdStore, hd, hadv, hne]
      refine ⟨hpath, ⟨f, by rw [hpath]; exact hopen⟩, ?_⟩
      by_cases hdev : dev0 = s.dataPathStat
      · rcases hnear hdev with ⟨_, nd1, _, h1, _⟩ | ⟨_, h1⟩
        · exact ⟨nd1, h1⟩
        · exact ⟨_, h1⟩
      · exact ⟨_, hfar hdev⟩

/-- Witness of C17 on the registration without destination on the manager configured with
the Advance strategy. -/
theorem RegisterTask_strategy_fallback_witness :
    exampleManager.tasks.Load ⟨exampleRequest.PeerID, exampleRequest.TaskID⟩ = none ∧
    exampleManager.RegisterTask 5 exampleRequest exampleDisk =
      (none, exampleRegistered.2.1, exampleRegistered.2.2) ∧
    ∃ t, exampleRegistered.2.1.tasks.Load ⟨exampleRequest.PeerID, exampleRequest.TaskID⟩
        = some t ∧
      (exampleRequest.Destination = "" →
        t.StoreStrategy = SimpleLocalTaskStoreStrategy ∧
        t.DataFilePath = pathJoin [t.dataDir, taskData] ∧
        ∃ f, exampleRegistered.2.2.Open t.DataFilePath = .ok f) :=
  ⟨by decide, by decide,
   (RegisterTask_strategy_fallback exampleManager exampleRegistered.2.1 5 exampleRequest
      exampleDisk exampleRegistered.2.2 (by decide) (by decide)).imp
      (fun _ h => ⟨h.1, h.2.1⟩)⟩

/-- C19. Advance data path: a store created under the Advance strategy for destination `d`
and peer id `p` records as `DataFilePath` the directory part of `d` joined with the name
`"." + file + ".dfget.cache." + p`, where the directory part and `file` are the two halves
of `d` cut after its last slash: together they give `d` back, `file` holds no slash, and
the directory part is empty or ends in a slash. -/
theorem RegisterTask_advance_path (s s1 : storageManager) (now : Nat)
    (req : RegisterTaskRequest) (fs fs1 : FileSystem)
    (habsent : s.tasks.Load ⟨req.PeerID, req.TaskID⟩ = none)
    (hok : s.RegisterTask now req fs = (none, s1, fs1)) :
    ∃ t, s1.tasks.Load ⟨req.PeerID, req.TaskID⟩ = some t ∧
      (t.StoreStrategy = AdvanceLocalTaskStoreStrategy →
        t.DataFilePath = pathJoin [(pathSplit req.Destination).1,
          "." ++ (pathSplit req.Destination).2 ++ ".dfget.cache." ++ req.PeerID] ∧
        (pathSplit req.Destination).1 ++ (pathSplit req.Destination).2 = req.Destination ∧
        '/' ∉ (pathSplit req.Destination).2.data ∧
        ((pathSplit req.Destination).1 = "" ∨
          (pathSplit req.Destination).1.data.getLast? = some '/')) := by
  obtain ⟨metadata, fs2, _, _, _, hload⟩ :=
    storageManager.RegisterTask_created s s1 now req fs fs1 habsent hok
  refine ⟨createdStore s req metadata, hload, ?_⟩
  intro hadv
  have hne : AdvanceLocalTaskStoreStrategy ≠ SimpleLocalTaskStoreStrategy := by decide
  have hspec := pathSplit_spec req.Destination
  refine ⟨?_, hspec.1, hspec.2.1, hspec.2.2⟩
  have htag : (if req.Destination = "" then SimpleLocalTaskStoreStrategy
      else s.storeStrategy) = AdvanceLocalTaskStoreStrategy := by
    simpa [createdStore] using hadv
  simp only [createdStore, htag, hne, if_true, if_false]
  rfl

/-- Witness of C19 on the registration with the destination `/mnt/out.bin`. -/
theorem RegisterTask_advance_path_witness :
    exampleManager.tasks.Load ⟨exampleFarRequest.PeerID, exampleFarRequest.TaskID⟩ = none ∧
    exampleManager.RegisterTask 5 exampleFarRequest exampleDisk
      = (none, exampleFar.2.1, exampleFar.2.2) ∧
    ∃ t, exampleFar.2.1.tasks.Load ⟨exampleFarRequest.PeerID, exampleFarRequest.TaskID⟩
        = some t ∧
      (t.StoreStrategy = AdvanceLocalTaskStoreStrategy →
        t.DataFilePath = pathJoin [(pathSplit exampleFarRequest.Destination).1,
          "." ++ (pathSplit exampleFarRequest.Destination).2 ++ ".dfget.cache."
            ++ exampleFarRequest.PeerID]) :=
  ⟨by decide, by decide,
   (RegisterTask_advance_path exampleManager exampleFar.2.1 5 exampleFarRequest exampleDisk
      exampleFar.2.2 (by decide) (by decide)).imp
      (fun _ h => ⟨h.1, fun ha => (h.2 ha).1⟩)⟩

/-- C20. Simple layout: a store created under the Simple strategy for `(taskID, peerID)`
has the data directory `path.Join(dataRoot, taskID, peerID)`, records as `DataFilePath`
that directory joined with `data`, has as metadata path that directory joined with the
name of the metadata file, and its creation opens the data file without writing: the data
file can be opened afterwards, every file keeps the content it had and the files the call
adds are empty. -/
theorem RegisterTask_simple_layout (s s1 : storageManager) (now : Nat)
    (req : RegisterTaskRequest) (fs fs1 : FileSystem)
    (habsent : s.tasks.Load ⟨req.PeerID, req.TaskID⟩ = none)
    (hok : s.RegisterTask now req fs = (none, s1, fs1)) :
    ∃ t, s1.tasks.Load ⟨req.PeerID, req.TaskID⟩ = some t ∧
      (t.StoreStrategy = SimpleLocalTaskStoreStrategy →
        t.dataDir = pathJoin [s.storeOption.DataPath, req.TaskID, req.PeerID] ∧
        t.DataFilePath = pathJoin [t.dataDir, taskData] ∧
        t.metadataFilePath = pathJoin [t.dataDir, taskMetaData] ∧
        (∃ f, fs1.Open t.DataFilePath = .ok f) ∧
        fs.AddsEmptyFiles fs1 ∧
        ∀ ino c, fs.inodes.lookup ino = some c → fs1.inodes.lookup ino = some c) := by
  obtain ⟨metadata, fs2, _, _, hplace, hload⟩ :=
    storageManager.RegisterTask_created s s1 now req fs fs1 habsent hok
  refine ⟨createdStore s req metadata, hload, ?_⟩
  intro hsimple
  have htag : (if req.Destination = "" then SimpleLocalTaskStoreStrategy
      else s.storeStrategy) = SimpleLocalTaskStoreStrategy := by
    simpa [createdStore] using hsimple
  have hs : ({ createdStore s req metadata with DataFilePath := "" } :
      localTaskStore).StoreStrategy = SimpleLocalTaskStoreStrategy := hsimple
  obtain ⟨f, _, hopen⟩ := storageManager.createData_simple_opens _ _ _ _ _ _ _ hs hplace
  have hgrow := storageManager.RegisterTask_grows s now req fs
  rw [hok] at hgrow
  refine ⟨rfl, ?_, rfl, ⟨f, ?_⟩, hgrow.2, fun ino c hc => hgrow.2.keeps ino c hc⟩
  · simp only [createdStore, htag, if_true]
  · simpa only [createdStore, htag, if_true] using hopen

/-- Witness of C20 on the registration on the manager configured with the Simple
strategy. -/
theorem RegisterTask_simple_layout_witness :
    exampleSimpleManager.tasks.Load ⟨exampleRequest.PeerID, exampleRequest.TaskID⟩ = none ∧
    exampleSimpleManager.RegisterTask 5 exampleRequest exampleDisk
      = (none, exampleSimple.2.1, exampleSimple.2.2) ∧
    ∃ t, exampleSimple.2.1.tasks.Load ⟨exampleRequest.PeerID, exampleRequest.TaskID⟩
        = some t ∧
      (t.StoreStrategy = SimpleLocalTaskStoreStrategy →
        t.dataDir = pathJoin [exampleSimpleManager.storeOption.DataPath,
          exampleRequest.TaskID, exampleRequest.PeerID]) :=
  ⟨by decide, by decide,
   (RegisterTask_simple_layout exampleSimpleManager exampleSimple.2.1 5 exampleRequest
      exampleDisk exampleSimple.2.2 (by decide) (by decide)).imp
      (fun _ h => ⟨h.1, fun ha => (h.2 ha).1⟩)⟩

/-- C18, as stated, fails: on the disk whose task directory is a mount point the
destination directory `/cache` has the device id cached for the data root, the hard link
fails across the mount, and the entry installed at `dataDir/data` is a symbolic link. -/
theorem RegisterTask_same_device_symlink :
    exampleMounted.1 = none ∧
    (exampleMounted.2.1.tasks.Load exampleKey).map (fun t => t.StoreStrategy)
      = some AdvanceLocalTaskStoreStrategy ∧
    (exampleMountDisk.Stat "/cache/").map Prod.snd = .ok exampleManager.dataPathStat ∧
    exampleMounted.2.2.Lstat "/data/t1/p1/data"
      = .ok (.symlink "/cache/.out.bin.dfget.cache.p1") := by
  decide

/-- C18, amended. Advance back-link: for a store created under the Advance strategy the
entry installed at `dataDir/data` is a symbolic link to the primary data file when the
device id of the destination directory differs from the cached device id of the data
root; when the two are equal it is a hard link to the primary data file if `os.Link`
succeeds, and a symbolic link to it if `os.Link` fails. -/
theorem RegisterTask_advance_backlink (s s1 : storageManager) (now : Nat)
    (req : RegisterTaskRequest) (fs fs1 : FileSystem)
    (habsent : s.tasks.Load ⟨req.PeerID, req.TaskID⟩ = none)
    (hok : s.RegisterTask now req fs = (none, s1, fs1)) :
    ∃ t, s1.tasks.Load ⟨req.PeerID, req.TaskID⟩ = some t ∧
      (t.StoreStrategy = AdvanceLocalTaskStoreStrategy →
        ∃ fs2 nd dev0 f fs3,
          fs.Extends fs2 ∧
          fs2.Stat (pathSplit req.Destination).1 = .ok (nd, dev0) ∧
          fs2.OpenFile t.DataFilePath = (.ok f, fs3) ∧
          (dev0 ≠ s.dataPathStat →
            fs1.Lstat (pathJoin [t.dataDir, taskData]) = .ok (.symlink t.DataFilePath)) ∧
          (dev0 = s.dataPathStat →
            ((fs3.Link t.DataFilePath (pathJoin [t.dataDir, taskData])).1 = none ∧
              ∃ nd1, nd1.IsDir = false ∧
                fs1.Lstat (pathJoin [t.dataDir, taskData]) = .ok nd1 ∧
                fs1.Lstat t.DataFilePath = .ok nd1) ∨
            ((fs3.Link t.DataFilePath (pathJoin [t.dataDir, taskData])).1 ≠ none ∧
              fs1.Lstat (pathJoin [t.dataDir, taskData])
                = .ok (.symlink t.DataFilePath)))) := by
  obtain ⟨metadata, fs2, hext, _, hplace, hload⟩ :=
    storageManager.RegisterTask_created s s1 now req fs fs1 habsent hok
  refine ⟨createdStore s req metadata, hload, ?_⟩
  intro hadv
  have hne : AdvanceLocalTaskStoreStrategy ≠ SimpleLocalTaskStoreStrategy := by decide
  have htag : (if req.Destination = "" then SimpleLocalTaskStoreStrategy
      else s.storeStrategy) = AdvanceLocalTaskStoreStrategy := by
    simpa [createdStore] using hadv
  have hs : ({ createdStore s req metadata with DataFilePath := "" } :
      localTaskStore).StoreStrategy ≠ SimpleLocalTaskStoreStrategy := by
    show (createdStore s req metadata).StoreStrategy ≠ _
    rw [hadv]; exact hne
  have ha : ({ createdStore s req metadata with DataFilePath := "" } :
      localTaskStore).StoreStrategy = AdvanceLocalTaskStoreStrategy := hadv
  obtain ⟨nd, dev0, f, fs3a, hstat, hopen, _, hfar, hnear⟩ :=
    storageManager.createData_advance _ _ _ _ _ _ _ hs ha hplace
  have hpath : (createdStore s req metadata).DataFilePath = advanceDataFilePath req := by
    simp only [createdStore, htag, hne, if_true, if_false]
  have hdir : (createdStore s req metadata).dataDir
      = pathJoin [s.storeOption.DataPath, req.TaskID, req.PeerID] := rfl
  rw [hpath, hdir]
  exact ⟨fs2, nd, dev0, f, fs3a, hext, hstat, hopen, hfar, hnear⟩

/-- Witness of C18 as amended, on the registration with a destination on the device of the
data root, where the hard link succeeds. -/
theorem RegisterTask_advance_backlink_witness :
    exampleManager.tasks.Load ⟨exampleNearRequest.PeerID, exampleNearRequest.TaskID⟩ = none ∧
    exampleManager.RegisterTask 5 exampleNearRequest exampleDisk
      = (none, exampleNear.2.1, exampleNear.2.2) ∧
    ∃ t, exampleNear.2.1.tasks.Load ⟨exampleNearRequest.PeerID, exampleNearRequest.TaskID⟩
      = some t :=
  ⟨by decide, by decide,
   (RegisterTask_advance_backlink exampleManager exampleNear.2.1 5 exampleNearRequest
      exampleDisk exampleNear.2.2 (by decide) (by decide)).imp (fun _ h => h.1)⟩

/-! ## Lemmas on the files of a store -/

namespace storageManager

theorem createData_opens (dev : Nat) (req : RegisterTaskRequest) (t t1 : localTaskStore)
    (data : String) (fs2 fs3 : FileSystem)
    (htag : t.StoreStrategy = SimpleLocalTaskStoreStrategy
      ∨ t.StoreStrategy = AdvanceLocalTaskStoreStrategy)
    (h : createData dev req t data fs2 = (.ok t1, fs3)) :
    ∃ f, fs3.Open t1.DataFilePath = .ok f := by
  have ht1 := createData_store dev req t t1 data fs2 fs3 h
  by_cases hs : t.StoreStrategy = SimpleLocalTaskStoreStrategy
  · obtain ⟨f, _, hopen⟩ := createData_simple_opens dev req t t1 data fs2 fs3 hs h
    refine ⟨f, ?_⟩
    rw [ht1]
    simpa only [hs, if_true] using hopen
  · have ha : t.StoreStrategy = AdvanceLocalTaskStoreStrategy := htag.resolve_left hs
    obtain ⟨_, _, f, _, _, _, hopen, _⟩ :=
      createData_advance dev req t t1 data fs2 fs3 hs ha h
    refine ⟨f, ?_⟩
    rw [ht1]
    simpa only [hs, ha, if_true, if_false] using hopen

theorem RegisterTask_opens (s s1 : storageManager) (now : Nat)
    (req : RegisterTaskRequest) (fs fs1 : FileSystem)
    (habsent : s.tasks.Load ⟨req.PeerID, req.TaskID⟩ = none)
    (hok : s.RegisterTask now req fs = (none, s1, fs1)) :
    ∃ t, s1.tasks.Load ⟨req.PeerID, req.TaskID⟩ = some t ∧
      (∃ f, fs1.Open t.metadataFilePath = .ok f) ∧
      (t.StoreStrategy = SimpleLocalTaskStoreStrategy
        ∨ t.StoreStrategy = AdvanceLocalTaskStoreStrategy →
        ∃ f, fs1.Open t.DataFilePath = .ok f) := by
  obtain ⟨metadata, fs2, _, hmeta, hplace, hload⟩ :=
    RegisterTask_created s s1 now req fs fs1 habsent hok
  refine ⟨createdStore s req metadata, hload, ⟨metadata, ?_⟩, ?_⟩
  · exact FileSystem.Open_extends (createData_pair_grows hplace).1 _ metadata hmeta
  · intro htag
    have htag0 : ({ createdStore s req metadata with DataFilePath := "" } :
        localTaskStore).StoreStrategy = SimpleLocalTaskStoreStrategy
        ∨ ({ createdStore s req metadata with DataFilePath := "" } :
        localTaskStore).StoreStrategy = AdvanceLocalTaskStoreStrategy := htag
    exact createData_opens _ _ _ _ _ _ _ htag0 hplace

end storageManager

/-! ## The claims on the files of a store -/

/-- C14, as stated, fails: the manager `NewStorageManager` returns on the disk with one good
and one bad task directory holds the key `(t1, p1)`, whose metadata names no data file (the
path is empty and cannot be opened), and the task directory holds no data entry either. -/
theorem NewStorageManager_store_without_data :
    (exampleReloaded.1.1.bind (fun s => s.tasks.Load exampleKey)).map
        (fun t => (t.DataFilePath, t.dataDir)) = some ("", "/data/t1/p1") ∧
    exampleReloaded.2.1.Open "" = .error (.PathError "open" "" .ENOENT) ∧
    exampleReloaded.2.1.Lstat "/data/t1/p1/data"
      = .error (.PathError "lstat" "/data/t1/p1/data" .ENOENT) := by
  decide

/-- C14, amended. The files of a store exist when `RegisterTask` has created it: after a
successful `RegisterTask` on an absent key the metadata file of the new store can be
opened, and so can the data file named by its `DataFilePath` when the store carries the
Simple or the Advance tag; both still can after any later `RegisterTask`. The reload, for
its part, inserts a store for every peer directory whose metadata file opens, reads and
parses on the disk it scans, with the `DataFilePath` of the parsed document, whether or not
a file exists there. -/
theorem RegisterTask_files_exist (s s1 : storageManager) (now : Nat)
    (req : RegisterTaskRequest) (fs fs1 : FileSystem)
    (habsent : s.tasks.Load ⟨req.PeerID, req.TaskID⟩ = none)
    (hok : s.RegisterTask now req fs = (none, s1, fs1)) :
    (∃ t, s1.tasks.Load ⟨req.PeerID, req.TaskID⟩ = some t ∧
      (∃ f, fs1.Open t.metadataFilePath = .ok f) ∧
      (t.StoreStrategy = SimpleLocalTaskStoreStrategy
        ∨ t.StoreStrategy = AdvanceLocalTaskStoreStrategy →
        ∃ f, fs1.Open t.DataFilePath = .ok f) ∧
      ∀ now2 req2,
        (∃ f, (s1.RegisterTask now2 req2 fs1).2.2.Open t.metadataFilePath = .ok f) ∧
        (t.StoreStrategy = SimpleLocalTaskStoreStrategy
          ∨ t.StoreStrategy = AdvanceLocalTaskStoreStrategy →
          ∃ f, (s1.RegisterTask now2 req2 fs1).2.2.Open t.DataFilePath = .ok f)) ∧
    (∀ (lib : Stdlib) (m : storageManager) (cb : GCCallback) (disk : FileSystem)
        (dirs : List String) (taskID peerID : String) (f : OsFile) (md : persistentMetadata),
      disk.ReadDir m.storeOption.DataPath = .ok dirs →
      (taskID, peerID) ∈ peerDirs disk m.storeOption.DataPath dirs →
      loadMetadata lib disk (pathJoin [m.storeOption.DataPath, taskID, peerID])
        = .ok (f, md) →
      ∃ t, (m.ReloadPersistentTask lib now cb disk).2.1.tasks.Load ⟨peerID, taskID⟩ = some t ∧
        t.DataFilePath = md.DataFilePath ∧ disk.Open t.metadataFilePath = .ok f) := by
  constructor
  · obtain ⟨t, hload, ⟨f, hmeta⟩, hdata⟩ :=
      storageManager.RegisterTask_opens s s1 now req fs fs1 habsent hok
    refine ⟨t, hload, ⟨f, hmeta⟩, hdata, ?_⟩
    intro now2 req2
    have hext := (storageManager.RegisterTask_grows s1 now2 req2 fs1).1
    refine ⟨⟨f, FileSystem.Open_extends hext _ f hmeta⟩, ?_⟩
    intro htag
    obtain ⟨g, hg⟩ := hdata htag
    exact ⟨g, FileSystem.Open_extends hext _ g hg⟩
  · intro lib m cb disk dirs taskID peerID f md hroot hp hl
    have htasks : (m.ReloadPersistentTask lib now cb disk).2.1.tasks =
        (dirs.foldl (storageManager.reloadTaskDir lib m now cb disk) ⟨m.tasks, [], []⟩).tasks := by
      simp only [storageManager.ReloadPersistentTask, hroot]
      split <;> rfl
    refine ⟨reloadedStore m now cb taskID peerID f md, ?_, rfl, ?_⟩
    · rw [htasks, storageManager.scan_flat]
      exact storageManager.scan_Load_of_mem lib m now cb disk _ _ taskID peerID f md hp hl
    · show disk.Open (pathJoin [pathJoin [m.storeOption.DataPath, taskID, peerID],
        taskMetaData]) = .ok f
      simp only [loadMetadata] at hl
      split at hl
      · simp at hl
      · rename_i f0 hopen
        split at hl
        · simp at hl
        · split at hl
          · simp at hl
          · simp only [Except.ok.injEq, Prod.mk.injEq] at hl
            rw [hopen, hl.1]

/-- Witness of C14 as amended, on the registration with the destination `/data/out.bin`
followed by the registration of `(t2, p2)`. -/
theorem RegisterTask_files_exist_witness :
    exampleManager.tasks.Load ⟨exampleNearRequest.PeerID, exampleNearRequest.TaskID⟩ = none ∧
    exampleManager.RegisterTask 5 exampleNearRequest exampleDisk
      = (none, exampleNear.2.1, exampleNear.2.2) ∧
    ∃ t, exampleNear.2.1.tasks.Load ⟨exampleNearRequest.PeerID, exampleNearRequest.TaskID⟩
        = some t ∧
      (∃ f, exampleNear.2.2.Open t.metadataFilePath = .ok f) :=
  ⟨by decide, by decide,
   (RegisterTask_files_exist exampleManager exampleNear.2.1 5 exampleNearRequest
      exampleDisk exampleNear.2.2 (by decide) (by decide)).1.imp
      (fun _ h => ⟨h.1, h.2.1⟩)⟩

/-! ## Lemmas on what a new manager finds -/

namespace FileSystem

theorem lookup_added (added : List (Nat × String)) (ino : Nat)
    (h : ∀ e, e ∈ added → e.2 = "") : (added.lookup ino).getD "" = "" := by
  induction added with
  | nil => rfl
  | cons e l ih =>
    obtain ⟨k, v⟩ := e
    simp only [List.lookup_cons]
    split
    · exact h (k, v) (List.mem_cons_self _ _)
    · exact ih (fun e he => h e (List.mem_cons_of_mem _ he))

theorem AddsEmptyFiles.ReadAll {fs fs1 : FileSystem} (h : fs.AddsEmptyFiles fs1)
    (f : OsFile) : fs1.ReadAll f = fs.ReadAll f := by
  obtain ⟨added, he, hall⟩ := h
  unfold FileSystem.ReadAll
  cases f.node with
  | dir dev => rfl
  | symlink t => rfl
  | file ino =>
    simp only [he, Except.ok.injEq]
    generalize fs.inodes = l
    induction l with
    | nil => simp only [List.nil_append, List.lookup_nil, Option.getD_none]
             exact lookup_added added ino hall
    | cons e l ih =>
      obtain ⟨k, v⟩ := e
      simp only [List.cons_append, List.lookup_cons]
      split
      · rfl
      · exact ih

end FileSystem

namespace storageManager

theorem loadMetadata_empty (lib : Stdlib) (fs : FileSystem) (dataDir : String) (f : OsFile)
    (hopen : fs.Open (pathJoin [dataDir, taskMetaData]) = .ok f)
    (hread : fs.ReadAll f = .ok "") :
    loadMetadata lib fs dataDir = .error (.Errorf "unexpected end of JSON input") := by
  simp only [loadMetadata, hopen, hread, jsonUnmarshal, if_true]

theorem scan_Load_of_fail (lib : Stdlib) (s : storageManager) (now : Nat)
    (cb : GCCallback) (fs : FileSystem) (pairs : List (String × String)) (acc : ReloadScan)
    (taskID peerID : String) (err : GoError)
    (hl : loadMetadata lib fs (pathJoin [s.storeOption.DataPath, taskID, peerID])
      = .error err) :
    (pairs.foldl (fun a p => reloadPeerDir lib s now cb fs p.1 a p.2) acc).tasks.Load
      ⟨peerID, taskID⟩ = acc.tasks.Load ⟨peerID, taskID⟩ := by
  induction pairs generalizing acc with
  | nil => rfl
  | cons p pairs ih =>
    simp only [List.foldl_cons]
    rw [ih, reloadPeerDir_eq]
    cases hp : loadMetadata lib fs (pathJoin [s.storeOption.DataPath, p.1, p.2]) with
    | error e => rfl
    | ok r =>
      obtain ⟨f, md⟩ := r
      refine SyncMap.Load_Store_of_ne _ _ ?_
      intro heq
      have h1 : p.2 = peerID := congrArg PeerTaskMetaData.PeerID heq
      have h2 : p.1 = taskID := congrArg PeerTaskMetaData.TaskID heq
      rw [h1, h2, hl] at hp
      simp at hp

theorem ReloadPersistentTask_tasks (lib : Stdlib) (s : storageManager) (now : Nat)
    (cb : GCCallback) (fs : FileSystem) (dirs : List String)
    (hroot : fs.ReadDir s.storeOption.DataPath = .ok dirs) :
    (s.ReloadPersistentTask lib now cb fs).2.1.tasks =
      ((peerDirs fs s.storeOption.DataPath dirs).foldl
        (fun a p => reloadPeerDir lib s now cb fs p.1 a p.2) ⟨s.tasks, [], []⟩).tasks := by
  rw [← scan_flat]
  simp only [ReloadPersistentTask, hroot]
  split <;> rfl

theorem ReloadPersistentTask_tasks_of_error (lib : Stdlib) (s : storageManager) (now : Nat)
    (cb : GCCallback) (fs : FileSystem) (err : GoError)
    (hroot : fs.ReadDir s.storeOption.DataPath = .error err) :
    (s.ReloadPersistentTask lib now cb fs).2.1.tasks = s.tasks := by
  simp only [ReloadPersistentTask, hroot]
  split <;> rfl

/-- What a manager that starts from an empty map holds after the reload. -/
theorem ReloadPersistentTask_exact (lib : Stdlib) (s : storageManager) (now : Nat)
    (cb : GCCallback) (fs : FileSystem) (dirs : List String)
    (hroot : fs.ReadDir s.storeOption.DataPath = .ok dirs) (hempty : s.tasks = [])
    (taskID peerID : String) (t : localTaskStore) :
    (s.ReloadPersistentTask lib now cb fs).2.1.tasks.Load ⟨peerID, taskID⟩ = some t ↔
      (taskID, peerID) ∈ peerDirs fs s.storeOption.DataPath dirs ∧
      ∃ f md, loadMetadata lib fs (pathJoin [s.storeOption.DataPath, taskID, peerID])
          = .ok (f, md) ∧
        t = reloadedStore s now cb taskID peerID f md := by
  rw [ReloadPersistentTask_tasks lib s now cb fs dirs hroot]
  have hnone : (⟨s.tasks, [], []⟩ : ReloadScan).tasks.Load ⟨peerID, taskID⟩ = none := by
    show s.tasks.Load _ = none
    rw [hempty]; rfl
  by_cases hmem : (taskID, peerID) ∈ peerDirs fs s.storeOption.DataPath dirs
  · cases hl : loadMetadata lib fs (pathJoin [s.storeOption.DataPath, taskID, peerID]) with
    | error err =>
      rw [scan_Load_of_fail lib s now cb fs _ _ taskID peerID err hl, hnone]
      simp
    | ok r =>
      obtain ⟨f, md⟩ := r
      rw [scan_Load_of_mem lib s now cb fs _ _ taskID peerID f md hmem hl]
      constructor
      · intro h
        exact ⟨hmem, f, md, rfl, (Option.some.inj h).symm⟩
      · rintro ⟨_, f1, md1, h1, h2⟩
        simp only [Except.ok.injEq, Prod.mk.injEq] at h1
        rw [h2, ← h1.1, ← h1.2]
  · rw [scan_Load_of_not_mem lib s now cb fs _ _ taskID peerID hmem, hnone]
    simp [hmem]

end storageManager

/-! ## The claims on what a new manager finds -/

/-- C13, as stated, fails: after `RegisterTask(t1, p1)` the manager holds the key, the
metadata file it created is empty, and a new manager on the same data root, with no
`CleanUp` in between, holds no key at all: the reload fails on the empty metadata file,
removes the task directory and logs the error. -/
theorem NewStorageManager_loses_registered_task :
    exampleRegistered.1 = none ∧
    (exampleRegistered.2.1.tasks.Load exampleKey).isSome = true ∧
    exampleRegistered.2.2.Open "/data/t1/p1/task.meta"
      = .ok ⟨"/data/t1/p1/task.meta", .file 1⟩ ∧
    exampleRegistered.2.2.ReadAll ⟨"/data/t1/p1/task.meta", .file 1⟩ = .ok "" ∧
    exampleRestarted.1.1.map (fun s => s.tasks) = some [] ∧
    exampleRestarted.2.1.Lstat "/data/t1/p1"
      = .error (.PathError "lstat" "/data/t1/p1" .ENOENT) ∧
    exampleRestarted.2.2 =
      ["reload tasks error: load tasks from disk error: \"unexpected end of JSON input\""] := by
  decide

/-- C13, amended. Reload fidelity holds for what is on disk, not for what was registered.
A manager that starts from an empty map and reloads a data root holds exactly the keys of
the peer directories whose metadata file opens, reads and parses, each with the metadata
parsed from that file. `RegisterTask` writes no byte: the files it adds are empty and every
file reads as before; so a store it has created, whose metadata file is still empty, is
not held by a new manager that reloads the same data root: the empty file fails to parse
with "unexpected end of JSON input". -/
theorem RegisterTask_not_reloaded (s s1 : storageManager) (now : Nat)
    (req : RegisterTaskRequest) (fs fs1 : FileSystem)
    (habsent : s.tasks.Load ⟨req.PeerID, req.TaskID⟩ = none)
    (hok : s.RegisterTask now req fs = (none, s1, fs1)) :
    (∃ t metadata, s1.tasks.Load ⟨req.PeerID, req.TaskID⟩ = some t ∧
      fs1.Open t.metadataFilePath = .ok metadata ∧
      fs.AddsEmptyFiles fs1 ∧ (∀ f, fs1.ReadAll f = fs.ReadAll f) ∧
      (fs1.ReadAll metadata = .ok "" →
        ∀ (lib : Stdlib) (m : storageManager) (now2 : Nat) (cb : GCCallback),
          m.tasks = [] → m.storeOption.DataPath = s.storeOption.DataPath →
          loadMetadata lib fs1 t.dataDir = .error (.Errorf "unexpected end of JSON input") ∧
          (m.ReloadPersistentTask lib now2 cb fs1).2.1.tasks.Load ⟨req.PeerID, req.TaskID⟩
            = none)) ∧
    (∀ (lib : Stdlib) (m : storageManager) (now2 : Nat) (cb : GCCallback) (disk : FileSystem)
        (dirs : List String) (taskID peerID : String) (t : localTaskStore),
      disk.ReadDir m.storeOption.DataPath = .ok dirs → m.tasks = [] →
      ((m.ReloadPersistentTask lib now2 cb disk).2.1.tasks.Load ⟨peerID, taskID⟩ = some t ↔
        (taskID, peerID) ∈ peerDirs disk m.storeOption.DataPath dirs ∧
        ∃ f md, loadMetadata lib disk (pathJoin [m.storeOption.DataPath, taskID, peerID])
            = .ok (f, md) ∧
          t = reloadedStore m now2 cb taskID peerID f md)) := by
  constructor
  · obtain ⟨metadata, fs2, _, hmeta, hplace, hload⟩ :=
      storageManager.RegisterTask_created s s1 now req fs fs1 habsent hok
    have hgrow := storageManager.RegisterTask_grows s now req fs
    rw [hok] at hgrow
    have hopen : fs1.Open (createdStore s req metadata).metadataFilePath = .ok metadata :=
      FileSystem.Open_extends (storageManager.createData_pair_grows hplace).1 _ metadata hmeta
    refine ⟨createdStore s req metadata, metadata, hload, hopen, hgrow.2,
      fun f => hgrow.2.ReadAll f, ?_⟩
    intro hread lib m now2 cb hempty hpath
    have hfail : loadMetadata lib fs1 (pathJoin [s.storeOption.DataPath, req.TaskID, req.PeerID])
        = .error (.Errorf "unexpected end of JSON input") :=
      storageManager.loadMetadata_empty lib fs1 _ metadata hopen hread
    refine ⟨hfail, ?_⟩
    cases hroot : fs1.ReadDir m.storeOption.DataPath with
    | error err =>
      rw [storageManager.ReloadPersistentTask_tasks_of_error lib m now2 cb fs1 err hroot,
        hempty]
      rfl
    | ok dirs =>
      rw [storageManager.ReloadPersistentTask_tasks lib m now2 cb fs1 dirs hroot,
        storageManager.scan_Load_of_fail lib m now2 cb fs1 _ _ req.TaskID req.PeerID _
          (by rw [hpath]; exact hfail)]
      show m.tasks.Load _ = none
      rw [hempty]
      rfl
  · intro lib m now2 cb disk dirs taskID peerID t hroot hempty
    exact storageManager.ReloadPersistentTask_exact lib m now2 cb disk dirs hroot hempty
      taskID peerID t

/-- Witness of C13 as amended, on the registration of `(t1, p1)` on the fresh manager. -/
theorem RegisterTask_not_reloaded_witness :
    exampleManager.tasks.Load ⟨exampleRequest.PeerID, exampleRequest.TaskID⟩ = none ∧
    exampleManager.RegisterTask 5 exampleRequest exampleDisk
      = (none, exampleRegistered.2.1, exampleRegistered.2.2) ∧
    ∃ t metadata,
      exampleRegistered.2.1.tasks.Load ⟨exampleRequest.PeerID, exampleRequest.TaskID⟩
        = some t ∧
      exampleRegistered.2.2.Open t.metadataFilePath = .ok metadata ∧
      exampleDisk.AddsEmptyFiles exampleRegistered.2.2 :=
  ⟨by decide, by decide,
   (RegisterTask_not_reloaded exampleManager exampleRegistered.2.1 5 exampleRequest
      exampleDisk exampleRegistered.2.2 (by decide) (by decide)).1.imp
      (fun _ h => h.imp (fun _ h1 => ⟨h1.1, h1.2.1, h1.2.2.1⟩))⟩

/-! ## Lemmas on a marked store -/

namespace storageManager

theorem ReadPiece_of_Load (drv : TaskStorageDriver) (s : storageManager) (now : Nat)
    (req : ReadPieceRequest) (fs : FileSystem) (t : localTaskStore)
    (h : s.tasks.Load ⟨req.PeerID, req.TaskID⟩ = some t) :
    (s.ReadPiece drv now req fs).1 = (drv.ReadPiece now t req fs).1 := by
  simp only [ReadPiece, LoadTask, h]

theorem ReadPiece_of_absent (drv : TaskStorageDriver) (s : storageManager) (now : Nat)
    (req : ReadPieceRequest) (fs : FileSystem)
    (h : s.tasks.Load ⟨req.PeerID, req.TaskID⟩ = none) :
    (s.ReadPiece drv now req fs).1 = (none, none, some .ErrTaskNotFound) := by
  simp only [ReadPiece, LoadTask, h]

theorem GetPieces_of_Load (drv : TaskStorageDriver) (s : storageManager) (now : Nat)
    (req : PieceTaskRequest) (fs : FileSystem) (t : localTaskStore)
    (h : s.tasks.Load ⟨req.DstPid, req.TaskId⟩ = some t) :
    (s.GetPieces drv now req fs).1 = (drv.GetPieces now t req fs).1 := by
  simp only [GetPieces, LoadTask, h]

theorem GetPieces_of_absent (drv : TaskStorageDriver) (s : storageManager) (now : Nat)
    (req : PieceTaskRequest) (fs : FileSystem)
    (h : s.tasks.Load ⟨req.DstPid, req.TaskId⟩ = none) :
    (s.GetPieces drv now req fs).1 = (none, some .ErrTaskNotFound) := by
  simp only [GetPieces, LoadTask, h]

end storageManager

/-! ## Lemmas on the reads of a marked store -/

theorem specReadPiece_store (now : Nat) (t : localTaskStore) (req : ReadPieceRequest)
    (fs : FileSystem) : (specReadPiece now t req fs).2.1 = { t with lastAccess := now } := by
  unfold specReadPiece
  repeat' split
  all_goals rfl

theorem specReadPiece_marked (now : Nat) (t : localTaskStore) (req : ReadPieceRequest)
    (fs : FileSystem) (h : t.reclaimMarked = true) :
    (specReadPiece now t req fs).1 = (none, none, some ErrShutdown) := by
  simp [specReadPiece, h]

theorem specGetPieces_store (now : Nat) (t : localTaskStore) (req : PieceTaskRequest)
    (fs : FileSystem) : (specGetPieces now t req fs).2.1 = { t with lastAccess := now } := by
  unfold specGetPieces
  repeat' split
  all_goals rfl

theorem specGetPieces_marked (now : Nat) (t : localTaskStore) (req : PieceTaskRequest)
    (fs : FileSystem) (h : t.reclaimMarked = true) :
    (specGetPieces now t req fs).1 = (none, some ErrShutdown) := by
  simp [specGetPieces, h]

/-- The store of `(t1, p1)`, not marked, serves its piece 0: the reader yields the five
bytes of the data file, the closer is that file. -/
theorem specReadPiece_serves_unmarked :
    (specReadPiece 10 examplePieceStore examplePieceRequest examplePieceDisk).1
      = (some "hello", some ⟨"/data/t1/p1/data", .file 2⟩, none) := by
  decide

/-- The store of `(t1, p1)`, not marked, lists its one piece; once marked, it refuses. -/
theorem specGetPieces_serves_unmarked :
    ((specGetPieces 10 examplePieceStore examplePiecesRequest examplePieceDisk).1.1.map
        (fun p => p.PieceInfos) = some [examplePiece]) ∧
    (specGetPieces 10 (specMarkReclaim examplePieceStore) examplePiecesRequest
        examplePieceDisk).1 = (none, some ErrShutdown) := by
  decide

namespace storageManager

theorem TryGC_marks (rc : Reclaimer) (s : storageManager) (now : Nat) (fs : FileSystem)
    (key : PeerTaskMetaData) (t : localTaskStore)
    (hload : s.tasks.Load key = some t) (hcan : rc.CanReclaim now t = true) :
    key ∈ markedKeys (s.TryGC rc now fs).2.2.2 ∧
    (s.TryGC rc now fs).2.1.tasks.Load key
      = if key ∈ s.markedReclaimTasks then none else some (rc.MarkReclaim t) := by
  have hmem : key ∈ markedTasks rc now s.tasks :=
    (mem_markedTasks rc now s.tasks key).mpr ⟨t, SyncMap.mem_of_Load hload, hcan⟩
  refine ⟨?_, ?_⟩
  · show key ∈ markedKeys (s.markedReclaimTasks.foldl (sweepKey rc)
      (markTasks rc now s.tasks, fs, markCalls rc now s.tasks)).2.2
    rw [sweep_markedKeys, markCalls_markedKeys]
    exact hmem
  · show (s.markedReclaimTasks.foldl (sweepKey rc)
      (markTasks rc now s.tasks, fs, markCalls rc now s.tasks)).1.Load key = _
    by_cases hk : key ∈ s.markedReclaimTasks
    · rw [if_pos hk, sweep_Load_of_mem rc _ _ hk]
    · rw [if_neg hk, sweep_Load_of_not_mem rc _ _ hk, Load_markTasks, hload]
      simp [hcan]

theorem TryGC_keeps_marked (rc : Reclaimer) (hmark : rc.MarkReclaim = specMarkReclaim)
    (s : storageManager) (now : Nat) (fs : FileSystem) (key : PeerTaskMetaData)
    (h : ∀ t, s.tasks.Load key = some t → t.reclaimMarked = true) :
    ∀ t, (s.TryGC rc now fs).2.1.tasks.Load key = some t → t.reclaimMarked = true := by
  intro t ht
  have ht : (s.markedReclaimTasks.foldl (sweepKey rc)
      (markTasks rc now s.tasks, fs, markCalls rc now s.tasks)).1.Load key = some t := ht
  by_cases hk : key ∈ s.markedReclaimTasks
  · rw [sweep_Load_of_mem rc _ _ hk] at ht
    exact absurd ht (by simp)
  · rw [sweep_Load_of_not_mem rc _ _ hk, Load_markTasks] at ht
    cases hl : s.tasks.Load key with
    | none => rw [hl] at ht; exact absurd ht (by simp)
    | some t0 =>
      rw [hl] at ht
      simp only [Option.map_some'] at ht
      injection ht with ht
      subst ht
      by_cases hc : rc.CanReclaim now t0 = true
      · rw [if_pos hc, hmark]; rfl
      · rw [if_neg hc]; exact h t0 hl

theorem ReadPiece_keeps_marked (drv : TaskStorageDriver) (hread : drv.ReadPiece = specReadPiece)
    (s : storageManager) (now : Nat) (req : ReadPieceRequest) (fs : FileSystem)
    (key : PeerTaskMetaData)
    (h : ∀ t, s.tasks.Load key = some t → t.reclaimMarked = true) :
    ∀ t, (s.ReadPiece drv now req fs).2.1.tasks.Load key = some t →
      t.reclaimMarked = true := by
  intro t ht
  cases hl : s.tasks.Load ⟨req.PeerID, req.TaskID⟩ with
  | none =>
    have hs : (s.ReadPiece drv now req fs).2.1.tasks = s.tasks := by
      simp [ReadPiece, LoadTask, hl, Keep]
    rw [hs] at ht
    exact h t ht
  | some t0 =>
    have hs : (s.ReadPiece drv now req fs).2.1.tasks
        = s.tasks.Store ⟨req.PeerID, req.TaskID⟩ { t0 with lastAccess := now } := by
      simp [ReadPiece, LoadTask, hl, Keep, hread, specReadPiece_store]
    rw [hs] at ht
    by_cases hk : (⟨req.PeerID, req.TaskID⟩ : PeerTaskMetaData) = key
    · rw [hk] at ht hl
      rw [SyncMap.Load_Store_self] at ht
      injection ht with ht
      subst ht
      exact h t0 hl
    · rw [SyncMap.Load_Store_of_ne _ _ hk] at ht
      exact h t ht

theorem GetPieces_keeps_marked (drv : TaskStorageDriver) (hget : drv.GetPieces = specGetPieces)
    (s : storageManager) (now : Nat) (req : PieceTaskRequest) (fs : FileSystem)
    (key : PeerTaskMetaData)
    (h : ∀ t, s.tasks.Load key = some t → t.reclaimMarked = true) :
    ∀ t, (s.GetPieces drv now req fs).2.1.tasks.Load key = some t →
      t.reclaimMarked = true := by
  intro t ht
  cases hl : s.tasks.Load ⟨req.DstPid, req.TaskId⟩ with
  | none =>
    have hs : (s.GetPieces drv now req fs).2.1.tasks = s.tasks := by
      simp [GetPieces, LoadTask, hl, Keep]
    rw [hs] at ht
    exact h t ht
  | some t0 =>
    have hs : (s.GetPieces drv now req fs).2.1.tasks
        = s.tasks.Store ⟨req.DstPid, req.TaskId⟩ { t0 with lastAccess := now } := by
      simp [GetPieces, LoadTask, hl, Keep, hget, specGetPieces_store]
    rw [hs] at ht
    by_cases hk : (⟨req.DstPid, req.TaskId⟩ : PeerTaskMetaData) = key
    · rw [hk] at ht hl
      rw [SyncMap.Load_Store_self] at ht
      injection ht with ht
      subst ht
      exact h t0 hl
    · rw [SyncMap.Load_Store_of_ne _ _ hk] at ht
      exact h t ht

theorem afterCalls_keeps_marked (rc : Reclaimer) (drv : TaskStorageDriver)
    (hmark : rc.MarkReclaim = specMarkReclaim) (hread : drv.ReadPiece = specReadPiece)
    (hget : drv.GetPieces = specGetPieces) (key : PeerTaskMetaData)
    (calls : List LaterCall) (s : storageManager) (fs : FileSystem)
    (h : ∀ t, s.tasks.Load key = some t → t.reclaimMarked = true) :
    ∀ t, (s.afterCalls rc drv fs calls).1.tasks.Load key = some t →
      t.reclaimMarked = true := by
  induction calls generalizing s fs with
  | nil => exact h
  | cons c rest ih =>
    cases c with
    | ReadPiece now req =>
      exact ih _ _ (ReadPiece_keeps_marked drv hread s now req fs key h)
    | GetPieces now req =>
      exact ih _ _ (GetPieces_keeps_marked drv hget s now req fs key h)
    | TryGC now =>
      exact ih _ _ (TryGC_keeps_marked rc hmark s now fs key h)

theorem ReadPiece_refused (drv : TaskStorageDriver) (hread : drv.ReadPiece = specReadPiece)
    (s : storageManager) (now : Nat) (req : ReadPieceRequest) (fs : FileSystem)
    (h : ∀ t, s.tasks.Load ⟨req.PeerID, req.TaskID⟩ = some t → t.reclaimMarked = true) :
    (s.ReadPiece drv now req fs).1 = (none, none, some ErrShutdown) ∨
    (s.ReadPiece drv now req fs).1 = (none, none, some .ErrTaskNotFound) := by
  cases hl : s.tasks.Load ⟨req.PeerID, req.TaskID⟩ with
  | none => exact Or.inr (ReadPiece_of_absent drv s now req fs hl)
  | some t =>
    refine Or.inl ?_
    rw [ReadPiece_of_Load drv s now req fs t hl, hread]
    exact specReadPiece_marked now t req fs (h t hl)

theorem GetPieces_refused (drv : TaskStorageDriver) (hget : drv.GetPieces = specGetPieces)
    (s : storageManager) (now : Nat) (req : PieceTaskRequest) (fs : FileSystem)
    (h : ∀ t, s.tasks.Load ⟨req.DstPid, req.TaskId⟩ = some t → t.reclaimMarked = true) :
    (s.GetPieces drv now req fs).1 = (none, some ErrShutdown) ∨
    (s.GetPieces drv now req fs).1 = (none, some .ErrTaskNotFound) := by
  cases hl : s.tasks.Load ⟨req.DstPid, req.TaskId⟩ with
  | none => exact Or.inr (GetPieces_of_absent drv s now req fs hl)
  | some t =>
    refine Or.inl ?_
    rw [GetPieces_of_Load drv s now req fs t hl, hget]
    exact specGetPieces_marked now t req fs (h t hl)

end storageManager

/-! ## The claim on a marked store -/

/-- C15. With the methods of the task store as the spec describes them, a task marked for
reclaim is not served to new readers. Once a `TryGC` call has called `MarkReclaim` on the
store of a key, a manager `ReadPiece` or `GetPieces` for that key, at any later instant and
on any disk, after any number of further reads and rounds of GC, hands out no reader, no
closer and no pieces: it ends in `ErrShutdown`, the refusal of the marked store, or in
`ErrTaskNotFound`, when the store has left the tasks map. Right after the marking call the
error is `ErrShutdown` when the previous round had not listed the key, and
`ErrTaskNotFound` when it had, since that same call then swept the store. -/
theorem TryGC_marked_store_not_served (rc : Reclaimer) (drv : TaskStorageDriver)
    (s : storageManager) (now : Nat) (fs : FileSystem) (key : PeerTaskMetaData)
    (t : localTaskStore)
    (hmark : rc.MarkReclaim = specMarkReclaim)
    (hread : drv.ReadPiece = specReadPiece) (hget : drv.GetPieces = specGetPieces)
    (hload : s.tasks.Load key = some t) (hcan : rc.CanReclaim now t = true) :
    key ∈ markedKeys (s.TryGC rc now fs).2.2.2 ∧
    (∀ (calls : List LaterCall) (now2 : Nat) (req : ReadPieceRequest) (fs2 : FileSystem),
      (⟨req.PeerID, req.TaskID⟩ : PeerTaskMetaData) = key →
      (((s.TryGC rc now fs).2.1.afterCalls rc drv (s.TryGC rc now fs).2.2.1 calls).1.ReadPiece
          drv now2 req fs2).1 = (none, none, some ErrShutdown) ∨
      (((s.TryGC rc now fs).2.1.afterCalls rc drv (s.TryGC rc now fs).2.2.1 calls).1.ReadPiece
          drv now2 req fs2).1 = (none, none, some .ErrTaskNotFound)) ∧
    (∀ (calls : List LaterCall) (now2 : Nat) (req : PieceTaskRequest) (fs2 : FileSystem),
      (⟨req.DstPid, req.TaskId⟩ : PeerTaskMetaData) = key →
      (((s.TryGC rc now fs).2.1.afterCalls rc drv (s.TryGC rc now fs).2.2.1 calls).1.GetPieces
          drv now2 req fs2).1 = (none, some ErrShutdown) ∨
      (((s.TryGC rc now fs).2.1.afterCalls rc drv (s.TryGC rc now fs).2.2.1 calls).1.GetPieces
          drv now2 req fs2).1 = (none, some .ErrTaskNotFound)) ∧
    (∀ (now2 : Nat) (req : ReadPieceRequest) (fs2 : FileSystem),
      (⟨req.PeerID, req.TaskID⟩ : PeerTaskMetaData) = key →
      ((s.TryGC rc now fs).2.1.ReadPiece drv now2 req fs2).1
        = (none, none,
            some (if key ∈ s.markedReclaimTasks then .ErrTaskNotFound else ErrShutdown))) ∧
    (∀ (now2 : Nat) (req : PieceTaskRequest) (fs2 : FileSystem),
      (⟨req.DstPid, req.TaskId⟩ : PeerTaskMetaData) = key →
      ((s.TryGC rc now fs).2.1.GetPieces drv now2 req fs2).1
        = (none,
            some (if key ∈ s.markedReclaimTasks then .ErrTaskNotFound else ErrShutdown))) := by
  obtain ⟨hcalls, hafter⟩ := storageManager.TryGC_marks rc s now fs key t hload hcan
  have hinv : ∀ t1, (s.TryGC rc now fs).2.1.tasks.Load key = some t1 →
      t1.reclaimMarked = true := by
    intro t1 ht1
    rw [hafter] at ht1
    by_cases hk : key ∈ s.markedReclaimTasks
    · rw [if_pos hk] at ht1
      exact absurd ht1 (by simp)
    · rw [if_neg hk] at ht1
      injection ht1 with ht1
      subst ht1
      rw [hmark]
      rfl
  refine ⟨hcalls, ?_, ?_, ?_, ?_⟩
  · intro calls now2 req fs2 hkey
    refine storageManager.ReadPiece_refused drv hread _ now2 req fs2 ?_
    rw [hkey]
    exact storageManager.afterCalls_keeps_marked rc drv hmark hread hget key calls _ _ hinv
  · intro calls now2 req fs2 hkey
    refine storageManager.GetPieces_refused drv hget _ now2 req fs2 ?_
    rw [hkey]
    exact storageManager.afterCalls_keeps_marked rc drv hmark hread hget key calls _ _ hinv
  · intro now2 req fs2 hkey
    by_cases hk : key ∈ s.markedReclaimTasks
    · rw [if_pos hk]
      refine storageManager.ReadPiece_of_absent drv _ now2 req fs2 ?_
      rw [hkey, hafter, if_pos hk]
    · rw [if_neg hk,
        storageManager.ReadPiece_of_Load drv _ now2 req fs2 (rc.MarkReclaim t)
          (by rw [hkey, hafter, if_neg hk]), hread]
      exact specReadPiece_marked now2 _ req fs2 (by rw [hmark]; rfl)
  · intro now2 req fs2 hkey
    by_cases hk : key ∈ s.markedReclaimTasks
    · rw [if_pos hk]
      refine storageManager.GetPieces_of_absent drv _ now2 req fs2 ?_
      rw [hkey, hafter, if_pos hk]
    · rw [if_neg hk,
        storageManager.GetPieces_of_Load drv _ now2 req fs2 (rc.MarkReclaim t)
          (by rw [hkey, hafter, if_neg hk]), hget]
      exact specGetPieces_marked now2 _ req fs2 (by rw [hmark]; rfl)

/-- Witness of C15, on the manager that holds the store with one piece: the `TryGC` at
instant 200 marks the store of `(t1, p1)`, and the `ReadPiece` and the `GetPieces` at
instant 210 end in `ErrShutdown`, with no reader, no closer and no packet. -/
theorem TryGC_marked_store_not_served_witness :
    ∃ drv : TaskStorageDriver,
      specReclaimer.MarkReclaim = specMarkReclaim ∧
      drv.ReadPiece = specReadPiece ∧ drv.GetPieces = specGetPieces ∧
      examplePieceManager.tasks.Load exampleKey = some examplePieceStore ∧
      specReclaimer.CanReclaim 200 examplePieceStore = true ∧
      exampleKey ∈ markedKeys examplePieceMarked.2.2.2 ∧
      (examplePieceMarked.2.1.ReadPiece drv 210 examplePieceRequest
          examplePieceMarked.2.2.1).1 = (none, none, some ErrShutdown) ∧
      (examplePieceMarked.2.1.GetPieces drv 210 examplePiecesRequest
          examplePieceMarked.2.2.1).1 = (none, some ErrShutdown) :=
  let drv : TaskStorageDriver :=
    { ReadPiece := specReadPiece,
      GetPieces := specGetPieces,
      WritePiece := fun _ t _ fs => ((0, none), t, fs),
      UpdateTask := fun _ t _ fs => (none, t, fs),
      Store := fun _ t _ fs => (none, t, fs) }
  ⟨drv, rfl, rfl, rfl, by decide, by decide,
   (TryGC_marked_store_not_served specReclaimer drv examplePieceManager 200 examplePieceDisk
      exampleKey examplePieceStore rfl rfl rfl (by decide) (by decide)).1,
   (TryGC_marked_store_not_served specReclaimer drv examplePieceManager 200 examplePieceDisk
      exampleKey examplePieceStore rfl rfl rfl (by decide) (by decide)).2.2.2.1
      210 examplePieceRequest examplePieceMarked.2.2.1 rfl,
   (TryGC_marked_store_not_served specReclaimer drv examplePieceManager 200 examplePieceDisk
      exampleKey examplePieceStore rfl rfl rfl (by decide) (by decide)).2.2.2.2
      210 examplePiecesRequest examplePieceMarked.2.2.1 rfl⟩

/-! ## Lemmas on a shrinking disk -/

namespace FileSystem

theorem lookup_filter_key (l : List (String × Node)) (keep : String → Bool) (p : String) :
    (l.filter (fun e => keep e.1)).lookup p = if keep p = true then l.lookup p else none := by
  induction l with
  | nil => simp
  | cons e l ih =>
    obtain ⟨k, v⟩ := e
    by_cases hk : keep k = true
    · rw [List.filter_cons_of_pos (by simpa using hk), lookup_consList, lookup_consList, ih]
      by_cases hp : p = k
      · subst hp; simp [hk]
      · simp [hp]
    · rw [List.filter_cons_of_neg (by simpa using hk), lookup_consList, ih]
      by_cases hp : p = k
      · subst hp; simp [hk]
      · simp [hp]

theorem lookup_of_ne_root (fs : FileSystem) (p : String) (h : p ≠ "/") :
    fs.lookup p = fs.nodes.lookup p := by
  simp [lookup, h]

theorem abs_congr (fs fs1 : FileSystem) (h : fs1.cwd = fs.cwd) (name : String) :
    fs1.abs name = fs.abs name := by
  simp only [abs, h]

theorem Unlinks.unlinks_refl (fs : FileSystem) (paths : List String) : fs.Unlinks fs paths :=
  ⟨rfl, rfl, rfl, fun _ => true, by simp, fun _ _ => rfl⟩

theorem Unlinks.mono {fs fs1 : FileSystem} {ps qs : List String} (h : fs.Unlinks fs1 ps)
    (hsub : ∀ p, p ∈ ps → p ∈ qs) : fs.Unlinks fs1 qs := by
  obtain ⟨h1, h2, h3, keep, h4, h5⟩ := h
  exact ⟨h1, h2, h3, keep, h4, fun p hp => h5 p (fun hm => hp (hsub p hm))⟩

theorem Unlinks.unlinks_trans {a b c : FileSystem} {ps qs : List String} (h1 : a.Unlinks b ps)
    (h2 : b.Unlinks c qs) : a.Unlinks c (ps ++ qs) := by
  obtain ⟨a1, a2, a3, keep1, a4, a5⟩ := h1
  obtain ⟨b1, b2, b3, keep2, b4, b5⟩ := h2
  refine ⟨b1.trans a1, b2.trans a2, b3.trans a3, fun p => keep1 p && keep2 p, ?_, ?_⟩
  · rw [b4, a4, List.filter_filter]
    congr 1
    funext e
    exact Bool.and_comm _ _
  · intro p hp
    have hp1 : p ∉ ps := fun hm => hp (List.mem_append_left _ hm)
    have hp2 : p ∉ qs := fun hm => hp (List.mem_append_right _ hm)
    simp [a5 p hp1, b5 p hp2]

theorem Unlinks.nodes_lookup {fs fs1 : FileSystem} {ps : List String} (h : fs.Unlinks fs1 ps)
    (p : String) : fs1.nodes.lookup p = fs.nodes.lookup p ∨ fs1.nodes.lookup p = none := by
  obtain ⟨_, _, _, keep, h4, _⟩ := h
  rw [h4, lookup_filter_key]
  by_cases hk : keep p = true
  · left; simp [hk]
  · right; simp [hk]

theorem Unlinks.nodes_lookup_none {fs fs1 : FileSystem} {ps : List String}
    (h : fs.Unlinks fs1 ps) (p : String) (hn : fs.nodes.lookup p = none) :
    fs1.nodes.lookup p = none := by
  rcases h.nodes_lookup p with h1 | h1
  · rw [h1, hn]
  · exact h1

theorem Unlinks.nodes_lookup_some {fs fs1 : FileSystem} {ps : List String}
    (h : fs.Unlinks fs1 ps) (p : String) (nd : Node) (hn : fs1.nodes.lookup p = some nd) :
    fs.nodes.lookup p = some nd := by
  rcases h.nodes_lookup p with h1 | h1
  · rw [← h1, hn]
  · rw [h1] at hn; simp at hn

theorem Unlinks.lookup_some {fs fs1 : FileSystem} {ps : List String}
    (h : fs.Unlinks fs1 ps) (p : String) (nd : Node) (hn : fs1.lookup p = some nd) :
    fs.lookup p = some nd := by
  unfold lookup at hn ⊢
  rw [h.2.1] at hn
  split
  · rename_i hp
    rw [if_pos hp] at hn
    exact hn
  · rename_i hp
    rw [if_neg hp] at hn
    exact h.nodes_lookup_some p nd hn

theorem Unlinks.lookup_frame {fs fs1 : FileSystem} {ps : List String}
    (h : fs.Unlinks fs1 ps) (p : String) (hp : p ∉ ps) : fs1.lookup p = fs.lookup p := by
  obtain ⟨_, h2, _, keep, h4, h5⟩ := h
  unfold lookup
  rw [h2, h4, lookup_filter_key, h5 p hp]
  simp

theorem Unlinks.mem {fs fs1 : FileSystem} {ps : List String} (h : fs.Unlinks fs1 ps)
    (e : String × Node) (he : e ∈ fs1.nodes) : e ∈ fs.nodes := by
  obtain ⟨_, _, _, keep, h4, _⟩ := h
  rw [h4] at he
  exact (List.mem_filter.mp he).1

theorem Unlinks.not_dir {fs fs1 : FileSystem} {ps : List String} (h : fs.Unlinks fs1 ps)
    (p : String) (hn : ∀ dev, fs.nodes.lookup p ≠ some (.dir dev)) :
    ∀ dev, fs1.nodes.lookup p ≠ some (.dir dev) :=
  fun dev hd => hn dev (h.nodes_lookup_some p _ hd)

theorem Unlinks.abs {fs fs1 : FileSystem} {ps : List String} (h : fs.Unlinks fs1 ps)
    (name : String) : fs1.abs name = fs.abs name :=
  abs_congr fs fs1 h.1 name

theorem Unlinks.Lstat {fs fs1 : FileSystem} {ps : List String} (h : fs.Unlinks fs1 ps)
    (name : String) (nd : Node) (hl : fs1.Lstat name = .ok nd) : fs.Lstat name = .ok nd := by
  unfold FileSystem.Lstat at hl ⊢
  rw [h.abs name] at hl
  cases ha : fs.abs name with
  | none => rw [ha] at hl; simp at hl
  | some p =>
    rw [ha] at hl
    simp only [] at hl ⊢
    cases hp : fs1.lookup p with
    | none => rw [hp] at hl; simp at hl
    | some nd1 =>
      rw [hp] at hl
      simp only [Except.ok.injEq] at hl
      rw [h.lookup_some p nd1 hp, hl]

theorem unlink_at (fs : FileSystem) (p : String) :
    fs.Unlinks { fs with nodes := fs.nodes.filter (fun e => e.1 ≠ p) } [p] := by
  refine ⟨rfl, rfl, rfl, fun k => decide (k ≠ p), rfl, ?_⟩
  intro q hq
  simpa using hq

theorem Remove_unlinks (fs : FileSystem) (name : String) :
    fs.Unlinks (fs.Remove name).2 (fs.abs name).toList := by
  unfold Remove
  cases ha : fs.abs name with
  | none => exact Unlinks.unlinks_refl fs _
  | some p =>
    simp only [Option.toList]
    repeat' split
    all_goals first
      | exact Unlinks.unlinks_refl fs _
      | exact unlink_at fs p

theorem lookup_unlink_at (l : List (String × Node)) (p : String) :
    (l.filter (fun e => e.1 ≠ p)).lookup p = none := by
  have h := lookup_filter_key l (fun k => decide (k ≠ p)) p
  simpa using h

theorem Remove_gone (fs : FileSystem) (name p : String) (habs : fs.abs name = some p)
    (hnd : ∀ dev, fs.nodes.lookup p ≠ some (.dir dev)) :
    (fs.Remove name).2.nodes.lookup p = none := by
  unfold Remove
  rw [habs]
  simp only []
  split
  · rename_i hl; exact hl
  · rename_i dev hl; exact absurd hl (hnd dev)
  · exact lookup_unlink_at fs.nodes p

theorem sortNames_nil_of_nil (l : List String) (h : l = []) : sortNames l = [] := by
  subst h; rfl

theorem Remove_dir_gone (fs : FileSystem) (name p : String) (habs : fs.abs name = some p)
    (hempty : ∀ e, e ∈ fs.nodes → pathDir e.1 ≠ p) :
    (fs.Remove name).2.nodes.lookup p = none := by
  have hent : fs.entries p = [] := by
    unfold entries
    apply sortNames_nil_of_nil
    rw [List.map_eq_nil_iff, List.filter_eq_nil_iff]
    intro e he
    simp [hempty e he]
  unfold Remove
  rw [habs]
  simp only []
  split
  · rename_i hl; exact hl
  · rw [if_pos hent]
    exact lookup_unlink_at fs.nodes p
  · exact lookup_unlink_at fs.nodes p

end FileSystem

/-! ## Lemmas on the removal of a directory that failed to load -/

namespace storageManager

theorem removeLoadErrDir_eq (fs : FileSystem) (dir : String) :
    removeLoadErrDir fs dir =
      ((removeLoadErrData (fs.Remove (pathJoin [dir, taskMetaData])).2
        (pathJoin [dir, taskData])).Remove dir).2 := rfl

theorem Readlink_of_Lstat (fs : FileSystem) (name t : String)
    (h : fs.Lstat name = .ok (.symlink t)) : fs.Readlink name = .ok t := by
  unfold FileSystem.Lstat at h
  unfold FileSystem.Readlink
  cases ha : fs.abs name with
  | none => rw [ha] at h; simp at h
  | some p =>
    rw [ha] at h
    simp only [] at h ⊢
    cases hp : fs.lookup p with
    | none => rw [hp] at h; simp at h
    | some nd =>
      rw [hp] at h
      simp only [Except.ok.injEq] at h
      rw [h]

theorem nodes_lookup_of_Lstat_error (fs : FileSystem) (name p : String) (e : GoError)
    (habs : fs.abs name = some p) (h : fs.Lstat name = .error e) :
    fs.nodes.lookup p = none := by
  unfold FileSystem.Lstat at h
  rw [habs] at h
  simp only [] at h
  cases hp : fs.lookup p with
  | some nd => rw [hp] at h; simp at h
  | none =>
    unfold FileSystem.lookup at hp
    split at hp
    · simp at hp
    · exact hp

theorem Lstat_of_nodes_lookup (fs : FileSystem) (name p : String) (nd : Node)
    (habs : fs.abs name = some p) (hp : p ≠ "/") (h : fs.nodes.lookup p = some nd) :
    fs.Lstat name = .ok nd := by
  unfold FileSystem.Lstat
  rw [habs]
  simp only []
  rw [FileSystem.lookup_of_ne_root fs p hp, h]

/-- The disk before the data entry itself is removed: the disk at hand, possibly without
what the text of the link names. -/
theorem removeTarget_unlinks (fs1 : FileSystem) (data : String) (stat : Node) :
    ∃ ps, fs1.Unlinks
      (if stat.IsSymlink then
        match fs1.Readlink data with
        | .ok dest => (fs1.Remove dest).2
        | .error _ => fs1
      else fs1) ps := by
  split
  · split
    · rename_i dest _
      exact ⟨_, FileSystem.Remove_unlinks fs1 dest⟩
    · exact ⟨[], FileSystem.Unlinks.unlinks_refl fs1 _⟩
  · exact ⟨[], FileSystem.Unlinks.unlinks_refl fs1 _⟩

theorem removeLoadErrData_unlinks (fs1 : FileSystem) (data : String) :
    fs1.Unlinks (removeLoadErrData fs1 data)
      ((match fs1.Lstat data with
        | .ok (.symlink dest) => (fs1.abs dest).toList
        | _ => []) ++ (fs1.abs data).toList) := by
  unfold removeLoadErrData
  cases hl : fs1.Lstat data with
  | error e => exact FileSystem.Unlinks.unlinks_refl _ _
  | ok stat =>
    cases stat with
    | dir dev =>
      exact (FileSystem.Unlinks.unlinks_refl fs1 []).unlinks_trans (FileSystem.Remove_unlinks fs1 data)
    | file ino =>
      exact (FileSystem.Unlinks.unlinks_refl fs1 []).unlinks_trans (FileSystem.Remove_unlinks fs1 data)
    | symlink t =>
      simp only [Node.IsSymlink, if_true, Readlink_of_Lstat fs1 data t hl]
      have h1 := FileSystem.Remove_unlinks fs1 t
      have h2 := FileSystem.Remove_unlinks (fs1.Remove t).2 data
      rw [h1.abs data] at h2
      exact h1.unlinks_trans h2

theorem removeLoadErrData_gone (fs1 : FileSystem) (data pd : String)
    (habs : fs1.abs data = some pd)
    (hnd : ∀ dev, fs1.nodes.lookup pd ≠ some (.dir dev)) :
    (removeLoadErrData fs1 data).nodes.lookup pd = none := by
  unfold removeLoadErrData
  cases hl : fs1.Lstat data with
  | error e => exact nodes_lookup_of_Lstat_error fs1 data pd e habs hl
  | ok stat =>
    simp only []
    obtain ⟨ps, hU⟩ := removeTarget_unlinks fs1 data stat
    exact FileSystem.Remove_gone _ data pd (by rw [hU.abs data]; exact habs)
      (hU.not_dir pd hnd)

theorem removeLoadErrData_target_gone (fs1 : FileSystem) (data t pt : String)
    (hl : fs1.Lstat data = .ok (.symlink t)) (habs : fs1.abs t = some pt)
    (hnd : ∀ dev, fs1.nodes.lookup pt ≠ some (.dir dev)) :
    (removeLoadErrData fs1 data).nodes.lookup pt = none := by
  unfold removeLoadErrData
  simp only [hl, Node.IsSymlink, if_true, Readlink_of_Lstat fs1 data t hl]
  exact (FileSystem.Remove_unlinks (fs1.Remove t).2 data).nodes_lookup_none pt
    (FileSystem.Remove_gone fs1 t pt habs hnd)

theorem removalPaths_mono {fs fs1 : FileSystem} {ps : List String} (h : fs.Unlinks fs1 ps)
    (dir : String) : ∀ p, p ∈ removalPaths fs1 dir → p ∈ removalPaths fs dir := by
  intro p hp
  unfold removalPaths at hp ⊢
  rw [h.abs, h.abs, h.abs] at hp
  simp only [List.mem_append] at hp ⊢
  rcases hp with (hp | hp | hp) | hp
  · exact Or.inl (Or.inl hp)
  · refine Or.inl (Or.inr (Or.inl ?_))
    cases hl : fs1.Lstat (pathJoin [dir, taskData]) with
    | error e => rw [hl] at hp; simp at hp
    | ok nd =>
      cases nd with
      | dir dev => rw [hl] at hp; simp at hp
      | file ino => rw [hl] at hp; simp at hp
      | symlink t =>
        rw [hl] at hp
        rw [h.Lstat _ _ hl]
        simp only [] at hp ⊢
        rw [h.abs] at hp
        exact hp
  · exact Or.inl (Or.inr (Or.inr hp))
  · exact Or.inr hp

theorem removeLoadErrDir_unlinks (fs : FileSystem) (dir : String) :
    fs.Unlinks (removeLoadErrDir fs dir) (removalPaths fs dir) := by
  rw [removeLoadErrDir_eq]
  have h1 := FileSystem.Remove_unlinks fs (pathJoin [dir, taskMetaData])
  have h2 := removeLoadErrData_unlinks (fs.Remove (pathJoin [dir, taskMetaData])).2
    (pathJoin [dir, taskData])
  have h3 := FileSystem.Remove_unlinks
    (removeLoadErrData (fs.Remove (pathJoin [dir, taskMetaData])).2
      (pathJoin [dir, taskData])) dir
  have h12 := h1.unlinks_trans h2
  rw [h12.abs dir] at h3
  refine (h12.unlinks_trans h3).mono ?_
  intro p hp
  unfold removalPaths
  simp only [List.mem_append] at hp ⊢
  rcases hp with (hp | hp | hp) | hp
  · exact Or.inl (Or.inl hp)
  · refine Or.inl (Or.inr (Or.inl ?_))
    cases hl : (fs.Remove (pathJoin [dir, taskMetaData])).2.Lstat (pathJoin [dir, taskData]) with
    | error e => rw [hl] at hp; simp at hp
    | ok nd =>
      cases nd with
      | dir dev => rw [hl] at hp; simp at hp
      | file ino => rw [hl] at hp; simp at hp
      | symlink t =>
        rw [hl] at hp
        rw [h1.Lstat _ _ hl]
        simp only [] at hp ⊢
        rw [h1.abs] at hp
        exact hp
  · rw [h1.abs] at hp
    exact Or.inl (Or.inr (Or.inr hp))
  · exact Or.inr hp

theorem removeLoop_unlinks (fs : FileSystem) (l : List String) (fs0 : FileSystem)
    (ps : List String) (h : fs.Unlinks fs0 ps) :
    fs.Unlinks (l.foldl removeLoadErrDir fs0) (ps ++ l.flatMap (removalPaths fs)) := by
  induction l generalizing fs0 ps with
  | nil => exact h.mono (fun p hp => List.mem_append_left _ hp)
  | cons d l ih =>
    simp only [List.foldl_cons]
    have hstep := h.unlinks_trans ((removeLoadErrDir_unlinks fs0 d).mono (removalPaths_mono h d))
    refine (ih _ _ hstep).mono ?_
    intro p hp
    simp only [List.mem_append, List.flatMap_cons] at hp ⊢
    tauto

theorem removeLoop_lookup_none (l : List String) (fs0 : FileSystem) (p : String)
    (h : fs0.nodes.lookup p = none) : (l.foldl removeLoadErrDir fs0).nodes.lookup p = none :=
  (removeLoop_unlinks fs0 l fs0 [] (FileSystem.Unlinks.unlinks_refl fs0 _)).nodes_lookup_none p h

/-- An entry that the removal of `dir` takes away on whatever is left of the disk is gone
after the whole loop. -/
theorem removeLoop_gone (fs : FileSystem) (l : List String) (dir p : String)
    (hmem : dir ∈ l)
    (hstep : ∀ fs1 qs, fs.Unlinks fs1 qs → (removeLoadErrDir fs1 dir).nodes.lookup p = none)
    (fs0 : FileSystem) (ps : List String) (h : fs.Unlinks fs0 ps) :
    (l.foldl removeLoadErrDir fs0).nodes.lookup p = none := by
  induction l generalizing fs0 ps with
  | nil => simp at hmem
  | cons d l ih =>
    simp only [List.foldl_cons]
    by_cases hd : d = dir
    · subst hd
      exact removeLoop_lookup_none l _ p (hstep fs0 ps h)
    · have hmem1 : dir ∈ l := by
        rcases List.mem_cons.mp hmem with e | e
        · exact absurd e.symm hd
        · exact e
      exact ih hmem1 _ _
        (h.unlinks_trans ((removeLoadErrDir_unlinks fs0 d).mono (removalPaths_mono h d)))

theorem removeLoadErrDir_meta_gone (fs : FileSystem) (dir pm : String)
    (hm : fs.abs (pathJoin [dir, taskMetaData]) = some pm)
    (hnd : ∀ dev, fs.nodes.lookup pm ≠ some (.dir dev)) :
    (removeLoadErrDir fs dir).nodes.lookup pm = none := by
  rw [removeLoadErrDir_eq]
  have h1 := FileSystem.Remove_unlinks fs (pathJoin [dir, taskMetaData])
  have h2 := removeLoadErrData_unlinks (fs.Remove (pathJoin [dir, taskMetaData])).2
    (pathJoin [dir, taskData])
  have h3 := FileSystem.Remove_unlinks
    (removeLoadErrData (fs.Remove (pathJoin [dir, taskMetaData])).2
      (pathJoin [dir, taskData])) dir
  exact h3.nodes_lookup_none pm (h2.nodes_lookup_none pm
    (FileSystem.Remove_gone fs _ pm hm hnd))

theorem removeLoadErrDir_data_gone (fs : FileSystem) (dir pd : String)
    (hd : fs.abs (pathJoin [dir, taskData]) = some pd)
    (hnd : ∀ dev, fs.nodes.lookup pd ≠ some (.dir dev)) :
    (removeLoadErrDir fs dir).nodes.lookup pd = none := by
  rw [removeLoadErrDir_eq]
  have h1 := FileSystem.Remove_unlinks fs (pathJoin [dir, taskMetaData])
  have h3 := FileSystem.Remove_unlinks
    (removeLoadErrData (fs.Remove (pathJoin [dir, taskMetaData])).2
      (pathJoin [dir, taskData])) dir
  exact h3.nodes_lookup_none pd
    (removeLoadErrData_gone _ _ pd (by rw [h1.abs]; exact hd) (h1.not_dir pd hnd))

theorem removeLoadErrDir_dir_gone (fs : FileSystem) (dir pm pd q : String)
    (hm : fs.abs (pathJoin [dir, taskMetaData]) = some pm)
    (hd : fs.abs (pathJoin [dir, taskData]) = some pd)
    (hq : fs.abs dir = some q)
    (hndm : ∀ dev, fs.nodes.lookup pm ≠ some (.dir dev))
    (hndd : ∀ dev, fs.nodes.lookup pd ≠ some (.dir dev))
    (honly : ∀ e, e ∈ fs.nodes → pathDir e.1 = q → e.1 = pm ∨ e.1 = pd) :
    (removeLoadErrDir fs dir).nodes.lookup q = none := by
  rw [removeLoadErrDir_eq]
  have h1 := FileSystem.Remove_unlinks fs (pathJoin [dir, taskMetaData])
  have h2 := removeLoadErrData_unlinks (fs.Remove (pathJoin [dir, taskMetaData])).2
    (pathJoin [dir, taskData])
  have h12 := h1.unlinks_trans h2
  have gm : (removeLoadErrData (fs.Remove (pathJoin [dir, taskMetaData])).2
      (pathJoin [dir, taskData])).nodes.lookup pm = none :=
    h2.nodes_lookup_none pm (FileSystem.Remove_gone fs _ pm hm hndm)
  have gd : (removeLoadErrData (fs.Remove (pathJoin [dir, taskMetaData])).2
      (pathJoin [dir, taskData])).nodes.lookup pd = none :=
    removeLoadErrData_gone _ _ pd (by rw [h1.abs]; exact hd) (h1.not_dir pd hndd)
  refine FileSystem.Remove_dir_gone _ dir q (by rw [h12.abs]; exact hq) ?_
  intro e he hdir
  rcases honly e (h12.mem e he) hdir with hk | hk
  · have hne := List.lookup_eq_none_iff.mp gm e he
    rw [hk] at hne
    simp at hne
  · have hne := List.lookup_eq_none_iff.mp gd e he
    rw [hk] at hne
    simp at hne

theorem scan_loadErrDirs (lib : Stdlib) (s : storageManager) (now : Nat) (cb : GCCallback)
    (fs : FileSystem) (pairs : List (String × String)) (acc : ReloadScan) :
    (pairs.foldl (fun a p => reloadPeerDir lib s now cb fs p.1 a p.2) acc).loadErrDirs =
      acc.loadErrDirs ++ loadErrorDirs lib fs s.storeOption.DataPath pairs := by
  induction pairs generalizing acc with
  | nil => simp [loadErrorDirs]
  | cons p pairs ih =>
    simp only [List.foldl_cons]
    rw [ih, reloadPeerDir_eq]
    cases h : loadMetadata lib fs (pathJoin [s.storeOption.DataPath, p.1, p.2]) with
    | error e => simp [loadErrorDirs, List.filterMap_cons, h]
    | ok r => simp [loadErrorDirs, List.filterMap_cons, h]

theorem ReloadPersistentTask_disk (lib : Stdlib) (s : storageManager) (now : Nat)
    (cb : GCCallback) (fs : FileSystem) (dirs : List String)
    (hroot : fs.ReadDir s.storeOption.DataPath = .ok dirs) :
    (s.ReloadPersistentTask lib now cb fs).2.2 =
      (loadErrorDirs lib fs s.storeOption.DataPath
        (peerDirs fs s.storeOption.DataPath dirs)).foldl removeLoadErrDir fs := by
  have hdirs : (dirs.foldl (reloadTaskDir lib s now cb fs) ⟨s.tasks, [], []⟩).loadErrDirs =
      loadErrorDirs lib fs s.storeOption.DataPath
        (peerDirs fs s.storeOption.DataPath dirs) := by
    rw [scan_flat, scan_loadErrDirs]; simp
  rw [← hdirs]
  simp only [ReloadPersistentTask, hroot]
  split <;> rfl

end storageManager

namespace storageManager

theorem removeLoop_target_gone (fs : FileSystem) (l : List String) (dir t pm pd pt : String)
    (hmem : dir ∈ l)
    (hm : fs.abs (pathJoin [dir, taskMetaData]) = some pm)
    (hd : fs.abs (pathJoin [dir, taskData]) = some pd)
    (ht : fs.abs t = some pt)
    (hlink : fs.lookup pd = some (.symlink t))
    (hne : pm ≠ pd)
    (hothers : ∀ d, d ∈ l → d ≠ dir → pd ∉ removalPaths fs d)
    (hnd : ∀ dev, fs.nodes.lookup pt ≠ some (.dir dev)) :
    (l.foldl removeLoadErrDir fs).nodes.lookup pt = none := by
  obtain ⟨l1, l2, hl, hnot⟩ := List.eq_append_cons_of_mem hmem
  subst hl
  rw [List.foldl_append, List.foldl_cons]
  apply removeLoop_lookup_none
  have hU := removeLoop_unlinks fs l1 fs [] (FileSystem.Unlinks.unlinks_refl fs _)
  have hpd : pd ∉ ([] : List String) ++ l1.flatMap (removalPaths fs) := by
    intro hin
    simp only [List.nil_append, List.mem_flatMap] at hin
    obtain ⟨d, hd1, hd2⟩ := hin
    exact hothers d (List.mem_append_left _ hd1) (fun e => hnot (e ▸ hd1)) hd2
  have hlink1 := (hU.lookup_frame pd hpd).trans hlink
  rw [removeLoadErrDir_eq]
  have h1 := FileSystem.Remove_unlinks (l1.foldl removeLoadErrDir fs)
    (pathJoin [dir, taskMetaData])
  rw [hU.abs, hm] at h1
  have hlink2 := (h1.lookup_frame pd (by simpa using Ne.symm hne)).trans hlink1
  have hstat := FileSystem.Lstat_of_lookup _ (pathJoin [dir, taskData]) pd _
    (by rw [h1.abs, hU.abs]; exact hd) hlink2
  exact (FileSystem.Remove_unlinks _ dir).nodes_lookup_none pt
    (removeLoadErrData_target_gone _ _ t pt hstat (by rw [h1.abs, hU.abs]; exact ht)
      ((hU.unlinks_trans h1).not_dir pt hnd))

theorem mem_loadErrorDirs (lib : Stdlib) (fs : FileSystem) (dataPath : String)
    (pairs : List (String × String)) (taskID peerID : String) (err : GoError)
    (hp : (taskID, peerID) ∈ pairs)
    (hl : loadMetadata lib fs (pathJoin [dataPath, taskID, peerID]) = .error err) :
    pathJoin [dataPath, taskID, peerID] ∈ loadErrorDirs lib fs dataPath pairs := by
  simp only [loadErrorDirs, List.mem_filterMap]
  exact ⟨(taskID, peerID), hp, by simp [hl]⟩

end storageManager

namespace FileSystem

theorem nodes_not_dir_of_lookup (fs : FileSystem) (p : String)
    (h : ∀ dev, fs.lookup p ≠ some (.dir dev)) :
    p ≠ "/" ∧ ∀ dev, fs.nodes.lookup p ≠ some (.dir dev) := by
  have hp : p ≠ "/" := by
    intro e
    exact h fs.rootDev (by simp [lookup, e])
  refine ⟨hp, ?_⟩
  intro dev hd
  exact h dev (by rw [lookup_of_ne_root fs p hp]; exact hd)

theorem lookup_none_of_nodes (fs : FileSystem) (p : String) (hp : p ≠ "/")
    (h : fs.nodes.lookup p = none) : fs.lookup p = none := by
  rw [lookup_of_ne_root fs p hp]; exact h

end FileSystem

/-! ## The claims on the removal of the directories that failed to load -/

/-- C11, as stated, fails: on the disk where the directory `t2/p2` fails to load, holds a
stray file and has as data entry a symbolic link to the data file of `t1/p1`, the reload
registers `(t1, p1)`, leaves the directory `t2/p2` and its stray file on the disk, and
removes the data file of `t1/p1`, a directory that loaded. -/
theorem ReloadPersistentTask_leaves_failed_dir :
    loadMetadata exampleStdlib exampleStrayDisk "/data/t2/p2"
      = .error (.Errorf "unexpected end of JSON input") ∧
    loadMetadata exampleStdlib exampleStrayDisk "/data/t1/p1"
      = .ok (⟨"/data/t1/p1/task.meta", .file 1⟩, {}) ∧
    (exampleStrayReload.2.1.tasks.Load exampleKey).isSome = true ∧
    exampleStrayReload.2.2.Lstat "/data/t2/p2" = .ok (.dir 1) ∧
    exampleStrayReload.2.2.Lstat "/data/t2/p2/stray" = .ok (.file 4) ∧
    exampleStrayDisk.Lstat "/data/t1/p1/data" = .ok (.file 3) ∧
    exampleStrayReload.2.2.Lstat "/data/t1/p1/data"
      = .error (.PathError "lstat" "/data/t1/p1/data" .ENOENT) := by
  decide

/-- C11, amended. For every peer directory that fails to load during a reload that can list
the data path, no store is inserted in the tasks map, and after the scan `os.Remove` is
called, failures being passed over, on its metadata file, on the path its data entry names
when that entry is a symbolic link, on its data entry and on the directory. So the disk
after the reload is the disk before without some of the entries at those paths, and every
other path is untouched. Of a failed directory, the metadata file and the data entry are gone
when they are not directories; the directory itself is gone when, besides, it holds nothing
else; the path named by its data link is gone when it is not a directory and no earlier
removal took the link away. -/
theorem ReloadPersistentTask_removes_failed (lib : Stdlib) (s : storageManager) (now : Nat)
    (cb : GCCallback) (fs : FileSystem) (dirs : List String)
    (hroot : fs.ReadDir s.storeOption.DataPath = .ok dirs) :
    (∀ taskID peerID err,
      loadMetadata lib fs (pathJoin [s.storeOption.DataPath, taskID, peerID]) = .error err →
      (s.ReloadPersistentTask lib now cb fs).2.1.tasks.Load ⟨peerID, taskID⟩
        = s.tasks.Load ⟨peerID, taskID⟩) ∧
    (s.ReloadPersistentTask lib now cb fs).2.2 =
      (loadErrorDirs lib fs s.storeOption.DataPath
        (peerDirs fs s.storeOption.DataPath dirs)).foldl storageManager.removeLoadErrDir fs ∧
    fs.Unlinks (s.ReloadPersistentTask lib now cb fs).2.2
      ((loadErrorDirs lib fs s.storeOption.DataPath
        (peerDirs fs s.storeOption.DataPath dirs)).flatMap (removalPaths fs)) ∧
    (∀ p, p ∉ (loadErrorDirs lib fs s.storeOption.DataPath
          (peerDirs fs s.storeOption.DataPath dirs)).flatMap (removalPaths fs) →
      (s.ReloadPersistentTask lib now cb fs).2.2.lookup p = fs.lookup p) ∧
    (∀ taskID peerID err pm pd,
      (taskID, peerID) ∈ peerDirs fs s.storeOption.DataPath dirs →
      loadMetadata lib fs (pathJoin [s.storeOption.DataPath, taskID, peerID]) = .error err →
      fs.abs (pathJoin [pathJoin [s.storeOption.DataPath, taskID, peerID], taskMetaData])
        = some pm →
      fs.abs (pathJoin [pathJoin [s.storeOption.DataPath, taskID, peerID], taskData])
        = some pd →
      ((∀ dev, fs.lookup pm ≠ some (.dir dev)) →
        (s.ReloadPersistentTask lib now cb fs).2.2.lookup pm = none) ∧
      ((∀ dev, fs.lookup pd ≠ some (.dir dev)) →
        (s.ReloadPersistentTask lib now cb fs).2.2.lookup pd = none) ∧
      (∀ q, fs.abs (pathJoin [s.storeOption.DataPath, taskID, peerID]) = some q → q ≠ "/" →
        (∀ dev, fs.lookup pm ≠ some (.dir dev)) → (∀ dev, fs.lookup pd ≠ some (.dir dev)) →
        (∀ e, e ∈ fs.nodes → pathDir e.1 = q → e.1 = pm ∨ e.1 = pd) →
        (s.ReloadPersistentTask lib now cb fs).2.2.lookup q = none) ∧
      (∀ t pt, fs.lookup pd = some (.symlink t) → fs.abs t = some pt →
        (∀ dev, fs.lookup pt ≠ some (.dir dev)) → pm ≠ pd →
        (∀ d, d ∈ loadErrorDirs lib fs s.storeOption.DataPath
              (peerDirs fs s.storeOption.DataPath dirs) →
          d ≠ pathJoin [s.storeOption.DataPath, taskID, peerID] →
          pd ∉ removalPaths fs d) →
        (s.ReloadPersistentTask lib now cb fs).2.2.lookup pt = none)) := by
  have hdisk := storageManager.ReloadPersistentTask_disk lib s now cb fs dirs hroot
  have hU := storageManager.removeLoop_unlinks fs
    (loadErrorDirs lib fs s.storeOption.DataPath (peerDirs fs s.storeOption.DataPath dirs))
    fs [] (FileSystem.Unlinks.unlinks_refl fs _)
  rw [← hdisk] at hU
  refine ⟨?_, hdisk, hU, fun p hp => hU.lookup_frame p hp, ?_⟩
  · intro taskID peerID err hl
    rw [storageManager.ReloadPersistentTask_tasks lib s now cb fs dirs hroot]
    exact storageManager.scan_Load_of_fail lib s now cb fs _ _ taskID peerID err hl
  · intro taskID peerID err pm pd hp hl hm hd
    have hmem := storageManager.mem_loadErrorDirs lib fs s.storeOption.DataPath _
      taskID peerID err hp hl
    refine ⟨?_, ?_, ?_, ?_⟩
    · intro hndm
      obtain ⟨hne, hnodes⟩ := fs.nodes_not_dir_of_lookup pm hndm
      rw [hdisk]
      refine FileSystem.lookup_none_of_nodes _ pm hne ?_
      exact storageManager.removeLoop_gone fs _ _ pm hmem
        (fun fs1 qs h1 => storageManager.removeLoadErrDir_meta_gone fs1 _ pm
          (by rw [h1.abs]; exact hm) (h1.not_dir pm hnodes))
        fs [] (FileSystem.Unlinks.unlinks_refl fs _)
    · intro hndd
      obtain ⟨hne, hnodes⟩ := fs.nodes_not_dir_of_lookup pd hndd
      rw [hdisk]
      refine FileSystem.lookup_none_of_nodes _ pd hne ?_
      exact storageManager.removeLoop_gone fs _ _ pd hmem
        (fun fs1 qs h1 => storageManager.removeLoadErrDir_data_gone fs1 _ pd
          (by rw [h1.abs]; exact hd) (h1.not_dir pd hnodes))
        fs [] (FileSystem.Unlinks.unlinks_refl fs _)
    · intro q hq hqroot hndm hndd honly
      obtain ⟨_, hnm⟩ := fs.nodes_not_dir_of_lookup pm hndm
      obtain ⟨_, hnd⟩ := fs.nodes_not_dir_of_lookup pd hndd
      rw [hdisk]
      refine FileSystem.lookup_none_of_nodes _ q hqroot ?_
      exact storageManager.removeLoop_gone fs _ _ q hmem
        (fun fs1 qs h1 => storageManager.removeLoadErrDir_dir_gone fs1 _ pm pd q
          (by rw [h1.abs]; exact hm) (by rw [h1.abs]; exact hd) (by rw [h1.abs]; exact hq)
          (h1.not_dir pm hnm) (h1.not_dir pd hnd)
          (fun e he hdir => honly e (h1.mem e he) hdir))
        fs [] (FileSystem.Unlinks.unlinks_refl fs _)
    · intro t pt hlink ht hndt hne hothers
      obtain ⟨hptroot, hnt⟩ := fs.nodes_not_dir_of_lookup pt hndt
      rw [hdisk]
      refine FileSystem.lookup_none_of_nodes _ pt hptroot ?_
      exact storageManager.removeLoop_target_gone fs _ _ t pm pd pt hmem hm hd ht hlink hne
        hothers hnt

/-- Witness of C11 as amended, on the disk with one good and one bad task directory: the
metadata file of the directory that loaded is untouched. -/
theorem ReloadPersistentTask_removes_failed_witness :
    exampleReloadDisk.ReadDir exampleManager.storeOption.DataPath = .ok ["t1", "t2"] ∧
    "/data/t1/p1/task.meta" ∉
      (loadErrorDirs exampleStdlib exampleReloadDisk exampleManager.storeOption.DataPath
        (peerDirs exampleReloadDisk exampleManager.storeOption.DataPath
          ["t1", "t2"])).flatMap (removalPaths exampleReloadDisk) ∧
    (exampleManager.ReloadPersistentTask exampleStdlib 7 0 exampleReloadDisk).2.2.lookup
        "/data/t1/p1/task.meta"
      = exampleReloadDisk.lookup "/data/t1/p1/task.meta" :=
  ⟨by decide, by decide,
   (ReloadPersistentTask_removes_failed exampleStdlib exampleManager 7 0 exampleReloadDisk
      ["t1", "t2"] (by decide)).2.2.2.1 "/data/t1/p1/task.meta" (by decide)⟩

/-! ## The claims on the options of the peer host -/

theorem wrapInt64_of_range (x : Int) (h : IsInt64 x) : wrapInt64 x = x := by
  unfold IsInt64 at h
  unfold wrapInt64
  omega

theorem Validate_cases {Opt : Type} (p : PeerHostOption Opt) :
    (p.Scheduler.NetAddrs.length = 0 ∧ p.Validate = (some (.Errorf "empty schedulers"), p)) ∨
    (p.Scheduler.NetAddrs.length ≠ 0 ∧ 0 < p.AliveTime ∧
      p.AliveTime < p.Scheduler.ScheduleTimeout ∧
      p.Validate = (none, { p with Scheduler :=
        { p.Scheduler with ScheduleTimeout := wrapInt64 (p.AliveTime - Second) } })) ∨
    (p.Scheduler.NetAddrs.length ≠ 0 ∧
      ¬ (0 < p.AliveTime ∧ p.AliveTime < p.Scheduler.ScheduleTimeout) ∧
      p.Validate = (none, p)) := by
  unfold PeerHostOption.Validate
  by_cases h0 : p.Scheduler.NetAddrs.length = 0
  · left
    exact ⟨h0, by rw [if_pos h0]⟩
  · right
    by_cases h1 : p.AliveTime > 0 ∧ p.Scheduler.ScheduleTimeout > p.AliveTime
    · left
      exact ⟨h0, h1.1, h1.2, by rw [if_neg h0, if_pos h1]⟩
    · right
      exact ⟨h0, fun h => h1 ⟨h.1, h.2⟩, by rw [if_neg h0, if_neg h1]⟩

/-- C21. After `Validate` has returned nil on an option whose `AliveTime` is positive, the
`ScheduleTimeout` of the scheduler is not greater than `AliveTime`; and when `AliveTime` is
0 or `ScheduleTimeout` is at most `AliveTime`, `Validate` leaves the whole option, and so
`ScheduleTimeout`, as it was. -/
theorem Validate_bounds_timeout {Opt : Type} (p : PeerHostOption Opt)
    (hrange : IsInt64 p.AliveTime) (hnil : p.Validate.1 = none) :
    (0 < p.AliveTime →
      p.Validate.2.Scheduler.ScheduleTimeout ≤ p.Validate.2.AliveTime) ∧
    ((p.AliveTime = 0 ∨ p.Scheduler.ScheduleTimeout ≤ p.AliveTime) → p.Validate.2 = p) := by
  rcases Validate_cases p with ⟨_, h⟩ | ⟨_, hpos, hgt, h⟩ | ⟨_, hno, h⟩
  · rw [h] at hnil
    simp at hnil
  · rw [h]
    refine ⟨fun _ => ?_, fun hor => ?_⟩
    · show wrapInt64 (p.AliveTime - Second) ≤ p.AliveTime
      unfold IsInt64 at hrange
      unfold wrapInt64 Second
      omega
    · rcases hor with h0 | hle
      · omega
      · omega
  · rw [h]
    refine ⟨fun hpos => ?_, fun _ => rfl⟩
    show p.Scheduler.ScheduleTimeout ≤ p.AliveTime
    by_contra hlt
    exact hno ⟨hpos, by omega⟩

/-- Witness of C21 on an option with an alive time of five minutes and a schedule timeout
of ten: the timeout comes out at four minutes and fifty-nine seconds. -/
theorem Validate_bounds_timeout_witness :
    IsInt64 exampleLongTimeout.AliveTime ∧ exampleLongTimeout.Validate.1 = none ∧
    exampleLongTimeout.Validate.2.Scheduler.ScheduleTimeout = 299000000000 ∧
    (0 < exampleLongTimeout.AliveTime →
      exampleLongTimeout.Validate.2.Scheduler.ScheduleTimeout
        ≤ exampleLongTimeout.Validate.2.AliveTime) :=
  ⟨by decide, by decide, by decide,
   (Validate_bounds_timeout exampleLongTimeout (by decide) (by decide)).1⟩

/-- When `Validate` leaves a negative `ScheduleTimeout` behind a non-negative one. -/
theorem Validate_negative_iff {Opt : Type} (p : PeerHostOption Opt)
    (hrange : IsInt64 p.AliveTime) (haddr : p.Scheduler.NetAddrs.length ≠ 0)
    (hst : 0 ≤ p.Scheduler.ScheduleTimeout) :
    p.Validate.2.Scheduler.ScheduleTimeout < 0 ↔
      (0 < p.AliveTime ∧ p.AliveTime < Second ∧
        p.AliveTime < p.Scheduler.ScheduleTimeout) := by
  rcases Validate_cases p with ⟨h0, _⟩ | ⟨_, hpos, hgt, h⟩ | ⟨_, hno, h⟩
  · exact absurd h0 haddr
  · rw [h]
    show wrapInt64 (p.AliveTime - Second) < 0 ↔ _
    unfold IsInt64 at hrange
    unfold wrapInt64 Second
    omega
  · rw [h]
    show p.Scheduler.ScheduleTimeout < 0 ↔ _
    constructor
    · intro hneg; omega
    · intro hc; exact absurd ⟨hc.1, hc.2.2⟩ hno

/-- C30. The behaviour of `Validate` at the failing input: on an option with one scheduler
address, an `AliveTime` of half a second and a `ScheduleTimeout` of one second, both
non-negative, `Validate` returns nil and leaves a `ScheduleTimeout` of minus half a
second. -/
theorem Validate_negative_timeout :
    exampleShortLived.Scheduler.NetAddrs.length = 1 ∧
    0 ≤ exampleShortLived.AliveTime ∧ 0 ≤ exampleShortLived.Scheduler.ScheduleTimeout ∧
    exampleShortLived.Validate.1 = none ∧
    exampleShortLived.Validate.2.Scheduler.ScheduleTimeout = -500000000 ∧
    exampleShortLived.Validate.2.Scheduler.ScheduleTimeout < 0 := by
  decide

/-! ## The claims on the port range of a TCP listener -/

/-- C22, as stated, fails: the value 80.5, which is neither a plain integer nor a mapping,
does not fail with "invalid port": `unmarshal` returns nil and sets `Start` to 80. -/
theorem unmarshal_accepts_fraction :
    TCPListenPortRange.unmarshal ⟨0, 0⟩ exampleHalfPort = (none, ⟨80, 0⟩) ∧
    (TCPListenPortRange.unmarshal ⟨0, 0⟩ exampleHalfPort).1
      ≠ some (.Errorf "invalid port") := by
  decide

/-- C22, amended. The decoding of a port range: a number (an `int`, or a `float64`, which
is converted with `int(x)` and so loses a fraction) sets `Start` and leaves `End` as it
was, a `float64` that holds an integer giving that integer; a mapping with a numeric
`start` sets `Start`, and sets `End` when `end` is there and numeric, leaving it when `end`
is missing; a mapping without `start` fails with "empty start port"; a `start` or an `end`
that is not a number fails with "invalid start port" or "invalid end port"; a value that is
neither a number nor a mapping fails with "invalid port". -/
theorem unmarshal_port_range (t : TCPListenPortRange) (v : Value) :
    (v.IsNumber = true → t.unmarshal v = (none, { t with Start := v.toInt })) ∧
    (∀ n : Int, IsInt64 n →
      t.unmarshal (.int n) = (none, { t with Start := n }) ∧
      t.unmarshal (.float64 (.ofInt n)) = (none, { t with Start := n })) ∧
    (∀ m, v = .map m →
      (m.lookup "start" = none → t.unmarshal v = (some (.Errorf "empty start port"), t)) ∧
      (∀ s, m.lookup "start" = some s → s.IsNumber = false →
        t.unmarshal v = (some (.Errorf "invalid start port"), t)) ∧
      (∀ s, m.lookup "start" = some s → s.IsNumber = true →
        (m.lookup "end" = none → t.unmarshal v = (none, { t with Start := s.toInt })) ∧
        (∀ e, m.lookup "end" = some e → e.IsNumber = true →
          t.unmarshal v = (none, ⟨s.toInt, e.toInt⟩)) ∧
        (∀ e, m.lookup "end" = some e → e.IsNumber = false →
          t.unmarshal v = (some (.Errorf "invalid end port"), { t with Start := s.toInt })))) ∧
    (v.IsNumber = false → v.IsMap = false →
      t.unmarshal v = (some (.Errorf "invalid port"), t)) := by
  refine ⟨?_, ?_, ?_, ?_⟩
  · intro hn
    cases v <;> simp [Value.IsNumber] at hn <;> rfl
  · intro n hn
    refine ⟨rfl, ?_⟩
    unfold IsInt64 at hn
    simp [TCPListenPortRange.unmarshal, Float64.ofInt, Float64.toInt, hn.1, hn.2]
  · intro m hv
    subst hv
    refine ⟨?_, ?_, ?_⟩
    · intro hs
      simp [TCPListenPortRange.unmarshal, hs]
    · intro s hs hnum
      cases s <;> simp [Value.IsNumber] at hnum <;>
        simp [TCPListenPortRange.unmarshal, hs]
    · intro s hs hnum
      refine ⟨?_, ?_, ?_⟩
      · intro he
        cases s <;> simp [Value.IsNumber] at hnum <;>
          simp [TCPListenPortRange.unmarshal, hs, he, Value.toInt]
      · intro e he henum
        cases s <;> simp [Value.IsNumber] at hnum <;>
          cases e <;> simp [Value.IsNumber] at henum <;>
            simp [TCPListenPortRange.unmarshal, hs, he, Value.toInt]
      · intro e he henum
        cases s <;> simp [Value.IsNumber] at hnum <;>
          cases e <;> simp [Value.IsNumber] at henum <;>
            simp [TCPListenPortRange.unmarshal, hs, he, Value.toInt]
  · intro hn hm
    cases v <;> simp [Value.IsNumber] at hn <;> simp [Value.IsMap] at hm <;> rfl

/-- Witness of C22 as amended, on the two documented forms: the plain port 12345 and the
mapping with `start: 12345` and `end: 12346`. -/
theorem unmarshal_port_range_witness :
    IsInt64 12345 ∧
    TCPListenPortRange.unmarshal ⟨0, 7⟩ (.int 12345) = (none, ⟨12345, 7⟩) ∧
    TCPListenPortRange.unmarshal ⟨0, 7⟩ (.float64 (.ofInt 12345)) = (none, ⟨12345, 7⟩) :=
  ⟨by decide,
   ((unmarshal_port_range ⟨0, 7⟩ examplePortMap).2.1 12345 (by decide)).1,
   ((unmarshal_port_range ⟨0, 7⟩ examplePortMap).2.1 12345 (by decide)).2⟩

/-! ## The claims on the pool of certificates -/

theorem CertPool_unmarshal_Files (x : X509) (cp : CertPool)
    (unmarshal : Except GoError (List String)) :
    (cp.unmarshal x unmarshal).2.Files = cp.Files := by
  unfold CertPool.unmarshal
  split
  · rfl
  · split <;> rfl

/-- C29. The behaviour of the code at the failing input: a new `CertPool` unmarshalled from
the list of file names `["/etc/ca.pem"]`, the file holding a certificate, comes back with a
nil error and a pool of one certificate, and its `Files` is still empty, so `MarshalYAML`
yields the empty list and `MarshalJSON` encodes the empty list, not the list of file names;
in general `unmarshal` never changes `Files`. -/
theorem CertPool_forgets_files :
    (exampleCertPool.UnmarshalJSON exampleX509 ["/etc/ca.pem"] exampleCertDisk).1 = none ∧
    ((exampleCertPool.UnmarshalJSON exampleX509 ["/etc/ca.pem"] exampleCertDisk).2.Pool.map
      List.length) = some 1 ∧
    (exampleCertPool.UnmarshalJSON exampleX509 ["/etc/ca.pem"] exampleCertDisk).2.MarshalYAML
      = ([], none) ∧
    (exampleCertPool.UnmarshalJSON exampleX509 ["/etc/ca.pem"] exampleCertDisk).2.MarshalYAML.1
      ≠ ["/etc/ca.pem"] ∧
    (∀ (x : X509) (cp : CertPool) (names : List String) (fs : FileSystem)
        (encode : List String → String),
      (cp.UnmarshalJSON x names fs).2.MarshalYAML = (cp.Files, none) ∧
      (cp.UnmarshalYAML x names fs).2.MarshalYAML = (cp.Files, none) ∧
      (cp.UnmarshalJSON x names fs).2.MarshalJSON encode = (encode cp.Files, none)) := by
  refine ⟨by decide, by decide, by decide, by decide, ?_⟩
  intro x cp names fs encode
  refine ⟨?_, ?_, ?_⟩ <;>
    simp only [CertPool.UnmarshalJSON, CertPool.UnmarshalYAML, CertPool.MarshalYAML,
      CertPool.MarshalJSON, CertPool_unmarshal_Files]

/-! ## The claims on the atomic counter -/

theorem wrapInt32_range (x : Int) : IsInt32 (wrapInt32 x) := by
  unfold IsInt32 wrapInt32
  omega

theorem wrapInt32_add (a b : Int) : wrapInt32 (wrapInt32 a + b) = wrapInt32 (a + b) := by
  unfold wrapInt32
  omega

theorem AddAll_Get (deltas : List Int) (c : Int) (hc : IsInt32 c) :
    AtomicInt.Get (AtomicInt.AddAll (some ⟨c⟩) deltas) = wrapInt32 (c + deltas.sum) := by
  induction deltas generalizing c with
  | nil =>
    unfold IsInt32 at hc
    simp only [AtomicInt.AddAll, List.foldl_nil, AtomicInt.Get, List.sum_nil, add_zero]
    unfold wrapInt32
    omega
  | cons d ds ih =>
    have hstep : AtomicInt.AddAll (some ⟨c⟩) (d :: ds)
        = AtomicInt.AddAll (some ⟨wrapInt32 (c + d)⟩) ds := rfl
    rw [hstep, ih _ (wrapInt32_range _), wrapInt32_add, List.sum_cons, add_assoc]

/-- C23. `AtomicInt.Add` accumulates: for every initial `int32` value `v` and deltas
`d1..dn`, after `NewAtomicInt(v)` and `Add(d1)`, ..., `Add(dn)`, `Get` returns
`v + d1 + ... + dn` in `int32` arithmetic (3, then `Add` 4 and `Add` 5, gives 12); `Add` on
a nil `*AtomicInt` returns 0; and the test `TestAdd` passes. -/
theorem AtomicInt_Add_accumulates (v : Int) (deltas : List Int) (hv : IsInt32 v) :
    AtomicInt.Get (AtomicInt.AddAll (NewAtomicInt v) deltas) = wrapInt32 (v + deltas.sum) ∧
    AtomicInt.Get (AtomicInt.AddAll (NewAtomicInt 3) [4, 5]) = 12 ∧
    (∀ d, (AtomicInt.Add none d).1 = 0) ∧
    TestAdd = true :=
  ⟨AddAll_Get deltas v hv, by decide, fun _ => rfl, by decide⟩

/-- Witness of C23 on the run of the test: 3, then `Add` 4 and `Add` 5. -/
theorem AtomicInt_Add_accumulates_witness :
    IsInt32 3 ∧
    AtomicInt.Get (AtomicInt.AddAll (NewAtomicInt 3) [4, 5]) = wrapInt32 (3 + [4, 5].sum) :=
  ⟨by unfold IsInt32; omega, (AtomicInt_Add_accumulates 3 [4, 5] (by unfold IsInt32; omega)).1⟩

/-! ## The claims on the identity of a plugin -/

theorem knownPluginType_iff (types : List PluginType) (pt : PluginType) :
    knownPluginType types pt = true ↔ pt ∈ types := by
  induction types with
  | nil => simp [knownPluginType]
  | cons t rest ih =>
    unfold knownPluginType
    by_cases h : pt = t
    · simp [h]
    · simp [h, ih]

theorem validate_iff (types : List PluginType) (pt : PluginType) (name : String) :
    validate types pt name = true ↔ pt ∈ types ∧ name ≠ "" := by
  unfold validate
  by_cases h : name = ""
  · simp [h]
  · simp [h, knownPluginType_iff]

/-- C24. Validation of a plugin identity: `validate(pt, name)` is true exactly when `pt` is
one of the registered `config.PluginTypes` and `name` is not empty; it is false for a
plugin type that is not registered, whatever the name, and for an empty name, whatever the
type; and the test `TestValidate` passes as soon as "test" is no registered type. -/
theorem validate_plugin_identity (types : List PluginType) (pt : PluginType)
    (name : String) :
    (validate types pt name = true ↔ pt ∈ types ∧ name ≠ "") ∧
    (pt ∉ types → validate types pt name = false) ∧
    validate types pt "" = false ∧
    ("test" ∉ types → TestValidate types = true) := by
  refine ⟨validate_iff types pt name, ?_, ?_, ?_⟩
  · intro hpt
    cases hv : validate types pt name with
    | false => rfl
    | true => exact absurd ((validate_iff types pt name).mp hv).1 hpt
  · rfl
  · intro htest
    unfold TestValidate validateCases
    rw [List.all_eq_true]
    intro c hc
    rcases List.mem_append.mp hc with h | h
    · simp only [List.mem_cons, List.mem_singleton, List.not_mem_nil, or_false] at h
      rcases h with h | h
      · subst h; rfl
      · subst h
        have hf : validate types "test" "test" = false := by
          cases hv : validate types "test" "test" with
          | false => rfl
          | true => exact absurd ((validate_iff types "test" "test").mp hv).1 htest
        simp [hf]
    · obtain ⟨t, ht, hct⟩ := List.mem_flatMap.mp h
      simp only [List.mem_cons, List.mem_singleton, List.not_mem_nil, or_false] at hct
      rcases hct with h1 | h1
      · subst h1; rfl
      · subst h1
        have hv : validate types t "test" = true :=
          (validate_iff types t "test").mpr ⟨ht, by decide⟩
        simp [hv]

/-- Witness of C24 on a list of two plugin types. -/
theorem validate_plugin_identity_witness :
    "test" ∉ ["storage", "sourceclient"] ∧ TestValidate ["storage", "sourceclient"] = true ∧
    validate ["storage", "sourceclient"] "storage" "disk" = true :=
  ⟨by decide,
   (validate_plugin_identity ["storage", "sourceclient"] "storage" "disk").2.2.2 (by decide),
   by decide⟩

/-! ## Lemmas on the keep-alive record -/

namespace storageManager

theorem CreateTask_KeepAlive (s : storageManager) (now : Nat) (req : RegisterTaskRequest)
    (fs : FileSystem) :
    (s.CreateTask now req fs).2.1.KeepAlive = s.KeepAlive ++ [now] := by
  rcases CreateTask_cases s now req fs with ⟨e, fs1, _, h⟩ | ⟨t, fs1, _, h⟩
  · rw [h]; rfl
  · rw [h]; rfl

theorem CreateTask_error_tasks (s : storageManager) (now : Nat) (req : RegisterTaskRequest)
    (fs : FileSystem) (e : GoError) (h : (s.CreateTask now req fs).1 = some e) :
    (s.CreateTask now req fs).2.1.tasks = s.tasks := by
  rcases CreateTask_cases s now req fs with ⟨e1, fs1, _, h1⟩ | ⟨t, fs1, _, h1⟩
  · rw [h1]; rfl
  · rw [h1] at h
    simp at h

theorem RegisterTask_KeepAlive (s : storageManager) (now : Nat) (req : RegisterTaskRequest)
    (fs : FileSystem) :
    ∃ touches, touches ≠ [] ∧
      (s.RegisterTask now req fs).2.1.KeepAlive = s.KeepAlive ++ touches := by
  cases hl : s.tasks.Load ⟨req.PeerID, req.TaskID⟩ with
  | some t =>
    rw [RegisterTask_present s now req fs t hl]
    exact ⟨[now], by simp, rfl⟩
  | none =>
    rw [RegisterTask_absent s now req fs hl, CreateTask_KeepAlive]
    refine ⟨[now, now, now], by simp, ?_⟩
    simp [Keep]

theorem RegisterTask_error_tasks (s : storageManager) (now : Nat)
    (req : RegisterTaskRequest) (fs : FileSystem) (e : GoError)
    (h : (s.RegisterTask now req fs).1 = some e) :
    s.tasks.Load ⟨req.PeerID, req.TaskID⟩ = none ∧
    (s.RegisterTask now req fs).2.1.tasks = s.tasks := by
  cases hl : s.tasks.Load ⟨req.PeerID, req.TaskID⟩ with
  | some t =>
    rw [RegisterTask_present s now req fs t hl] at h
    simp at h
  | none =>
    refine ⟨rfl, ?_⟩
    rw [RegisterTask_absent s now req fs hl] at h ⊢
    exact CreateTask_error_tasks _ now req fs e h

theorem WritePiece_KeepAlive (drv : TaskStorageDriver) (s : storageManager) (now : Nat)
    (req : WritePieceRequest) (fs : FileSystem) :
    (s.WritePiece drv now req fs).2.1.KeepAlive = s.KeepAlive ++ [now] := by
  cases h : s.tasks.Load ⟨req.PeerID, req.TaskID⟩ <;> simp [WritePiece, LoadTask, h, Keep]

theorem ReadPiece_KeepAlive (drv : TaskStorageDriver) (s : storageManager) (now : Nat)
    (req : ReadPieceRequest) (fs : FileSystem) :
    (s.ReadPiece drv now req fs).2.1.KeepAlive = s.KeepAlive ++ [now] := by
  cases h : s.tasks.Load ⟨req.PeerID, req.TaskID⟩ <;> simp [ReadPiece, LoadTask, h, Keep]

theorem GetPieces_KeepAlive (drv : TaskStorageDriver) (s : storageManager) (now : Nat)
    (req : PieceTaskRequest) (fs : FileSystem) :
    (s.GetPieces drv now req fs).2.1.KeepAlive = s.KeepAlive ++ [now] := by
  cases h : s.tasks.Load ⟨req.DstPid, req.TaskId⟩ <;> simp [GetPieces, LoadTask, h, Keep]

theorem UpdateTask_KeepAlive (drv : TaskStorageDriver) (s : storageManager) (now : Nat)
    (req : UpdateTaskRequest) (fs : FileSystem) :
    (s.UpdateTask drv now req fs).2.1.KeepAlive = s.KeepAlive ++ [now] := by
  cases h : s.tasks.Load ⟨req.PeerID, req.TaskID⟩ <;> simp [UpdateTask, LoadTask, h, Keep]

theorem Store_KeepAlive (drv : TaskStorageDriver) (s : storageManager) (now : Nat)
    (req : StoreRequest) (fs : FileSystem) :
    (s.Store drv now req fs).2.1.KeepAlive = s.KeepAlive ++ [now] := by
  cases h : s.tasks.Load ⟨req.PeerID, req.TaskID⟩ <;> simp [Store, LoadTask, h, Keep]

end storageManager

/-! ## The claims on the keep-alive record and on a failed registration -/

/-- C25. Every operation of the manager that looks up or creates a task store
(`RegisterTask`, `WritePiece`, `ReadPiece`, `GetPieces`, `UpdateTask`, `Store`) records at
least one keep-alive touch, at the instant of the call, also when the lookup fails with
`ErrTaskNotFound`; `TryGC` and `CleanUp` record none. -/
theorem manager_ops_touch (drv : TaskStorageDriver) (rc : Reclaimer) (s : storageManager)
    (now : Nat) (fs : FileSystem) :
    (∀ req : RegisterTaskRequest, ∃ touches, touches ≠ [] ∧
      (s.RegisterTask now req fs).2.1.KeepAlive = s.KeepAlive ++ touches) ∧
    (∀ req : WritePieceRequest,
      (s.WritePiece drv now req fs).2.1.KeepAlive = s.KeepAlive ++ [now]) ∧
    (∀ req : ReadPieceRequest,
      (s.ReadPiece drv now req fs).2.1.KeepAlive = s.KeepAlive ++ [now]) ∧
    (∀ req : PieceTaskRequest,
      (s.GetPieces drv now req fs).2.1.KeepAlive = s.KeepAlive ++ [now]) ∧
    (∀ req : UpdateTaskRequest,
      (s.UpdateTask drv now req fs).2.1.KeepAlive = s.KeepAlive ++ [now]) ∧
    (∀ req : StoreRequest,
      (s.Store drv now req fs).2.1.KeepAlive = s.KeepAlive ++ [now]) ∧
    (∀ req : ReadPieceRequest, s.tasks.Load ⟨req.PeerID, req.TaskID⟩ = none →
      (s.ReadPiece drv now req fs).1 = (none, none, some .ErrTaskNotFound) ∧
      (s.ReadPiece drv now req fs).2.1.KeepAlive = s.KeepAlive ++ [now]) ∧
    (s.TryGC rc now fs).2.1.KeepAlive = s.KeepAlive ∧
    (s.CleanUp rc fs).1.KeepAlive = s.KeepAlive :=
  ⟨fun req => storageManager.RegisterTask_KeepAlive s now req fs,
   fun req => storageManager.WritePiece_KeepAlive drv s now req fs,
   fun req => storageManager.ReadPiece_KeepAlive drv s now req fs,
   fun req => storageManager.GetPieces_KeepAlive drv s now req fs,
   fun req => storageManager.UpdateTask_KeepAlive drv s now req fs,
   fun req => storageManager.Store_KeepAlive drv s now req fs,
   fun req h => ⟨storageManager.ReadPiece_of_absent drv s now req fs h,
     storageManager.ReadPiece_KeepAlive drv s now req fs⟩,
   rfl, rfl⟩

/-- C26. Registration leaves the tasks map alone when it fails: whenever `CreateTask`, and
so `RegisterTask`, returns an error, the tasks map is as it was; for `RegisterTask` the key
then has no store, before and after, and a later lookup of the key reports
`ErrTaskNotFound`. -/
theorem RegisterTask_error_keeps_tasks (s : storageManager) (now : Nat)
    (req : RegisterTaskRequest) (fs : FileSystem) :
    (∀ e, (s.CreateTask now req fs).1 = some e →
      (s.CreateTask now req fs).2.1.tasks = s.tasks) ∧
    (∀ e, (s.RegisterTask now req fs).1 = some e →
      (s.RegisterTask now req fs).2.1.tasks = s.tasks ∧
      (s.RegisterTask now req fs).2.1.tasks.Load ⟨req.PeerID, req.TaskID⟩ = none ∧
      (∀ (drv : TaskStorageDriver) (now2 : Nat) (r : ReadPieceRequest) (fs2 : FileSystem),
        r.PeerID = req.PeerID → r.TaskID = req.TaskID →
        ((s.RegisterTask now req fs).2.1.ReadPiece drv now2 r fs2).1
          = (none, none, some .ErrTaskNotFound)) ∧
      (∀ (drv : TaskStorageDriver) (now2 : Nat) (r : PieceTaskRequest) (fs2 : FileSystem),
        r.DstPid = req.PeerID → r.TaskId = req.TaskID →
        ((s.RegisterTask now req fs).2.1.GetPieces drv now2 r fs2).1
          = (none, some .ErrTaskNotFound))) := by
  refine ⟨fun e h => storageManager.CreateTask_error_tasks s now req fs e h, ?_⟩
  intro e h
  obtain ⟨habsent, htasks⟩ := storageManager.RegisterTask_error_tasks s now req fs e h
  have hnone : (s.RegisterTask now req fs).2.1.tasks.Load ⟨req.PeerID, req.TaskID⟩ = none := by
    rw [htasks]; exact habsent
  refine ⟨htasks, hnone, ?_, ?_⟩
  · intro drv now2 r fs2 hp ht
    exact storageManager.ReadPiece_of_absent drv _ now2 r fs2 (by rw [hp, ht]; exact hnone)
  · intro drv now2 r fs2 hp ht
    exact storageManager.GetPieces_of_absent drv _ now2 r fs2 (by rw [hp, ht]; exact hnone)

/-- Witness of C26 on a registration whose destination directory does not exist: the call
fails at `os.Stat` and the map stays empty. -/
theorem RegisterTask_error_keeps_tasks_witness :
    (exampleManager.RegisterTask 5 exampleLostRequest exampleDisk).1
      = some (.PathError "stat" "/nodir/" .ENOENT) ∧
    (exampleManager.RegisterTask 5 exampleLostRequest exampleDisk).2.1.tasks
      = exampleManager.tasks :=
  ⟨by decide,
   ((RegisterTask_error_keeps_tasks exampleManager 5 exampleLostRequest exampleDisk).2
      (.PathError "stat" "/nodir/" .ENOENT) (by decide)).1⟩

/-! ## The claims on the key of a reloaded store -/

/-- C28. `ReloadPersistentTask` registers each store whose metadata parses under the key
made of the name of the task directory and the name of the peer directory, whatever the
parsed document holds: the store carries the document as it is, its `TaskID` and `PeerID`
included, and nothing compares them with the key; a manager that starts from an empty map
holds no key other than those of the peer directories. -/
theorem ReloadPersistentTask_key_from_names (lib : Stdlib) (s : storageManager) (now : Nat)
    (cb : GCCallback) (fs : FileSystem) (dirs : List String)
    (hroot : fs.ReadDir s.storeOption.DataPath = .ok dirs) :
    (∀ (taskID peerID : String) (f : OsFile) (md : persistentMetadata),
      (taskID, peerID) ∈ peerDirs fs s.storeOption.DataPath dirs →
      loadMetadata lib fs (pathJoin [s.storeOption.DataPath, taskID, peerID]) = .ok (f, md) →
      ∃ t, (s.ReloadPersistentTask lib now cb fs).2.1.tasks.Load ⟨peerID, taskID⟩ = some t ∧
        t.topersistentMetadata = md ∧ t.TaskID = md.TaskID ∧ t.PeerID = md.PeerID) ∧
    (s.tasks = [] → ∀ taskID peerID,
      (taskID, peerID) ∉ peerDirs fs s.storeOption.DataPath dirs →
      (s.ReloadPersistentTask lib now cb fs).2.1.tasks.Load ⟨peerID, taskID⟩ = none) := by
  constructor
  · intro taskID peerID f md hp hl
    refine ⟨reloadedStore s now cb taskID peerID f md, ?_, rfl, rfl, rfl⟩
    rw [storageManager.ReloadPersistentTask_tasks lib s now cb fs dirs hroot]
    exact storageManager.scan_Load_of_mem lib s now cb fs _ _ taskID peerID f md hp hl
  · intro hempty taskID peerID hp
    rw [storageManager.ReloadPersistentTask_tasks lib s now cb fs dirs hroot,
      storageManager.scan_Load_of_not_mem lib s now cb fs _ _ taskID peerID hp]
    show s.tasks.Load _ = none
    rw [hempty]
    rfl

/-- Witness of C28 on the disk with one good and one bad task directory: the document of
`t1/p1` is the empty object, whose ids are empty, and the store is registered under
`(t1, p1)`. -/
theorem ReloadPersistentTask_key_from_names_witness :
    exampleReloadDisk.ReadDir exampleManager.storeOption.DataPath = .ok ["t1", "t2"] ∧
    loadMetadata exampleStdlib exampleReloadDisk
      (pathJoin [exampleManager.storeOption.DataPath, "t1", "p1"])
      = .ok (⟨"/data/t1/p1/task.meta", .file 1⟩, {}) ∧
    ∃ t, (exampleManager.ReloadPersistentTask exampleStdlib 7 0 exampleReloadDisk).2.1.tasks.Load
        ⟨"p1", "t1"⟩ = some t ∧
      t.topersistentMetadata = {} ∧ t.TaskID = "" :=
  ⟨by decide, by decide,
   ((ReloadPersistentTask_key_from_names exampleStdlib exampleManager 7 0 exampleReloadDisk
      ["t1", "t2"] (by decide)).1 "t1" "p1" ⟨"/data/t1/p1/task.meta", .file 1⟩ {}
      (by decide) (by decide)).imp (fun _ h => ⟨h.1, h.2.1, h.2.2.1⟩)⟩

/-! ## Lemmas on package `path` -/

theorem splitSlash_ne_nil (a : List Char) : splitSlash a ≠ [] := by
  cases a with
  | nil => simp [splitSlash]
  | cons c cs =>
    unfold splitSlash
    split
    · simp
    · split <;> simp

theorem splitSlash_cons (c : Char) (cs : List Char) :
    ∃ w ws, splitSlash cs = w :: ws ∧
      splitSlash (c :: cs) = if c = '/' then [] :: w :: ws else (c :: w) :: ws := by
  cases h : splitSlash cs with
  | nil => exact absurd h (splitSlash_ne_nil cs)
  | cons w ws =>
    refine ⟨w, ws, rfl, ?_⟩
    rw [splitSlash, h]

theorem splitSlash_append_slash (a b : List Char) :
    splitSlash (a ++ '/' :: b) = splitSlash a ++ splitSlash b := by
  induction a with
  | nil =>
    obtain ⟨w, ws, h1, h2⟩ := splitSlash_cons '/' b
    simp only [List.nil_append, h2, if_true, h1, splitSlash, List.singleton_append]
  | cons c cs ih =>
    obtain ⟨w, ws, h1, h2⟩ := splitSlash_cons c (cs ++ '/' :: b)
    obtain ⟨w0, ws0, h3, h4⟩ := splitSlash_cons c cs
    rw [List.cons_append, h2, h4]
    rw [ih, h3, List.cons_append] at h1
    injection h1 with hw hws
    subst hw
    subst hws
    split <;> simp

theorem splitSlash_no_slash (a : List Char) (h : '/' ∉ a) : splitSlash a = [a] := by
  induction a with
  | nil => rfl
  | cons c cs ih =>
    have hc : c ≠ '/' := fun e => h (by simp [e])
    have hcs : '/' ∉ cs := fun hm => h (List.mem_cons_of_mem _ hm)
    rw [splitSlash, ih hcs]
    simp [hc]

theorem joinSlash_cons_cons (e e1 : List Char) (es : List (List Char)) :
    joinSlash (e :: e1 :: es) = e ++ '/' :: joinSlash (e1 :: es) := rfl

theorem splitSlash_joinSlash (l : List (List Char)) (hne : l ≠ [])
    (h : ∀ e, e ∈ l → '/' ∉ e) : splitSlash (joinSlash l) = l := by
  induction l with
  | nil => exact absurd rfl hne
  | cons e es ih =>
    cases es with
    | nil => exact splitSlash_no_slash e (h e (by simp))
    | cons e1 es1 =>
      rw [joinSlash_cons_cons, splitSlash_append_slash,
        splitSlash_no_slash e (h e (by simp)),
        ih (by simp) (fun x hx => h x (List.mem_cons_of_mem _ hx))]
      rfl

theorem joinSlash_append_one (l : List (List Char)) (hne : l ≠ []) (e : List Char) :
    joinSlash (l ++ [e]) = joinSlash l ++ '/' :: e := by
  induction l with
  | nil => exact absurd rfl hne
  | cons a as ih =>
    cases as with
    | nil => rfl
    | cons a1 as1 =>
      rw [List.cons_append, List.cons_append, joinSlash_cons_cons, joinSlash_cons_cons,
        ← List.cons_append, ih (by simp)]
      simp

theorem cleanElems_nil (r : Bool) (acc : List (List Char)) :
    cleanElems r acc [] = acc.reverse := by
  rw [cleanElems]

theorem cleanElems_plain (r : Bool) (acc : List (List Char)) (e : List Char)
    (es : List (List Char)) (h1 : e ≠ []) (h2 : e ≠ ['.']) (h3 : e ≠ ['.', '.']) :
    cleanElems r acc (e :: es) = cleanElems r (e :: acc) es := by
  simp [cleanElems, h1, h2, h3]

theorem cleanElems_append (r : Bool) (es1 es2 : List (List Char)) (acc : List (List Char)) :
    cleanElems r acc (es1 ++ es2) = cleanElems r (cleanElems r acc es1).reverse es2 := by
  induction es1 generalizing acc with
  | nil => simp [cleanElems_nil]
  | cons e es ih =>
    simp only [List.cons_append, cleanElems]
    split
    · exact ih acc
    · split
      · split
        · split
          · exact ih _
          · exact ih _
        · split
          · exact ih _
          · exact ih _
      · exact ih _

/-- Whatever holds of the elements of the stack and of the elements that are neither empty
nor `.` holds of the elements of the output. -/
theorem cleanElems_all (P : List Char → Prop) (r : Bool) (es acc : List (List Char))
    (hacc : ∀ a, a ∈ acc → P a)
    (hes : ∀ e, e ∈ es → e ≠ [] → e ≠ ['.'] → P e) :
    ∀ e, e ∈ cleanElems r acc es → P e := by
  induction es generalizing acc with
  | nil =>
    intro e he
    rw [cleanElems_nil] at he
    exact hacc e (List.mem_reverse.mp he)
  | cons x xs ih =>
    have hxs : ∀ e, e ∈ xs → e ≠ [] → e ≠ ['.'] → P e :=
      fun e he => hes e (List.mem_cons_of_mem _ he)
    simp only [cleanElems]
    split
    · exact ih acc hacc hxs
    · rename_i hx
      have hPx : P x := hes x (by simp) (fun e => hx (Or.inl e)) (fun e => hx (Or.inr e))
      split
      · split
        · split
          · exact ih [] hacc hxs
          · exact ih [x] (by intro a ha; simp at ha; rw [ha]; exact hPx) hxs
        · rename_i top rest
          split
          · refine ih (x :: top :: rest) ?_ hxs
            intro a ha
            rcases List.mem_cons.mp ha with h | h
            · rw [h]; exact hPx
            · exact hacc a h
          · exact ih rest (fun a ha => hacc a (List.mem_cons_of_mem _ ha)) hxs
      · refine ih (x :: acc) ?_ hxs
        intro a ha
        rcases List.mem_cons.mp ha with h | h
        · rw [h]; exact hPx
        · exact hacc a h

theorem cleanElems_stable_push (r : Bool) (acc : List (List Char)) (e : List Char)
    (hacc : ∀ n, cleanElems r [] (acc.drop n).reverse = (acc.drop n).reverse)
    (hpush : cleanElems r acc [e] = (e :: acc).reverse) :
    ∀ n, cleanElems r [] ((e :: acc).drop n).reverse = ((e :: acc).drop n).reverse := by
  intro n
  cases n with
  | zero =>
    have h0 : cleanElems r [] acc.reverse = acc.reverse := by simpa using hacc 0
    simp only [List.drop_zero, List.reverse_cons]
    rw [cleanElems_append, h0, List.reverse_reverse, hpush, List.reverse_cons]
  | succ k => simpa using hacc k

theorem cleanElems_stable_nil (r : Bool) :
    ∀ n, cleanElems r [] (([] : List (List Char)).drop n).reverse
      = (([] : List (List Char)).drop n).reverse := by
  intro n
  simp [cleanElems_nil]

/-- The output of the element loop is a fixed point of the loop. -/
theorem cleanElems_stable (r : Bool) (es acc : List (List Char))
    (hacc : ∀ n, cleanElems r [] (acc.drop n).reverse = (acc.drop n).reverse) :
    cleanElems r [] (cleanElems r acc es) = cleanElems r acc es := by
  induction es generalizing acc with
  | nil =>
    rw [cleanElems_nil]
    simpa using hacc 0
  | cons x xs ih =>
    by_cases hdrop : x = [] ∨ x = ['.']
    · have hstep : cleanElems r acc (x :: xs) = cleanElems r acc xs := by
        simp [cleanElems, hdrop]
      rw [hstep]
      exact ih acc hacc
    · by_cases hdd : x = ['.', '.']
      · cases acc with
        | nil =>
          by_cases hr : r = true
          · have hstep : cleanElems r [] (x :: xs) = cleanElems r [] xs := by
              simp [cleanElems, hdd, hr]
            rw [hstep]
            exact ih [] hacc
          · have hstep : cleanElems r [] (x :: xs) = cleanElems r [x] xs := by
              simp [cleanElems, hdd, hr]
            rw [hstep]
            refine ih [x] (cleanElems_stable_push r [] x hacc ?_)
            simp [cleanElems, hdd, hr]
        | cons top rest =>
          by_cases htop : top = ['.', '.']
          · have hstep : cleanElems r (top :: rest) (x :: xs)
                = cleanElems r (x :: top :: rest) xs := by
              simp [cleanElems, hdd, htop]
            rw [hstep]
            refine ih _ (cleanElems_stable_push r _ x hacc ?_)
            simp [cleanElems, hdd, htop]
          · have hstep : cleanElems r (top :: rest) (x :: xs) = cleanElems r rest xs := by
              simp [cleanElems, hdd, htop]
            rw [hstep]
            exact ih rest (fun n => by simpa using hacc (n + 1))
      · have hx1 : x ≠ [] := fun e => hdrop (Or.inl e)
        have hx2 : x ≠ ['.'] := fun e => hdrop (Or.inr e)
        rw [cleanElems_plain r acc x xs hx1 hx2 hdd]
        refine ih _ (cleanElems_stable_push r _ x hacc ?_)
        rw [cleanElems_plain r acc x [] hx1 hx2 hdd, cleanElems_nil]

theorem cleanChars_of_rooted (cs : List Char) :
    cleanChars ('/' :: cs) = '/' :: joinSlash (cleanElems true [] (splitSlash ('/' :: cs))) := by
  simp [cleanChars]

theorem cleanChars_of_unrooted (c : Char) (cs : List Char) (hc : c ≠ '/') :
    cleanChars (c :: cs) =
      if cleanElems false [] (splitSlash (c :: cs)) = [] then ['.']
      else joinSlash (cleanElems false [] (splitSlash (c :: cs))) := by
  simp [cleanChars, hc]

theorem joinSlash_head (e : List Char) (es : List (List Char)) (c : Char) (cs : List Char)
    (he : e = c :: cs) : ∃ rest, joinSlash (e :: es) = c :: rest := by
  subst he
  cases es with
  | nil => exact ⟨cs, rfl⟩
  | cons e1 es1 => exact ⟨cs ++ '/' :: joinSlash (e1 :: es1), rfl⟩

/-- A joined list of clean elements is neither empty, nor the root, nor `.`, and does not
start with a slash. -/
theorem joinSlash_good (l : List (List Char)) (hne : l ≠ [])
    (h : ∀ e, e ∈ l → e ≠ [] ∧ e ≠ ['.'] ∧ '/' ∉ e) :
    ∃ c rest, joinSlash l = c :: rest ∧ c ≠ '/' ∧ joinSlash l ≠ ['.'] := by
  cases l with
  | nil => exact absurd rfl hne
  | cons e es =>
    obtain ⟨h1, h2, h3⟩ := h e (by simp)
    cases e with
    | nil => exact absurd rfl h1
    | cons c cs =>
      have hc : c ≠ '/' := fun heq => h3 (by simp [heq])
      cases es with
      | nil => exact ⟨c, cs, rfl, hc, h2⟩
      | cons e1 es1 =>
        refine ⟨c, cs ++ '/' :: joinSlash (e1 :: es1), rfl, hc, ?_⟩
        rw [joinSlash_cons_cons]
        simp

theorem cleanElems_two (r : Bool) (acc : List (List Char)) (t p : List Char)
    (ht1 : t ≠ []) (ht2 : t ≠ ['.']) (ht3 : t ≠ ['.', '.'])
    (hp1 : p ≠ []) (hp2 : p ≠ ['.']) (hp3 : p ≠ ['.', '.']) :
    cleanElems r acc [t, p] = acc.reverse ++ [t, p] := by
  rw [cleanElems_plain r acc t [p] ht1 ht2 ht3, cleanElems_plain r _ p [] hp1 hp2 hp3,
    cleanElems_nil]
  simp

/-- The shape of `path.Join(root, t, p)` for two plain names: the cleaned elements of the
root followed by the two names, the list being a fixed point of the element loop. -/
theorem cleanChars_names_form (root t p : List Char)
    (ht1 : t ≠ []) (ht2 : t ≠ ['.']) (ht3 : t ≠ ['.', '.']) (ht4 : '/' ∉ t)
    (hp1 : p ≠ []) (hp2 : p ≠ ['.']) (hp3 : p ≠ ['.', '.']) (hp4 : '/' ∉ p) :
    ∃ (r : Bool) (R : List (List Char)),
      (∀ e, e ∈ R → e ≠ [] ∧ e ≠ ['.'] ∧ '/' ∉ e) ∧
      cleanElems r [] (R ++ [t, p]) = R ++ [t, p] ∧
      cleanChars root =
        (if r = true then '/' :: joinSlash R
         else if R = [] then ['.'] else joinSlash R) ∧
      cleanChars (joinSlash (([root, t, p] : List (List Char)).filter (fun e => e ≠ []))) =
        (if r = true then '/' :: joinSlash (R ++ [t, p]) else joinSlash (R ++ [t, p])) := by
  have hsplit2 : splitSlash (t ++ '/' :: p) = [t, p] := by
    rw [splitSlash_append_slash, splitSlash_no_slash t ht4, splitSlash_no_slash p hp4]
    rfl
  cases root with
  | nil =>
    refine ⟨false, [], by simp, ?_, by simp [cleanChars], ?_⟩
    · rw [List.nil_append, cleanElems_two false [] t p ht1 ht2 ht3 hp1 hp2 hp3]
      rfl
    · have hf : (([[], t, p] : List (List Char)).filter (fun e => e ≠ [])) = [t, p] := by
        simp [List.filter, ht1, hp1]
      rw [hf]
      show cleanChars (t ++ '/' :: p) = _
      cases t with
      | nil => exact absurd rfl ht1
      | cons c cs =>
        have hc : c ≠ '/' := fun heq => ht4 (by simp [heq])
        rw [List.cons_append, cleanChars_of_unrooted c _ hc, ← List.cons_append, hsplit2,
          cleanElems_two false [] (c :: cs) p ht1 ht2 ht3 hp1 hp2 hp3]
        simp
  | cons c cs =>
    have hf : (([c :: cs, t, p] : List (List Char)).filter (fun e => e ≠ []))
        = [c :: cs, t, p] := by
      simp [List.filter, ht1, hp1]
    have hjoin : joinSlash [c :: cs, t, p] = (c :: cs) ++ '/' :: (t ++ '/' :: p) := rfl
    have hsplit : splitSlash ((c :: cs) ++ '/' :: (t ++ '/' :: p))
        = splitSlash (c :: cs) ++ [t, p] := by
      rw [splitSlash_append_slash, hsplit2]
    have hgood : ∀ (r : Bool) e, e ∈ cleanElems r [] (splitSlash (c :: cs)) →
        e ≠ [] ∧ e ≠ ['.'] ∧ '/' ∉ e := by
      intro r
      refine cleanElems_all (fun e => e ≠ [] ∧ e ≠ ['.'] ∧ '/' ∉ e) r _ [] (by simp) ?_
      intro e he h1 h2
      refine ⟨h1, h2, ?_⟩
      have hall : ∀ (a : List Char) e, e ∈ splitSlash a → '/' ∉ e := by
        intro a
        induction a with
        | nil => intro e he; simp [splitSlash] at he; rw [he]; simp
        | cons x xs ih =>
          intro e he
          obtain ⟨w, ws, h1, h2⟩ := splitSlash_cons x xs
          rw [h2] at he
          rw [h1] at ih
          split at he
          · rcases List.mem_cons.mp he with h | h
            · rw [h]; simp
            · exact ih e h
          · rename_i hx
            rcases List.mem_cons.mp he with h | h
            · rw [h]
              intro hm
              rcases List.mem_cons.mp hm with h3 | h3
              · exact hx h3.symm
              · exact ih w (by simp) h3
            · exact ih e (List.mem_cons_of_mem _ h)
      exact hall _ e he
    have hout : ∀ r : Bool, cleanElems r [] (splitSlash (c :: cs) ++ [t, p])
        = cleanElems r [] (splitSlash (c :: cs)) ++ [t, p] := by
      intro r
      rw [cleanElems_append, cleanElems_two r _ t p ht1 ht2 ht3 hp1 hp2 hp3,
        List.reverse_reverse]
    have hstable : ∀ r : Bool,
        cleanElems r [] (cleanElems r [] (splitSlash (c :: cs)) ++ [t, p])
          = cleanElems r [] (splitSlash (c :: cs)) ++ [t, p] := by
      intro r
      rw [← hout r]
      exact cleanElems_stable r _ [] (cleanElems_stable_nil r)
    rw [hf, hjoin]
    by_cases hc : c = '/'
    · subst hc
      refine ⟨true, cleanElems true [] (splitSlash ('/' :: cs)), hgood true, hstable true,
        ?_, ?_⟩
      · rw [cleanChars_of_rooted]; simp
      · rw [List.cons_append, cleanChars_of_rooted, ← List.cons_append, hsplit, hout true]
        simp
    · refine ⟨false, cleanElems false [] (splitSlash (c :: cs)), hgood false,
        hstable false, ?_, ?_⟩
      · rw [cleanChars_of_unrooted c cs hc]; simp
      · rw [List.cons_append, cleanChars_of_unrooted c _ hc, ← List.cons_append, hsplit,
          hout false]
        simp

theorem cleanChars_join_name (r : Bool) (L : List (List Char)) (name : List Char)
    (hne : L ≠ []) (hgood : ∀ e, e ∈ L → e ≠ [] ∧ e ≠ ['.'] ∧ '/' ∉ e)
    (hst : cleanElems r [] L = L)
    (hn1 : name ≠ []) (hn2 : name ≠ ['.']) (hn3 : name ≠ ['.', '.']) (hn4 : '/' ∉ name) :
    cleanChars ((if r = true then '/' :: joinSlash L else joinSlash L) ++ '/' :: name)
      = (if r = true then '/' :: joinSlash L else joinSlash L) ++ '/' :: name := by
  have hsplit : splitSlash (joinSlash L ++ '/' :: name) = L ++ [name] := by
    rw [splitSlash_append_slash, splitSlash_joinSlash L hne (fun e he => (hgood e he).2.2),
      splitSlash_no_slash name hn4]
  have hclean : cleanElems r [] (L ++ [name]) = L ++ [name] := by
    rw [cleanElems_append, hst, cleanElems_plain r _ name [] hn1 hn2 hn3, cleanElems_nil]
    simp
  have hjoin := joinSlash_append_one L hne name
  obtain ⟨c, rest, hj, hc, _⟩ := joinSlash_good L hne hgood
  cases r with
  | true =>
    simp only [if_true]
    rw [List.cons_append, cleanChars_of_rooted]
    obtain ⟨w, ws, h1, h2⟩ := splitSlash_cons '/' (joinSlash L ++ '/' :: name)
    rw [h2, if_pos rfl, ← h1, hsplit]
    have hdrop : cleanElems true [] ([] :: (L ++ [name])) = cleanElems true [] (L ++ [name]) := by
      simp [cleanElems]
    rw [hdrop, hclean, hjoin]
  | false =>
    simp only [Bool.false_eq_true, if_false]
    have hne2 : L ++ [name] ≠ [] := by simp
    rw [hj, List.cons_append, cleanChars_of_unrooted c _ hc, ← List.cons_append, ← hj, hsplit,
      hclean, if_neg hne2, hjoin]

theorem slash_cut (t t1 p p1 : List Char) (ht : '/' ∉ t) (ht1 : '/' ∉ t1)
    (h : t ++ '/' :: p = t1 ++ '/' :: p1) : t = t1 ∧ p = p1 := by
  induction t generalizing t1 with
  | nil =>
    cases t1 with
    | nil => simpa using h
    | cons c cs =>
      simp only [List.nil_append, List.cons_append, List.cons.injEq] at h
      exact absurd h.1.symm (fun e => ht1 (by simp [e]))
  | cons c cs ih =>
    cases t1 with
    | nil =>
      simp only [List.nil_append, List.cons_append, List.cons.injEq] at h
      exact absurd h.1 (fun e => ht (by simp [e]))
    | cons c1 cs1 =>
      simp only [List.cons_append, List.cons.injEq] at h
      obtain ⟨h1, h2⟩ := ih cs1 (fun hm => ht (List.mem_cons_of_mem _ hm))
        (fun hm => ht1 (List.mem_cons_of_mem _ hm)) h.2
      exact ⟨by rw [h.1, h1], h2⟩

theorem pathJoin_three_data (root t p : String) (ht : t.data ≠ []) :
    (pathJoin [root, t, p]).data =
      cleanChars (joinSlash (([root.data, t.data, p.data] : List (List Char)).filter
        (fun e => e ≠ []))) := by
  unfold pathJoin
  simp only [List.map_cons, List.map_nil]
  cases h : ([root.data, t.data, p.data] : List (List Char)).filter (fun e => e ≠ []) with
  | nil =>
    have : t.data ∈ ([root.data, t.data, p.data] : List (List Char)).filter (fun e => e ≠ []) :=
      List.mem_filter.mpr ⟨by simp, by simpa using ht⟩
    rw [h] at this
    simp at this
  | cons e es => rfl

theorem pathJoin_two_data (d name : String) (hd : d.data ≠ []) (hn : name.data ≠ []) :
    (pathJoin [d, name]).data = cleanChars (d.data ++ '/' :: name.data) := by
  unfold pathJoin
  have hf : (([d, name].map String.data).filter (fun e => e ≠ [])) = [d.data, name.data] := by
    simp [List.filter, hd, hn]
  rw [hf]
  rfl

theorem string_eq_iff_data (s : String) (l : List Char) : s = String.mk l ↔ s.data = l := by
  constructor
  · intro h; rw [h]
  · intro h; rw [← h]

/-- The data directory of two plain names, written out: the cleaned root, a slash unless the
cleaned root is `/` or `.` (which then stand for nothing but the leading slash), and the two
names with a slash in between; and a plain name joined to it is appended after a slash. -/
theorem pathJoin_names (root t p : String) (ht : IsPlainName t) (hp : IsPlainName p) :
    (pathJoin [root, t, p]).data =
      (if pathClean root = "/" then ['/'] else if pathClean root = "." then []
        else (pathClean root).data ++ ['/']) ++ t.data ++ '/' :: p.data ∧
    ∀ name : String, IsPlainName name →
      (pathJoin [pathJoin [root, t, p], name]).data
        = (pathJoin [root, t, p]).data ++ '/' :: name.data := by
  obtain ⟨ht1, ht4, ht2, ht3⟩ := ht
  obtain ⟨hp1, hp4, hp2, hp3⟩ := hp
  obtain ⟨r, R, hgood, hst, hroot, hjoin⟩ :=
    cleanChars_names_form root.data t.data p.data ht1 ht2 ht3 ht4 hp1 hp2 hp3 hp4
  have hdata := pathJoin_three_data root t p ht1
  rw [hjoin] at hdata
  have hclean : (pathClean root).data = cleanChars root.data := rfl
  have hL : R ++ [t.data, p.data] ≠ [] := by simp
  have hgoodL : ∀ e, e ∈ R ++ [t.data, p.data] → e ≠ [] ∧ e ≠ ['.'] ∧ '/' ∉ e := by
    intro e he
    rcases List.mem_append.mp he with h | h
    · exact hgood e h
    · simp only [List.mem_cons, List.mem_singleton, List.not_mem_nil, or_false] at h
      rcases h with h | h
      · rw [h]; exact ⟨ht1, ht2, ht4⟩
      · rw [h]; exact ⟨hp1, hp2, hp4⟩
  constructor
  · rw [hdata]
    have hroot1 : pathClean root = "/" ↔ cleanChars root.data = ['/'] :=
      string_eq_iff_data (pathClean root) ['/']
    have hroot2 : pathClean root = "." ↔ cleanChars root.data = ['.'] :=
      string_eq_iff_data (pathClean root) ['.']
    rw [hclean]
    by_cases hR : R = []
    · subst hR
      cases r with
      | true =>
        have hc : cleanChars root.data = ['/'] := by rw [hroot]; rfl
        rw [if_pos (hroot1.mpr hc)]
        rfl
      | false =>
        have hc : cleanChars root.data = ['.'] := by rw [hroot]; rfl
        have hne : ¬ pathClean root = "/" := by rw [hroot1, hc]; decide
        rw [if_neg hne, if_pos (hroot2.mpr hc)]
        rfl
    · obtain ⟨c, rest, hj, hcs, hdot⟩ := joinSlash_good R hR hgood
      have hexp : joinSlash (R ++ [t.data, p.data])
          = joinSlash R ++ '/' :: t.data ++ '/' :: p.data := by
        have : R ++ [t.data, p.data] = (R ++ [t.data]) ++ [p.data] := by simp
        rw [this, joinSlash_append_one _ (by simp), joinSlash_append_one R hR]
      cases r with
      | true =>
        have hc : cleanChars root.data = '/' :: joinSlash R := by rw [hroot]; rfl
        have hne1 : ¬ pathClean root = "/" := by rw [hroot1, hc, hj]; simp
        have hne2 : ¬ pathClean root = "." := by rw [hroot2, hc]; simp
        rw [if_neg hne1, if_neg hne2, hc, hexp]
        simp
      | false =>
        have hc : cleanChars root.data = joinSlash R := by rw [hroot]; simp [hR]
        have hne1 : ¬ pathClean root = "/" := by
          rw [hroot1, hc, hj]
          intro h
          exact hcs (List.cons.inj h).1
        have hne2 : ¬ pathClean root = "." := by rw [hroot2, hc]; exact hdot
        rw [if_neg hne1, if_neg hne2, hc, hexp]
        simp
  · intro name hname
    obtain ⟨hn1, hn4, hn2, hn3⟩ := hname
    have hd : (pathJoin [root, t, p]).data ≠ [] := by
      rw [hdata]
      obtain ⟨c, rest, hj, _, _⟩ := joinSlash_good _ hL hgoodL
      split
      · simp
      · rw [hj]; simp
    rw [pathJoin_two_data _ name hd hn1, hdata]
    exact cleanChars_join_name r _ name.data hL hgoodL hst hn1 hn2 hn3 hn4

theorem pathJoin_names_inj (root t p t1 p1 : String) (ht : IsPlainName t)
    (hp : IsPlainName p) (ht1 : IsPlainName t1) (hp1 : IsPlainName p1)
    (h : pathJoin [root, t, p] = pathJoin [root, t1, p1]) : t = t1 ∧ p = p1 := by
  have h1 := (pathJoin_names root t p ht hp).1
  have h2 := (pathJoin_names root t1 p1 ht1 hp1).1
  rw [h, h2, List.append_assoc, List.append_assoc] at h1
  have h3 := slash_cut _ _ _ _ ht1.2.1 ht.2.1 (List.append_cancel_left h1)
  exact ⟨String.ext h3.1.symm, String.ext h3.2.symm⟩

theorem pathJoin_names_name_inj (root t p t1 p1 name : String) (ht : IsPlainName t)
    (hp : IsPlainName p) (ht1 : IsPlainName t1) (hp1 : IsPlainName p1)
    (hname : IsPlainName name)
    (h : pathJoin [pathJoin [root, t, p], name] = pathJoin [pathJoin [root, t1, p1], name]) :
    t = t1 ∧ p = p1 := by
  have h1 := (pathJoin_names root t p ht hp).2 name hname
  have h2 := (pathJoin_names root t1 p1 ht1 hp1).2 name hname
  rw [h, h2] at h1
  exact pathJoin_names_inj root t p t1 p1 ht hp ht1 hp1
    (String.ext (List.append_cancel_right h1).symm)

theorem pathJoin_names_ne_root (root t p : String) (ht : IsPlainName t)
    (hp : IsPlainName p) : pathJoin [root, t, p] ≠ pathClean root := by
  intro h
  have h1 := (pathJoin_names root t p ht hp).1
  rw [h] at h1
  have ht0 : 0 < t.data.length := List.length_pos.mpr ht.1
  by_cases hr : pathClean root = "/"
  · rw [if_pos hr, hr] at h1
    have hlen := congrArg List.length h1
    have h2 : ("/" : String).data.length = 1 := rfl
    simp only [List.length_append, List.length_cons, List.length_nil, h2] at hlen
    omega
  · rw [if_neg hr] at h1
    by_cases hd : pathClean root = "."
    · rw [if_pos hd, hd] at h1
      have hlen := congrArg List.length h1
      have h2 : ("." : String).data.length = 1 := rfl
      simp only [List.length_append, List.length_cons, List.length_nil, h2] at hlen
      omega
    · rw [if_neg hd] at h1
      have hlen := congrArg List.length h1
      simp only [List.length_append, List.length_cons, List.length_nil] at hlen
      omega

/-! ## The claims on the data directory of a key -/

/-- C27. For task ids and peer ids that are not empty, hold no slash and are neither `.`
nor `..`, the data directory `path.Join(dataRoot, taskID, peerID)` is injective in the key:
two stores that `CreateTask` makes for distinct keys have distinct data directories, hence
distinct metadata files and, under the Simple strategy, distinct data files; and each such
directory lies strictly under the data root: it is the cleaned data root followed by the
task id and the peer id as two further path elements. -/
theorem dataDir_injective (s : storageManager) (req req1 : RegisterTaskRequest)
    (m m1 : OsFile)
    (ht : IsPlainName req.TaskID) (hp : IsPlainName req.PeerID)
    (ht1 : IsPlainName req1.TaskID) (hp1 : IsPlainName req1.PeerID)
    (hkey : (⟨req.PeerID, req.TaskID⟩ : PeerTaskMetaData) ≠ ⟨req1.PeerID, req1.TaskID⟩) :
    (createdStore s req m).dataDir
      = pathJoin [s.storeOption.DataPath, req.TaskID, req.PeerID] ∧
    (createdStore s req m).dataDir ≠ (createdStore s req1 m1).dataDir ∧
    (createdStore s req m).metadataFilePath ≠ (createdStore s req1 m1).metadataFilePath ∧
    ((createdStore s req m).StoreStrategy = SimpleLocalTaskStoreStrategy →
      (createdStore s req1 m1).StoreStrategy = SimpleLocalTaskStoreStrategy →
      (createdStore s req m).DataFilePath ≠ (createdStore s req1 m1).DataFilePath) ∧
    (createdStore s req m).dataDir.data =
      (if pathClean s.storeOption.DataPath = "/" then ['/']
        else if pathClean s.storeOption.DataPath = "." then []
        else (pathClean s.storeOption.DataPath).data ++ ['/'])
        ++ req.TaskID.data ++ '/' :: req.PeerID.data ∧
    (createdStore s req m).dataDir ≠ pathClean s.storeOption.DataPath := by
  have hdiff : ¬ (req.TaskID = req1.TaskID ∧ req.PeerID = req1.PeerID) := by
    rintro ⟨h1, h2⟩
    exact hkey (by rw [h1, h2])
  refine ⟨rfl, ?_, ?_, ?_, (pathJoin_names _ _ _ ht hp).1,
    pathJoin_names_ne_root _ _ _ ht hp⟩
  · intro h
    exact hdiff (pathJoin_names_inj _ _ _ _ _ ht hp ht1 hp1 h)
  · intro h
    exact hdiff (pathJoin_names_name_inj _ _ _ _ _ taskMetaData ht hp ht1 hp1 (by decide) h)
  · intro hs hs1 h
    have e : (createdStore s req m).DataFilePath
        = pathJoin [pathJoin [s.storeOption.DataPath, req.TaskID, req.PeerID], taskData] := by
      have htag : (if req.Destination = "" then SimpleLocalTaskStoreStrategy
          else s.storeStrategy) = SimpleLocalTaskStoreStrategy := by
        simpa [createdStore] using hs
      simp only [createdStore, htag, if_true]
    have e1 : (createdStore s req1 m1).DataFilePath
        = pathJoin [pathJoin [s.storeOption.DataPath, req1.TaskID, req1.PeerID], taskData] := by
      have htag : (if req1.Destination = "" then SimpleLocalTaskStoreStrategy
          else s.storeStrategy) = SimpleLocalTaskStoreStrategy := by
        simpa [createdStore] using hs1
      simp only [createdStore, htag, if_true]
    rw [e, e1] at h
    exact hdiff (pathJoin_names_name_inj _ _ _ _ _ taskData ht hp ht1 hp1 (by decide) h)

/-- Witness of C27 on the requests for `(t1, p1)` and `(t2, p1)` on the fresh manager. -/
theorem dataDir_injective_witness :
    IsPlainName "t1" ∧ IsPlainName "p1" ∧ IsPlainName "t2" ∧
    (createdStore exampleManager exampleRequest ⟨"/data/t1/p1/task.meta", .file 1⟩).dataDir
      = "/data/t1/p1" ∧
    (createdStore exampleManager exampleRequest ⟨"/data/t1/p1/task.meta", .file 1⟩).dataDir
      ≠ (createdStore exampleManager { exampleRequest with TaskID := "t2" }
          ⟨"/data/t2/p1/task.meta", .file 2⟩).dataDir :=
  ⟨by decide, by decide, by decide, by decide,
   (dataDir_injective exampleManager exampleRequest { exampleRequest with TaskID := "t2" }
      ⟨"/data/t1/p1/task.meta", .file 1⟩ ⟨"/data/t2/p1/task.meta", .file 2⟩
      (by decide) (by decide) (by decide) (by decide) (by decide)).2.1⟩

end Dragonfly
